import Mathlib

/-!
# `unwind`: dexel conversion, grid padding, SDF sizing, boundary faces, cut index, flattening

A shallow embedding of the loops of `src/ui/meshing_plugin.cpp` and
`src/tests/test_meshing_harish_data.cpp`, of the cut-index controls and rotation buttons of
`src/ui/bounding_polygon_plugin.cpp` and of `svgFlattenCubicBezier` of
`src/utils/voroffset/app/cli2d/readsvg.cpp`, and the properties proved about them.

Conventions of the embedding.

* `double`/`float` values are rationals (`Scalar = ℚ`). Comparisons, `std::min`, `std::max`
  and `std::abs` are exact on them. The arithmetic of the SDF grid sizing is rounded to
  `float` after every operation (`fl32`) and that of `svgFlattenCubicBezier` to `double`
  (`fl64`, `dadd`, `dsub`, `dmul`), to the nearest value, ties to even. NaN, infinities and
  the subnormal range are outside the model, and so is the rounding of the nudge of the cut
  index and of the angle constants, on which the statements about them do not depend.
* `int` loop counters and dimensions that the code only counts upwards from `0` are `Nat`;
  counters that start at `-1` are `Int`. Overflow of `int` is outside the model.
* `for (int i = 0; i < n; i++) body` is `(List.range n).foldl body`, the loop-carried variables
  being the accumulator.
* An `Eigen::VectorXd` that is only read is its index-to-value map `Nat → Scalar`.
-/

namespace Unwind

/-! # The program -/

/-- A `double` (or `float`) of the program, as the rational number it holds. -/
abbrev Scalar := ℚ

/-! ## Rounding of the floating-point operations -/

/-- Rounding to the nearest integer, a tie going to the even one. -/
def round_even (x : Scalar) : Int :=
  if x - ⌊x⌋ < 1 / 2 then ⌊x⌋
  else if 1 / 2 < x - ⌊x⌋ then ⌊x⌋ + 1
  else if ⌊x⌋ % 2 = 0 then ⌊x⌋
  else ⌊x⌋ + 1

/-- The floating-point number with a significand of `p` bits nearest to `x`, a tie going to
the even significand: the rounding of IEEE 754 arithmetic in its default mode. For `x ≠ 0`
the exponent `e` of the last bit is that of the binade of `x`, and `x / 2 ^ e` is rounded to
an integer. The exponent is not bounded: overflow to infinity and the subnormal range are
outside the model. -/
def round_float (p : Nat) (x : Scalar) : Scalar :=
  if x = 0 then 0
  else
    let e : Int := Int.log 2 |x| - ((p : Int) - 1)
    (round_even (x / 2 ^ e) : Scalar) * 2 ^ e

/-- Rounding to `float` (binary32, 24 bits of significand). -/
def fl32 (x : Scalar) : Scalar := round_float 24 x

/-- Rounding to `double` (binary64, 53 bits of significand). -/
def fl64 (x : Scalar) : Scalar := round_float 53 x

/-- The sum of two `double`s: the exact sum, rounded. -/
def dadd (a b : Scalar) : Scalar := fl64 (a + b)

/-- The difference of two `double`s: the exact difference, rounded. -/
def dsub (a b : Scalar) : Scalar := fl64 (a - b)

/-- The product of two `double`s: the exact product, rounded. -/
def dmul (a b : Scalar) : Scalar := fl64 (a * b)

/-! ## `vor3d::CompressedVolume` -/

/-- Modelled from the spec: the class `vor3d::CompressedVolume` (voroffset, not among the
sources). Per the data model it holds an origin, an extent, a grid size `(gx, gy)` and, for
each column, the ordered sequence of transition heights along the third axis. -/
structure CompressedVolume where
  origin : Scalar × Scalar × Scalar
  extent : Scalar × Scalar × Scalar
  gridSize : Nat × Nat
  data : Nat → Nat → List Scalar

namespace CompressedVolume

/-- Modelled from the spec: the constructor `CompressedVolume(origin, extent, voxel_size,
padding)`: no column holds a height yet, and the grid size is the extent of the two scan axes
(grown by the padding) counted in cells, rounded up. -/
def init (origin extent : Scalar × Scalar × Scalar) (voxel_size padding : Scalar) :
    CompressedVolume where
  origin := (origin.1 - padding, origin.2.1 - padding, origin.2.2 - padding)
  extent := (extent.1 + 2 * padding, extent.2.1 + 2 * padding, extent.2.2 + 2 * padding)
  gridSize := (⌈(extent.1 + 2 * padding) / voxel_size⌉.toNat,
               ⌈(extent.2.1 + 2 * padding) / voxel_size⌉.toNat)
  data := fun _ _ => []

/-- Modelled from the spec: `appendSegment(x, y, zbegin, zend, n)` appends one solid interval
to column `(x, y)`: the entry height, then the exit height. -/
def appendSegment (v : CompressedVolume) (x y : Nat) (zbegin zend : Scalar) :
    CompressedVolume :=
  { v with data := fun i j => if i = x ∧ j = y then v.data i j ++ [zbegin, zend]
                              else v.data i j }

/-- Modelled from the spec: `at(x, y)`, the heights of column `(x, y)`. -/
def «at» (v : CompressedVolume) (x y : Nat) : List Scalar := v.data x y

end CompressedVolume

/-! ## `volume_to_dexels` (meshing_plugin.cpp, lines 28-49) -/

/-- Loop-carried variables of the `x` loop of `volume_to_dexels`. -/
structure ColumnScan where
  start_idx : Nat
  outside : Bool
  seg_entry : Nat
  dexels : CompressedVolume

/-- One iteration of `for (int x = 0; x < w; x++)` (lines 37-44). -/
def volume_to_dexels_x (scalars : Nat → Scalar) (z y : Nat) (st : ColumnScan) (x : Nat) :
    ColumnScan :=
  if st.outside = true ∧ scalars st.start_idx > 0 then
    { st with seg_entry := x, outside := false, start_idx := st.start_idx + 1 }
  else if st.outside = false ∧ scalars st.start_idx ≤ 0 then
    { st with dexels := st.dexels.appendSegment z y (st.seg_entry : Scalar) (x : Scalar),
              outside := true, start_idx := st.start_idx + 1 }
  else
    { st with start_idx := st.start_idx + 1 }

/-- One iteration of `for (int y = 0; y < h; y++)` (lines 34-45): `outside` and `seg_entry`
are reset, `start_idx` and `dexels` are carried over. -/
def volume_to_dexels_y (scalars : Nat → Scalar) (w z : Nat) (st : Nat × CompressedVolume)
    (y : Nat) : Nat × CompressedVolume :=
  let r := (List.range w).foldl (volume_to_dexels_x scalars z y)
    { start_idx := st.1, outside := true, seg_entry := 0, dexels := st.2 }
  (r.start_idx, r.dexels)

/-- One iteration of `for (int z = 0; z < d; z++)` (lines 32-47). -/
def volume_to_dexels_z (scalars : Nat → Scalar) (w h : Nat) (st : Nat × CompressedVolume)
    (z : Nat) : Nat × CompressedVolume :=
  (List.range h).foldl (volume_to_dexels_y scalars w z) st

/-- The function `volume_to_dexels(scalars, w, h, d, dexels)`: the value of `dexels` on return. -/
def volume_to_dexels (scalars : Nat → Scalar) (w h d : Nat) : CompressedVolume :=
  ((List.range d).foldl (volume_to_dexels_z scalars w h)
    (0, CompressedVolume.init (0, 0, 0) ((d : Scalar), (h : Scalar), (w : Scalar)) 1 0)).2

/-- The value of `!outside` when the `x` loop of column `(z, y)` ends: a positive run was
entered and not closed, so the column saw an odd number of crossings. -/
def scan_ends_inside (scalars : Nat → Scalar) (w h z y : Nat) : Bool :=
  !((List.range w).foldl (volume_to_dexels_x scalars z y)
      { start_idx := z * (w * h) + y * w, outside := true, seg_entry := 0,
        dexels := CompressedVolume.init (0, 0, 0) (0, 0, 0) 1 0 }).outside

/-- How a call of `volume_to_dexels` ends for its caller. The function is `void` and its body
is the three loops alone: it has no early `return`, no `throw`, no assertion and no output
statement, so every call returns normally with `dexels` as the loops left it, and never with
a diagnostic. -/
def volume_to_dexels_call (scalars : Nat → Scalar) (w h d : Nat) :
    Except String CompressedVolume :=
  Except.ok (volume_to_dexels scalars w h d)

/-! ## `dexels_to_mesh` (meshing_plugin.cpp, lines 51-107) -/

/-- The values `lo, lo+1, ..., hi-1` taken by `for (int i = lo; i < hi; ++i)`. -/
def intLoop (lo hi : Int) : List Int :=
  (List.range (hi - lo).toNat).map fun (k : Nat) => lo + (k : Int)

/-- The search loop of lines 77-83 from position `i` on, `d` being the heights not yet
visited: `idx` becomes `i - 1` at the first height above `grid_ctr[2]` (then `break`), and
keeps its initial value `-1` when there is none. -/
def dexel_idx (grid_ctr2 : Scalar) : List Scalar → Nat → Int
  | [], _ => -1
  | di :: rest, i => if grid_ctr2 < di then (i : Int) - 1 else dexel_idx grid_ctr2 rest (i + 1)

/-- Lines 76-94: the value pushed to `grid_vals` for a non-halo sample of height `grid_ctr2`
in the column `d`. -/
def dexel_sample (d : List Scalar) (grid_ctr2 : Scalar) : Scalar :=
  let idx := dexel_idx grid_ctr2 d 0
  if idx < 0 then 1
  else if Int.tmod idx 2 = 0 then -1
  else 1

/-- Lines 60, 64, 72: the height `grid_ctr[2]` of sample layer `z`. -/
def grid_ctr2 (n_samples : Nat) (dexels : CompressedVolume) (z : Int) : Scalar :=
  dexels.origin.2.2 + ((z : Scalar) + 1 / 2) * (dexels.extent.2.2 / (n_samples : Scalar))

/-- The halo test of line 60. -/
def is_halo (n_samples : Nat) (dexels : CompressedVolume) (x y z : Int) : Prop :=
  x = -1 ∨ y = -1 ∨ z = -1 ∨ x = (dexels.gridSize.1 : Int) ∨ y = (dexels.gridSize.2 : Int) ∨
    z = (n_samples : Int)

instance (n_samples : Nat) (dexels : CompressedVolume) (x y z : Int) :
    Decidable (is_halo n_samples dexels x y z) := by
  unfold is_halo
  infer_instance

/-- One iteration of the `x` loop (lines 60-94): the value appended to `grid_vals`.
(`grid_pts`, which only carries the sample positions, is not modelled.) -/
def dexels_to_mesh_x (n_samples : Nat) (dexels : CompressedVolume) (z y : Int)
    (grid_vals : List Scalar) (x : Int) : List Scalar :=
  if is_halo n_samples dexels x y z then
    grid_vals ++ [1]
  else
    grid_vals ++ [dexel_sample (dexels.at x.toNat y.toNat) (grid_ctr2 n_samples dexels z)]

/-- One iteration of the `y` loop (lines 58-96). -/
def dexels_to_mesh_y (n_samples : Nat) (dexels : CompressedVolume) (z : Int)
    (grid_vals : List Scalar) (y : Int) : List Scalar :=
  (intLoop (-1) ((dexels.gridSize.1 : Int) + 1)).foldl
    (dexels_to_mesh_x n_samples dexels z y) grid_vals

/-- One iteration of the `z` loop (lines 57-97). -/
def dexels_to_mesh_z (n_samples : Nat) (dexels : CompressedVolume) (grid_vals : List Scalar)
    (z : Int) : List Scalar :=
  (intLoop (-1) ((dexels.gridSize.2 : Int) + 1)).foldl
    (dexels_to_mesh_y n_samples dexels z) grid_vals

/-- The scalar field `vals` (a copy of `grid_vals`) that `dexels_to_mesh` passes to
`igl::copyleft::marching_cubes` on line 106. -/
def dexels_to_mesh_vals (n_samples : Nat) (dexels : CompressedVolume) : List Scalar :=
  (intLoop (-1) ((n_samples : Int) + 1)).foldl (dexels_to_mesh_z n_samples dexels) []

/-! ## Grid padding: `Meshing_Menu::extract_surface_mesh` (meshing_plugin.cpp, lines 273-298)
and `mesh_datfile` (test_meshing_harish_data.cpp, lines 52-70) -/

/-- Loop-carried variables of the padding loops. -/
structure PadState where
  readcount : Nat
  appendcount : Nat
  SV : List Scalar

/-- The halo test of the padding loops (meshing_plugin.cpp lines 287-288,
test_meshing_harish_data.cpp line 60). -/
def pad_is_halo (w h d xi yi zi : Nat) : Prop :=
  xi = 0 ∨ yi = 0 ∨ zi = 0 ∨ xi = w + 1 ∨ yi = h + 1 ∨ zi = d + 1

instance (w h d xi yi zi : Nat) : Decidable (pad_is_halo w h d xi yi zi) := by
  unfold pad_is_halo
  infer_instance

/-- One iteration of `for (int xi = 0; xi < w+2; xi++)`: `SV[readcount]` receives the halo
value or the next source value. The two functions differ only in the halo value written,
`sentinel`. (`GP`, which only carries the sample positions, is not modelled.) -/
def pad_x (sentinel : Scalar) (source : Nat → Scalar) (w h d zi yi : Nat) (st : PadState)
    (xi : Nat) : PadState :=
  if pad_is_halo w h d xi yi zi then
    { st with SV := st.SV.set st.readcount sentinel, readcount := st.readcount + 1 }
  else
    { SV := st.SV.set st.readcount (source st.appendcount),
      appendcount := st.appendcount + 1,
      readcount := st.readcount + 1 }

/-- One iteration of `for (int yi = 0; yi < h+2; yi++)`. -/
def pad_y (sentinel : Scalar) (source : Nat → Scalar) (w h d zi : Nat) (st : PadState)
    (yi : Nat) : PadState :=
  (List.range (w + 2)).foldl (pad_x sentinel source w h d zi yi) st

/-- One iteration of `for (int zi = 0; zi < d+2; zi++)`. -/
def pad_z (sentinel : Scalar) (source : Nat → Scalar) (w h d : Nat) (st : PadState)
    (zi : Nat) : PadState :=
  (List.range (h + 2)).foldl (pad_y sentinel source w h d zi) st

/-- The padding loops run on a vector `SV` of `(w+2)*(h+2)*(d+2)` coefficients. Eigen leaves
them uninitialised; they are `0` here, and every one of them is overwritten. -/
def padded_grid (sentinel : Scalar) (source : Nat → Scalar) (w h d : Nat) : PadState :=
  (List.range (d + 2)).foldl (pad_z sentinel source w h d)
    { readcount := 0, appendcount := 0,
      SV := List.replicate ((w + 2) * (h + 2) * (d + 2)) 0 }

/-- The vector `SV` that `extract_surface_mesh` passes to marching cubes (halo value `-1.0`). -/
def extract_surface_mesh_SV (skeleton_masking_volume : Nat → Scalar) (w h d : Nat) :
    List Scalar :=
  (padded_grid (-1) skeleton_masking_volume w h d).SV

/-- The vector `SV` that `mesh_datfile` passes to marching cubes (halo value `0.0`, source
values `double(data[i])` for the bytes `data` of the raw file). -/
def mesh_datfile_SV (data : Nat → Int) (w h d : Nat) : List Scalar :=
  (padded_grid 0 (fun i => ((data i : Int) : Scalar)) w h d).SV

/-! ## SDF grid sizing: `Meshing_Menu::tetrahedralize_surface_mesh` (meshing_plugin.cpp,
lines 222-247) -/

/-- Line 222: `const float dx = 0.8;`, the `double` literal converted to `float`. -/
def dx_const : Scalar := fl32 (fl64 0.8)

/-- Line 242, one axis: `origin = xmin - Vec3f(2*dx)`, the product and the difference in
`float`. (`dx` is the constant of line 222 in the code; it is a parameter here.) -/
def sdf_origin (xmin dx : Scalar) : Scalar := fl32 (xmin - fl32 (2 * dx))

/-- Lines 243-245, one axis: `n = (int)std::ceil((xmax - xmin)/dx) + 5`, the difference and
the quotient in `float`. The conversion to `int` of a value that `int` cannot hold and an
`int` sum above `INT_MAX` are undefined: `none`. -/
def sdf_n (xmin xmax dx : Scalar) : Option Int :=
  let c : Int := ⌈fl32 (fl32 (xmax - xmin) / dx)⌉
  if -2 ^ 31 ≤ c ∧ c + 5 < 2 ^ 31 then some (c + 5) else none

/-- Position of grid point `i` of the SDF grid along one axis, `origin + i*dx`, as a real
number. -/
def sdf_point (xmin dx : Scalar) (i : Int) : Scalar := sdf_origin xmin dx + (i : Scalar) * dx

/-! ## Face keys: `load_yixin_tetmesh` (test_meshing_harish_data.cpp, lines 202-221) -/

/-- The call `sort(t.begin(), t.end())` on an `array<int, 3>`: ascending order. -/
def sort_key (t : List Int) : List Int := t.insertionSort (· ≤ ·)

/-- Lines 208-220: the four keys `t1, t2, t3, t4` pushed to `tris` for the tetrahedron
`(e1, e2, e3, e4)`, in push order. -/
def tet_keys (e1 e2 e3 e4 : Int) : List (List Int) :=
  let t1 := [e1, e2, e3]
  let t2 := [e1, e2, e3]
  let t3 := [e2, e3, e4]
  let t4 := [e1, e3, e4]
  [sort_key t1, sort_key t2, sort_key t3, sort_key t4]

/-! ## `load_yixin_tetmesh` (test_meshing_harish_data.cpp, lines 183-239) -/

/-- A row of a tetrahedron matrix such as `TT`: four vertex indices. -/
abbrev Tet := Int × Int × Int × Int

/-- Modelled from the spec: the fields of `MshLoader` (MshLoader.h, not among the sources)
that `load_yixin_tetmesh` reads: the node block (a flat list of coordinates), the element
block (a flat list of vertex indices), the number of indices per element and the byte width
of a value. -/
structure MshLoader where
  m_nodes : List Scalar
  m_elements : List Int
  m_nodes_per_element : Nat
  m_data_size : Nat

/-- The values taken by `i` in `for (int i = 0; i < n; i += step)`, for `step > 0`. -/
def strideLoop (n step : Nat) : List Nat :=
  (List.range ((n + step - 1) / step)).map fun (k : Nat) => k * step

/-- One iteration of the node loop (lines 198-200): `TV.row(vcount++)` receives the
coordinates `m_nodes[i], m_nodes[i+2], m_nodes[i+1]`. The state is `(vcount, TV)`. -/
def load_nodes_step (m_nodes : List Scalar)
    (st : Nat × List (Scalar × Scalar × Scalar)) (i : Nat) :
    Nat × List (Scalar × Scalar × Scalar) :=
  (st.1 + 1, st.2.set st.1 (m_nodes.getD i 0, m_nodes.getD (i + 2) 0, m_nodes.getD (i + 1) 0))

/-- Loop-carried variables of the element loop. -/
structure ElementScan where
  tcount : Nat
  TT : List Tet
  tris : List (List Int)

/-- One iteration of the element loop (lines 202-221): `TT.row(tcount++)` receives the four
indices and the four sorted keys are pushed to `tris`. -/
def load_elements_step (m_elements : List Int) (st : ElementScan) (i : Nat) : ElementScan :=
  let e1 := m_elements.getD i 0
  let e2 := m_elements.getD (i + 1) 0
  let e3 := m_elements.getD (i + 2) 0
  let e4 := m_elements.getD (i + 3) 0
  { tcount := st.tcount + 1,
    TT := st.TT.set st.tcount (e1, e2, e3, e4),
    tris := st.tris ++ tet_keys e1 e2 e3 e4 }

/-- The inner `while` of lines 229-232, entered with `i` and `count`: it advances while
`tris[i]` is the key `v = (v1, v2, v3)`, for at most `fuel` tests of its condition. The
condition has no test of `i` against `tris.size()`; a read past the end is out of bounds,
and the model takes the value found there to differ from `v`, so that the loop stops. -/
def face_run (tris : List (List Int)) (v : List Int) : Nat → Nat → Nat → Nat × Nat
  | 0, i, count => (i, count)
  | fuel + 1, i, count =>
    if tris[i]? = some v then face_run tris v fuel (i + 1) (count + 1) else (i, count)

/-- Loop-carried variables of the scan of lines 226-236. `TF_writes` lists the assignments
`TF.row(r) = key` performed so far, as pairs `(r, key)`. -/
structure FaceScan where
  i : Nat
  fcount : Int
  TF_writes : List (Int × List Int)

/-- The loop `for (int i = 0; i < TF.rows();)` of lines 226-236 (`TF.rows()` is
`tris.size()`), for at most `fuel` iterations: the key at `i` is written to
`TF.row(fcount++)` when its run has length `1`. -/
def face_scan (tris : List (List Int)) : Nat → FaceScan → FaceScan
  | 0, st => st
  | fuel + 1, st =>
    if st.i < tris.length then
      let v := tris.getD st.i []
      let r := face_run tris v (tris.length + 1 - st.i) st.i 0
      if r.2 = 1 then
        face_scan tris fuel
          { i := r.1, fcount := st.fcount + 1, TF_writes := st.TF_writes ++ [(st.fcount, v)] }
      else
        face_scan tris fuel { st with i := r.1 }
    else st

/-- Lines 223-236 on the collected keys: `sort(tris.begin(), tris.end())` (lexicographic
order of the arrays) and the scan. `int fcount;` has no initialiser: the value it holds when
it is first read is indeterminate, and is the parameter `fcount_init`. -/
def boundary_scan (tris : List (List Int)) (fcount_init : Int) : FaceScan :=
  face_scan (tris.insertionSort (· ≤ ·)) tris.length
    { i := 0, fcount := fcount_init, TF_writes := [] }

/-- What `load_yixin_tetmesh` leaves in its output arguments. `TF_rows` is the number of rows
of `TF` after `TF.conservativeResize(fcount, 3)`; `TF_writes` lists the rows assigned. -/
structure TetMeshData where
  TV : List (Scalar × Scalar × Scalar)
  TT : List Tet
  TF_rows : Int
  TF_writes : List (Int × List Int)

/-- Lines 189, 193-200: `TV` is resized to `m_nodes.rows() / 3` rows and filled by the node
loop. The result is the final `(vcount, TV)`. -/
def load_nodes (vol_loader : MshLoader) : Nat × List (Scalar × Scalar × Scalar) :=
  (strideLoop vol_loader.m_nodes.length 3).foldl (load_nodes_step vol_loader.m_nodes)
    (0, List.replicate (vol_loader.m_nodes.length / 3) (0, 0, 0))

/-- Lines 190-192, 195, 201-221: `TT` is resized to
`m_elements.rows() / m_nodes_per_element` rows, `tris` starts empty, and both are filled by
the element loop. -/
def load_elements (vol_loader : MshLoader) : ElementScan :=
  (strideLoop vol_loader.m_elements.length vol_loader.m_nodes_per_element).foldl
    (load_elements_step vol_loader.m_elements)
    { tcount := 0,
      TT := List.replicate (vol_loader.m_elements.length / vol_loader.m_nodes_per_element)
        (0, 0, 0, 0),
      tris := [] }

/-- The function `load_yixin_tetmesh`, given what the loader read from the file. The two
`assert`s end the call with a diagnostic when they fail; nothing else in the body can. -/
def load_yixin_tetmesh (vol_loader : MshLoader) (fcount_init : Int) :
    Except String TetMeshData :=
  if vol_loader.m_nodes_per_element ≠ 4 then
    Except.error "assertion failed: vol_loader.m_nodes_per_element == 4"
  else if vol_loader.m_data_size ≠ 8 then
    Except.error "assertion failed: vol_loader.m_data_size == 8"
  else
    let scan := boundary_scan (load_elements vol_loader).tris fcount_init
    Except.ok { TV := (load_nodes vol_loader).2, TT := (load_elements vol_loader).TT,
                TF_rows := scan.fcount, TF_writes := scan.TF_writes }

/-! ## `visualize_tet_wireframe` (test_meshing_harish_data.cpp, lines 137-156) -/

/-- One iteration of the loop of lines 144-156: the six pairs pushed to `edges` for row `i` of
`TT`. -/
def wireframe_step (TT : List Tet) (edges : List (Int × Int)) (i : Nat) : List (Int × Int) :=
  let row := TT.getD i (0, 0, 0, 0)
  let tf1 := row.1
  let tf2 := row.2.1
  let tf3 := row.2.2.1
  let tf4 := row.2.2.1
  edges ++ [(tf1, tf2), (tf1, tf3), (tf1, tf4), (tf2, tf3), (tf2, tf4), (tf3, tf4)]

/-- The vector `edges` of `visualize_tet_wireframe` after the loop: one line is drawn for
each pair. -/
def wireframe_edges (TT : List Tet) : List (Int × Int) :=
  (List.range TT.length).foldl (wireframe_step TT) []

/-! ## `mesh_datfile` (test_meshing_harish_data.cpp, lines 22-76) -/

/-- Modelled from the spec: the macro `EXIT_FAILURE` of `<cstdlib>`, a non-zero status
code; `1` on the platforms the project is built for. -/
def EXIT_FAILURE : Int := 1

/-- Conversion of an `int` to `bool`, as in `return EXIT_FAILURE;` in a function returning
`bool`: every non-zero value is `true`. -/
def int_to_bool (x : Int) : Bool := decide (x ≠ 0)

/-- What a call of `mesh_datfile` leaves behind: the value of its `return` statement (`none`
when control reaches the end of the body, which has no `return`), and the padded grid when
it was built. -/
structure DatfileRun where
  returned : Option Bool
  SV : Option (List Scalar)

/-- The function `mesh_datfile` for the dimensions `w, h, d` of the header and the bytes
`raw` of the raw file: `rawfile.read(data, w*h*d)` succeeds exactly when the file holds at
least `w*h*d` bytes (lines 41-50); only then is the grid built (lines 52-70). -/
def mesh_datfile (raw : List Int) (w h d : Nat) : DatfileRun :=
  if w * h * d ≤ raw.length then
    { returned := none, SV := some (mesh_datfile_SV (fun i => raw.getD i 0) w h d) }
  else
    { returned := some (int_to_bool EXIT_FAILURE), SV := none }

/-! ## The mesher's output: `Meshing_Menu::tetrahedralize_surface_mesh` (meshing_plugin.cpp,
lines 257-266) -/

/-- One iteration of the loop of lines 258-261: `TV.row(i)` receives the coordinates of
`mesh.verts()[i]`. -/
def extracted_TV_step (verts : List (Scalar × Scalar × Scalar))
    (TV : List (Scalar × Scalar × Scalar)) (i : Nat) : List (Scalar × Scalar × Scalar) :=
  let v := verts.getD i (0, 0, 0)
  TV.set i (v.1, v.2.1, v.2.2)

/-- Lines 257-261: `extracted_volume.TV` for the mesher's vertices `mesh.verts()`. -/
def extracted_TV (verts : List (Scalar × Scalar × Scalar)) :
    List (Scalar × Scalar × Scalar) :=
  (List.range verts.length).foldl (extracted_TV_step verts)
    (List.replicate verts.length (0, 0, 0))

/-- One iteration of the loop of lines 263-266: `TT.row(i)` receives
`(tets[i][0], tets[i][2], tets[i][1], tets[i][3])`. -/
def extracted_TT_step (tets : List Tet) (TT : List Tet) (i : Nat) : List Tet :=
  let t := tets.getD i (0, 0, 0, 0)
  TT.set i (t.1, t.2.2.1, t.2.1, t.2.2.2)

/-- Lines 262-266: `extracted_volume.TT` for the mesher's tetrahedra `mesh.tets()`. -/
def extracted_TT (tets : List Tet) : List Tet :=
  (List.range tets.length).foldl (extracted_TT_step tets)
    (List.replicate tets.length (0, 0, 0, 0))

/-! ## The meshing run: `Meshing_Menu::initialize` and `Meshing_Menu::post_draw`
(meshing_plugin.cpp, lines 115-140 and 150-185)

`initialize` clears `_done_meshing` and starts `thread_fun` on a background thread;
`post_draw` runs on the viewer's thread, once per frame. The run is modelled as the
interleaving of the statements of the two threads, each statement one atomic step. -/

/-- Modelled from the spec: the values of the enumeration `Application_State` (not among the
sources) that the run goes through: the state in which the meshing plugin is active, and
`EndPointSelection`. -/
inductive Application_State
  | Meshing
  | EndPointSelection
  deriving DecidableEq

/-- The statement of `thread_fun` (lines 118-131) that the background thread executes next;
`dilating` and `tetrahedralizing` stand for the inside of the two calls. -/
inductive WorkerPc
  | line119
  | line121
  | dilating
  | line122
  | line123
  | line124
  | line126
  | tetrahedralizing
  | line128
  | line129
  | returned
  deriving DecidableEq

/-- The statement of lines 178-181 of `post_draw` that the viewer's thread executes next. -/
inductive DrawPc
  | line178
  | line179
  | line180
  deriving DecidableEq

/-- The state of a meshing run: the two program points, the variables the two threads
share, the error stream, whether `abort()` has terminated the process, and four history
flags recording what has happened so far. -/
structure MeshingRun where
  worker : WorkerPc
  draw : DrawPc
  is_meshing : Bool
  done_meshing : Bool
  application_state : Application_State
  cerr : List String
  aborted : Bool
  dilation_completed : Bool
  tetrahedralization_started : Bool
  tetrahedralization_completed : Bool
  done_signalled : Bool
  deriving DecidableEq

/-- One statement of `thread_fun`; `surface_empty` is the outcome of the test
`extracted_surface.V_fat.rows() == 0` on what `dilate_volume()` produced. -/
def worker_step (surface_empty : Bool) (s : MeshingRun) : MeshingRun :=
  match s.worker with
  | .line119 => { s with is_meshing := true, worker := .line121 }
  | .line121 => { s with worker := .dilating }
  | .dilating => { s with dilation_completed := true, worker := .line122 }
  | .line122 => if surface_empty then { s with worker := .line123 }
                else { s with worker := .line126 }
  | .line123 => { s with cerr := s.cerr ++ ["Empty mesh!"], worker := .line124 }
  | .line124 => { s with aborted := true }
  | .line126 => { s with tetrahedralization_started := true, worker := .tetrahedralizing }
  | .tetrahedralizing => { s with tetrahedralization_completed := true, worker := .line128 }
  | .line128 => { s with is_meshing := false, worker := .line129 }
  | .line129 => { s with done_meshing := true, done_signalled := true, worker := .returned }
  | .returned => s

/-- One statement of lines 178-181 of `post_draw`; at line 178 with the flag clear the frame
ends and the next frame comes back to line 178. -/
def draw_step (s : MeshingRun) : MeshingRun :=
  match s.draw with
  | .line178 => if s.done_meshing then { s with draw := .line179 } else s
  | .line179 => { s with application_state := .EndPointSelection, draw := .line180 }
  | .line180 => { s with done_meshing := false, draw := .line178 }

/-- The two threads of a run. -/
inductive Thread
  | worker
  | ui
  deriving DecidableEq

/-- One step of the run by thread `t`; nothing runs once the process has been aborted. -/
def run_step (surface_empty : Bool) (s : MeshingRun) (t : Thread) : MeshingRun :=
  if s.aborted then s
  else match t with
    | .worker => worker_step surface_empty s
    | .ui => draw_step s

/-- The state when `initialize` returns: `_done_meshing` has been cleared (line 116), the
thread has been created and has not run yet; `_is_meshing`, which `initialize` does not
assign, holds `is_meshing_init`. -/
def run_start (is_meshing_init : Bool) : MeshingRun where
  worker := .line119
  draw := .line178
  is_meshing := is_meshing_init
  done_meshing := false
  application_state := .Meshing
  cerr := []
  aborted := false
  dilation_completed := false
  tetrahedralization_started := false
  tetrahedralization_completed := false
  done_signalled := false

/-- The state of the run after the threads have taken their steps in the order `schedule`. -/
def run (surface_empty : Bool) (is_meshing_init : Bool) (schedule : List Thread) : MeshingRun :=
  schedule.foldl (run_step surface_empty) (run_start is_meshing_init)

/-! ## The inner reads of the scan: `load_yixin_tetmesh` (test_meshing_harish_data.cpp,
lines 226-236) -/

/-- The indices `i` of the reads `tris[i]` made by the condition of the inner `while` of
lines 229-232, in order, when the loop is entered with `i`: one read for every test of the
condition, the last of them the test that fails. The recursion is that of `face_run`. -/
def face_run_reads (tris : List (List Int)) (v : List Int) : Nat → Nat → List Nat
  | 0, _ => []
  | fuel + 1, i =>
    i :: (if tris[i]? = some v then face_run_reads tris v fuel (i + 1) else [])

/-- The indices read by the inner `while` over the whole loop of lines 226-236, entered with
`i`: the recursion of `face_scan`, collecting the reads of every run. -/
def face_scan_reads (tris : List (List Int)) : Nat → Nat → List Nat
  | 0, _ => []
  | fuel + 1, i =>
    if i < tris.length then
      let v := tris.getD i []
      let r := face_run tris v (tris.length + 1 - i) i 0
      face_run_reads tris v (tris.length + 1 - i) i ++ face_scan_reads tris fuel r.1
    else []

/-- The indices read by the inner `while` in the scan of `boundary_scan`, i.e. over the
sorted keys from `i = 0`. -/
def boundary_scan_reads (tris : List (List Int)) : List Nat :=
  face_scan_reads (tris.insertionSort (· ≤ ·)) tris.length 0

/-! ## `remove_garbage_components` (test_meshing_harish_data.cpp, lines 78-121) -/

/-- The call `components.maxCoeff()` of line 87: the largest label. Eigen requires a vector
that is not empty; the model gives `0` for an empty one. -/
def maxCoeff (components : List Int) : Int :=
  components.foldl max (components.headD 0)

/-- Lines 86-87: `component_count` after `resize(components.maxCoeff())`, that many slots,
each value-initialised to `0`. -/
def component_count_resized (components : List Int) : List Int :=
  List.replicate (maxCoeff components).toNat 0

/-- One iteration of lines 88-90, `component_count[components[i]] += 1`. The `operator[]`
of `std::vector` does not check its index: a write outside the vector is undefined, and the
model leaves the vector as it is. -/
def count_step (components : List Int) (component_count : List Int) (i : Nat) : List Int :=
  let c := components.getD i 0
  if 0 ≤ c ∧ c.toNat < component_count.length then
    component_count.set c.toNat (component_count.getD c.toNat 0 + 1)
  else component_count

/-- Lines 86-90: the counters after the loop over the `V.rows()` vertices. -/
def count_components (components : List Int) (V_rows : Nat) : List Int :=
  (List.range V_rows).foldl (count_step components) (component_count_resized components)

/-- One iteration of lines 93-98 on `(max_component, max_component_count)`. -/
def max_component_step (component_count : List Int) (st : Int × Int) (i : Nat) : Int × Int :=
  if st.2 < component_count.getD i 0 then ((i : Int), component_count.getD i 0) else st

/-- Lines 91-98: the final `(max_component, max_component_count)`. -/
def max_component (component_count : List Int) : Int × Int :=
  (List.range component_count.length).foldl (max_component_step component_count) (-1, 0)

/-- The entry `F(i, j)` of the row `row = F.row(i)`. -/
def F_entry (row : Int × Int × Int) (j : Nat) : Int :=
  match j with
  | 0 => row.1
  | 1 => row.2.1
  | _ => row.2.2

/-- Lines 107-113: the flag `keep` of a row after the loop over `j = 0, 1, 2`. The `break`
leaves the loop once `keep` is false; in the model the remaining iterations change nothing. -/
def keep_row (components : List Int) (max_component : Int) (row : Int × Int × Int) : Bool :=
  (List.range 3).foldl
    (fun keep j =>
      if keep && decide (components.getD (F_entry row j).toNat 0 ≠ max_component) then false
      else keep)
    true

/-- One iteration of lines 106-117 on `(fcount, newF)`. -/
def keep_step (components : List Int) (max_component : Int) (F : List (Int × Int × Int))
    (st : Nat × List (Int × Int × Int)) (i : Nat) : Nat × List (Int × Int × Int) :=
  let row := F.getD i (0, 0, 0)
  if keep_row components max_component row then (st.1 + 1, st.2.set st.1 row) else st

/-- The function `remove_garbage_components`: the rows of `newF` when it returns. The
labelling `components` is what `igl::components(F, components)` of the library computed
(one label per vertex, line 85); `V_rows` is `V.rows()`. `newF` is resized to `F.rows()`
rows (line 103), filled from row `0`, and cut to `fcount` rows (line 120). -/
def remove_garbage_components (components : List Int) (V_rows : Nat)
    (F : List (Int × Int × Int)) : List (Int × Int × Int) :=
  let component_count := count_components components V_rows
  let max_component := (max_component component_count).1
  let st := (List.range F.length).foldl (keep_step components max_component F)
    (0, List.replicate F.length (0, 0, 0))
  st.2.take st.1

/-! ## The cut index and the rotation buttons: `Bounding_Polygon_Menu::post_draw`
(bounding_polygon_plugin.cpp, lines 146-266) -/

/-- The constant `M_2_PI` of the C library header `<math.h>`: the value of `2/π`, defined
there as `0.63661977236758134308`. -/
def M_2_PI : Scalar := 0.63661977236758134308

/-- Line 230: `const double angle_3deg = M_2_PI / 120.0;` -/
def angle_3deg : Scalar := M_2_PI / 120.0

/-- Line 231: `const double angle_10deg = M_2_PI / 36.0;` -/
def angle_10deg : Scalar := M_2_PI / 36.0

/-- The four rotation buttons of lines 232-266, by their labels. -/
inductive RotationButton where
  | minus_3deg
  | plus_3deg
  | minus_10deg
  | plus_10deg
  deriving DecidableEq

/-- The argument with which each button calls `kf->rotate_torsion_frame` (lines 236, 245,
254, 263). -/
def rotate_torsion_frame_arg : RotationButton → Scalar
  | .minus_3deg => -angle_3deg
  | .plus_3deg => angle_3deg
  | .minus_10deg => -angle_10deg
  | .plus_10deg => angle_10deg

/-! ## `svgFlattenCubicBezier` (readsvg.cpp, lines 16-49) -/

/-- A polygon of readsvg.cpp: the points of a `std::vector<std::complex<double>>`, each as
its pair of coordinates. -/
abbrev Polygon := List (Scalar × Scalar)

/-- The left-hand side of the test of lines 27-28,
`std::abs(x1 + x3 - x2 - x2) + std::abs(y1 + y3 - y2 - y2) + std::abs(x2 + x4 - x3 - x3)
+ std::abs(y2 + y4 - y3 - y3)`, every sum and difference in `double`, from left to right. -/
def flatness (x1 y1 x2 y2 x3 y3 x4 y4 : Scalar) : Scalar :=
  dadd
    (dadd
      (dadd |dsub (dsub (dadd x1 x3) x2) x2| |dsub (dsub (dadd y1 y3) y2) y2|)
      |dsub (dsub (dadd x2 x4) x3) x3|)
    |dsub (dsub (dadd y2 y4) y3) y3|

/-- The body of `svgFlattenCubicBezier`, by recursion on a bound `fuel` on the number of
nested calls, every sum and product in `double`. `level + 1` stays small: no call is made
from a level above 6. With no fuel left the model returns `poly`; `svgFlattenCubicBezier`
below starts it with `8 - level`, which is `0` only for a level above 6, where the code
returns `poly` as well. -/
def svgFlattenCubicBezier_fuel : Nat → Polygon → Scalar → Scalar → Scalar → Scalar → Scalar →
    Scalar → Scalar → Scalar → Scalar → Nat → Polygon
  | 0, poly, _, _, _, _, _, _, _, _, _, _ => poly
  | fuel + 1, poly, x1, y1, x2, y2, x3, y3, x4, y4, tol, level =>
    if level > 6 then poly
    else if flatness x1 y1 x2 y2 x3 y3 x4 y4 < tol then
      poly ++ [(x4, y4)]
    else
      let x12 := dmul (dadd x1 x2) 0.5
      let y12 := dmul (dadd y1 y2) 0.5
      let x23 := dmul (dadd x2 x3) 0.5
      let y23 := dmul (dadd y2 y3) 0.5
      let x34 := dmul (dadd x3 x4) 0.5
      let y34 := dmul (dadd y3 y4) 0.5
      let x123 := dmul (dadd x12 x23) 0.5
      let y123 := dmul (dadd y12 y23) 0.5
      let x234 := dmul (dadd x23 x34) 0.5
      let y234 := dmul (dadd y23 y34) 0.5
      let x1234 := dmul (dadd x123 x234) 0.5
      let y1234 := dmul (dadd y123 y234) 0.5
      let poly1 := svgFlattenCubicBezier_fuel fuel poly x1 y1 x12 y12 x123 y123 x1234 y1234
        tol (level + 1)
      svgFlattenCubicBezier_fuel fuel poly1 x1234 y1234 x234 y234 x34 y34 x4 y4 tol (level + 1)

/-- The function `svgFlattenCubicBezier`: the polygon `poly` when the call returns. -/
def svgFlattenCubicBezier (poly : Polygon) (x1 y1 x2 y2 x3 y3 x4 y4 tol : Scalar)
    (level : Nat) : Polygon :=
  svgFlattenCubicBezier_fuel (8 - level) poly x1 y1 x2 y2 x3 y3 x4 y4 tol level

/-- The largest `level` with which `svgFlattenCubicBezier` is entered in the course of a
call: the tests and the two recursive calls of `svgFlattenCubicBezier_fuel`, which do not
depend on `poly`, returning the level reached in place of the polygon. -/
def svgFlattenCubicBezier_deepest_fuel : Nat → Scalar → Scalar → Scalar → Scalar → Scalar →
    Scalar → Scalar → Scalar → Scalar → Nat → Nat
  | 0, _, _, _, _, _, _, _, _, _, level => level
  | fuel + 1, x1, y1, x2, y2, x3, y3, x4, y4, tol, level =>
    if level > 6 then level
    else if flatness x1 y1 x2 y2 x3 y3 x4 y4 < tol then
      level
    else
      let x12 := dmul (dadd x1 x2) 0.5
      let y12 := dmul (dadd y1 y2) 0.5
      let x23 := dmul (dadd x2 x3) 0.5
      let y23 := dmul (dadd y2 y3) 0.5
      let x34 := dmul (dadd x3 x4) 0.5
      let y34 := dmul (dadd y3 y4) 0.5
      let x123 := dmul (dadd x12 x23) 0.5
      let y123 := dmul (dadd y12 y23) 0.5
      let x234 := dmul (dadd x23 x34) 0.5
      let y234 := dmul (dadd y23 y34) 0.5
      let x1234 := dmul (dadd x123 x234) 0.5
      let y1234 := dmul (dadd y123 y234) 0.5
      max
        (svgFlattenCubicBezier_deepest_fuel fuel x1 y1 x12 y12 x123 y123 x1234 y1234 tol
          (level + 1))
        (svgFlattenCubicBezier_deepest_fuel fuel x1234 y1234 x234 y234 x34 y34 x4 y4 tol
          (level + 1))

/-- The deepest level entered by the call `svgFlattenCubicBezier(poly, ..., tol, level)`. -/
def svgFlattenCubicBezier_deepest (x1 y1 x2 y2 x3 y3 x4 y4 tol : Scalar) (level : Nat) : Nat :=
  svgFlattenCubicBezier_deepest_fuel (8 - level) x1 y1 x2 y2 x3 y3 x4 y4 tol level

/-! # Vocabulary of the statements and loop invariants -/

/-! ## Runs of a column and the invariants of `volume_to_dexels` -/

/-- The pair `(a, b)` is a maximal closed positive run of the column `v` of width `w`:
`v` is positive on `a .. b-1`, non-positive at `b`, and `a` is the column start or follows a
non-positive sample. -/
def IsRun (v : Nat → Scalar) (w a b : Nat) : Prop :=
  a < b ∧ b < w ∧ (∀ x, a ≤ x → x < b → 0 < v x) ∧ v b ≤ 0 ∧ (a = 0 ∨ v (a - 1) ≤ 0)

/-- The heights a list of segments contributes to a column: entry, exit, entry, exit, ... -/
def heightsOf (segs : List (Nat × Nat)) : List Scalar :=
  segs.flatMap fun p => [(p.1 : Scalar), (p.2 : Scalar)]

/-- The segment list `segs` is the list of closed runs of the column `v` of width `w`, in scan
order, each run separated from the next. -/
structure ColumnRuns (v : Nat → Scalar) (w : Nat) (segs : List (Nat × Nat)) : Prop where
  sep : segs.Pairwise fun p q => p.2 < q.1
  mem_iff : ∀ a b, (a, b) ∈ segs ↔ IsRun v w a b

/-- The volume `D` with the heights `hs` appended to column `(z, y)`. -/
def CompressedVolume.withColumn (D : CompressedVolume) (z y : Nat) (hs : List Scalar) :
    CompressedVolume :=
  { D with data := fun i j => if i = z ∧ j = y then D.data i j ++ hs else D.data i j }

/-- Invariant of the `x` loop after `k` iterations on the column that starts at index `s`. -/
structure ScanInv (scalars : Nat → Scalar) (z y s : Nat) (D : CompressedVolume) (k : Nat)
    (st : ColumnScan) : Prop where
  idx : st.start_idx = s + k
  segs_ex : ∃ segs, st.dexels = D.withColumn z y (heightsOf segs) ∧
    ColumnRuns (fun x => scalars (s + x)) k segs
  out : st.outside = true → k = 0 ∨ scalars (s + (k - 1)) ≤ 0
  ins : st.outside = false → st.seg_entry < k ∧
    (∀ x, st.seg_entry ≤ x → x < k → 0 < scalars (s + x)) ∧
    (st.seg_entry = 0 ∨ scalars (s + (st.seg_entry - 1)) ≤ 0)

/-- Invariant of the `y` loop after `k` columns of plane `z`, entered in state `(s, D)`. -/
structure PlaneInv (scalars : Nat → Scalar) (w z s : Nat) (D : CompressedVolume) (k : Nat)
    (st : Nat × CompressedVolume) : Prop where
  idx : st.1 = s + k * w
  other : ∀ i j, i ≠ z ∨ k ≤ j → st.2.data i j = D.data i j
  cols : ∀ j, j < k → ∃ segs, st.2.data z j = D.data z j ++ heightsOf segs ∧
    ColumnRuns (fun x => scalars (s + j * w + x)) w segs

/-- Invariant of the `z` loop after `k` planes, entered in state `(0, D)`. -/
structure VolInv (scalars : Nat → Scalar) (w h : Nat) (D : CompressedVolume) (k : Nat)
    (st : Nat × CompressedVolume) : Prop where
  idx : st.1 = k * (w * h)
  other : ∀ i j, k ≤ i → st.2.data i j = D.data i j
  cols : ∀ i j, i < k → j < h → ∃ segs, st.2.data i j = D.data i j ++ heightsOf segs ∧
    ColumnRuns (fun x => scalars (i * (w * h) + j * w + x)) w segs

/-! ## The sample values of `dexels_to_mesh` -/

/-- The value `dexels_to_mesh` pushes for the sample `(x, y, z)`. -/
def sample_value (n_samples : Nat) (dexels : CompressedVolume) (x y z : Int) : Scalar :=
  if is_halo n_samples dexels x y z then 1
  else dexel_sample (dexels.at x.toNat y.toNat) (grid_ctr2 n_samples dexels z)

/-! ## Invariants of the padding loops -/

/-- Invariant of the `xi` loop after `k` iterations of row `(zi, yi)`, entered with
`readcount = r`, `appendcount = ac` and `SV = SV0`. -/
structure PadRowInv (sentinel : Scalar) (source : Nat → Scalar) (w h d zi yi r ac : Nat)
    (SV0 : List Scalar) (k : Nat) (st : PadState) : Prop where
  rc : st.readcount = r + k
  acount : st.appendcount =
    ac + (if yi = 0 ∨ zi = 0 ∨ yi = h + 1 ∨ zi = d + 1 then 0 else min (k - 1) w)
  len : st.SV.length = SV0.length
  frame : ∀ i, i < r ∨ r + k ≤ i → st.SV[i]? = SV0[i]?
  cells : ∀ x, x < k → st.SV[r + x]? =
    some (if pad_is_halo w h d x yi zi then sentinel else source (ac + (x - 1)))

/-- Invariant of the `yi` loop after `k` rows of plane `zi`. -/
structure PadPlaneInv (sentinel : Scalar) (source : Nat → Scalar) (w h d zi r ac : Nat)
    (SV0 : List Scalar) (k : Nat) (st : PadState) : Prop where
  rc : st.readcount = r + k * (w + 2)
  acount : st.appendcount = ac + (if zi = 0 ∨ zi = d + 1 then 0 else min (k - 1) h * w)
  len : st.SV.length = SV0.length
  frame : ∀ i, i < r ∨ r + k * (w + 2) ≤ i → st.SV[i]? = SV0[i]?
  cells : ∀ y x, y < k → x < w + 2 → st.SV[r + y * (w + 2) + x]? =
    some (if pad_is_halo w h d x y zi then sentinel else source (ac + (y - 1) * w + (x - 1)))

/-- Invariant of the `zi` loop after `k` planes. -/
structure PadVolInv (sentinel : Scalar) (source : Nat → Scalar) (w h d : Nat) (k : Nat)
    (st : PadState) : Prop where
  rc : st.readcount = k * ((h + 2) * (w + 2))
  acount : st.appendcount = min (k - 1) d * (h * w)
  len : st.SV.length = (w + 2) * (h + 2) * (d + 2)
  cells : ∀ z y x, z < k → y < h + 2 → x < w + 2 →
    st.SV[z * ((h + 2) * (w + 2)) + y * (w + 2) + x]? =
      some (if pad_is_halo w h d x y z then sentinel
            else source ((z - 1) * (h * w) + (y - 1) * w + (x - 1)))

/-! ## The rows written by the boundary scan -/

/-- The assignments `TF.row(c) = l[0]`, `TF.row(c+1) = l[1]`, ...: the keys `l` written to
consecutive rows from row `c` on. -/
def rowsFrom : Int → List (List Int) → List (Int × List Int)
  | _, [] => []
  | c, k :: l => (c, k) :: rowsFrom (c + 1) l

/-- Tetrahedron `k` of an element block: `(elements[4k], ..., elements[4k+3])`. -/
def element_tet (m_elements : List Int) (k : Nat) : Tet :=
  (m_elements.getD (k * 4) 0, m_elements.getD (k * 4 + 1) 0, m_elements.getD (k * 4 + 2) 0,
    m_elements.getD (k * 4 + 3) 0)

/-- Invariant of the element loop of `load_yixin_tetmesh` after `k` iterations, for a block of
`4 * m` indices. -/
structure ElementInv (m_elements : List Int) (m k : Nat) (st : ElementScan) : Prop where
  tc : st.tcount = k
  len : st.TT.length = m
  rows : ∀ j, j < k → st.TT[j]? = some (element_tet m_elements j)
  keys : st.tris = (List.range k).flatMap fun (j : Nat) =>
    tet_keys (element_tet m_elements j).1 (element_tet m_elements j).2.1
      (element_tet m_elements j).2.2.1 (element_tet m_elements j).2.2.2

/-- Invariant of the node loop of `load_yixin_tetmesh` after `k` iterations, for a block of
`3 * n` coordinates. -/
structure NodeInv (m_nodes : List Scalar) (n k : Nat)
    (st : Nat × List (Scalar × Scalar × Scalar)) : Prop where
  vc : st.1 = k
  len : st.2.length = n
  rows : ∀ j, j < k → st.2[j]? =
    some (m_nodes.getD (j * 3) 0, m_nodes.getD (j * 3 + 2) 0, m_nodes.getD (j * 3 + 1) 0)

/-- The four faces of a tetrahedron, each with its vertices in the order they have in the
tetrahedron. -/
def tet_faces_ordered (t : Tet) : List (List Int) :=
  [[t.1, t.2.1, t.2.2.1], [t.1, t.2.1, t.2.2.2], [t.1, t.2.2.1, t.2.2.2],
    [t.2.1, t.2.2.1, t.2.2.2]]

/-- The canonical keys of the four faces of a tetrahedron. -/
def tet_faces (t : Tet) : List (List Int) := (tet_faces_ordered t).map sort_key

/-- The triangle `row` has the winding of the triangle `f`: the same cyclic vertex order. -/
def same_winding (f row : List Int) : Prop := row = f ∨ row = f.rotate 1 ∨ row = f.rotate 2

instance (f row : List Int) : Decidable (same_winding f row) := by
  unfold same_winding
  infer_instance

/-! ## Orientation of a tetrahedron -/

/-- The vertices of a tetrahedron, as a list. -/
def tet_vertices (t : Tet) : List Int := [t.1, t.2.1, t.2.2.1, t.2.2.2]

/-- The determinant of the `3 × 3` matrix of rows `a, b, c`. -/
def det3 (a b c : Scalar × Scalar × Scalar) : Scalar :=
  a.1 * (b.2.1 * c.2.2 - b.2.2 * c.2.1) - a.2.1 * (b.1 * c.2.2 - b.2.2 * c.1)
    + a.2.2 * (b.1 * c.2.1 - b.2.1 * c.1)

/-- The vector from `q` to `p`. -/
def vsub (p q : Scalar × Scalar × Scalar) : Scalar × Scalar × Scalar :=
  (p.1 - q.1, p.2.1 - q.2.1, p.2.2 - q.2.2)

/-- The signed volume of the tetrahedron `t` whose vertex `i` is at `TV[i]`:
`det(b - a, c - a, d - a) / 6`. -/
def signed_volume (TV : List (Scalar × Scalar × Scalar)) (t : Tet) : Scalar :=
  det3 (vsub (TV.getD t.2.1.toNat (0, 0, 0)) (TV.getD t.1.toNat (0, 0, 0)))
    (vsub (TV.getD t.2.2.1.toNat (0, 0, 0)) (TV.getD t.1.toNat (0, 0, 0)))
    (vsub (TV.getD t.2.2.2.toNat (0, 0, 0)) (TV.getD t.1.toNat (0, 0, 0))) / 6

/-! ## Invariant of the meshing run -/

/-- How far `thread_fun` has come. -/
def WorkerPc.stage : WorkerPc → Nat
  | .line119 => 0
  | .line121 => 1
  | .dilating => 2
  | .line122 => 3
  | .line123 => 4
  | .line124 => 5
  | .line126 => 6
  | .tetrahedralizing => 7
  | .line128 => 8
  | .line129 => 9
  | .returned => 10

/-- Invariant of the meshing run: the flags and history flags as a function of the program
points. -/
structure RunInv (surface_empty : Bool) (s : MeshingRun) : Prop where
  dilated : s.dilation_completed = true ↔ 3 ≤ s.worker.stage
  started : s.tetrahedralization_started = true ↔ 7 ≤ s.worker.stage
  completed : s.tetrahedralization_completed = true ↔ 8 ≤ s.worker.stage
  signalled : s.done_signalled = true ↔ s.worker.stage = 10
  done : s.done_meshing = true → s.worker.stage = 10
  meshing : s.is_meshing = true → s.worker.stage ≤ 8
  drawing : s.draw ≠ .line178 → s.worker.stage = 10
  moving : s.draw = .line179 → s.done_meshing = true
  moved : s.application_state = .EndPointSelection → s.worker.stage = 10
  abort : s.aborted = true → s.worker = .line124
  empty : s.worker.stage = 4 ∨ s.worker.stage = 5 → surface_empty = true
  nonempty : 6 ≤ s.worker.stage → surface_empty = false

/-- Progress of a run whose dilated surface is empty, after `k` steps of the background
thread: how far the thread is, whether the process has been aborted, and what has been written
to the error stream. -/
structure EmptyRunInv (k : Nat) (s : MeshingRun) : Prop where
  stage : s.worker.stage = min k 5
  abort : s.aborted = true ↔ 6 ≤ k
  diag : s.cerr = if 5 ≤ k then ["Empty mesh!"] else []

/-! ## Cubics and their halves -/

/-- The control points of a cubic, in the order of the arguments of
`svgFlattenCubicBezier`. -/
structure Cubic where
  x1 : Scalar
  y1 : Scalar
  x2 : Scalar
  y2 : Scalar
  x3 : Scalar
  y3 : Scalar
  x4 : Scalar
  y4 : Scalar

/-- The midpoint computed by lines 33-44 of readsvg.cpp: `(a + b)*0.5` in `double`. -/
def mid (a b : Scalar) : Scalar := dmul (dadd a b) 0.5

/-- The cubic passed to the first recursive call (line 47). -/
def Cubic.first_half (c : Cubic) : Cubic where
  x1 := c.x1
  y1 := c.y1
  x2 := mid c.x1 c.x2
  y2 := mid c.y1 c.y2
  x3 := mid (mid c.x1 c.x2) (mid c.x2 c.x3)
  y3 := mid (mid c.y1 c.y2) (mid c.y2 c.y3)
  x4 := mid (mid (mid c.x1 c.x2) (mid c.x2 c.x3)) (mid (mid c.x2 c.x3) (mid c.x3 c.x4))
  y4 := mid (mid (mid c.y1 c.y2) (mid c.y2 c.y3)) (mid (mid c.y2 c.y3) (mid c.y3 c.y4))

/-- The cubic passed to the second recursive call (line 48); it ends where `c` ends. -/
def Cubic.second_half (c : Cubic) : Cubic where
  x1 := mid (mid (mid c.x1 c.x2) (mid c.x2 c.x3)) (mid (mid c.x2 c.x3) (mid c.x3 c.x4))
  y1 := mid (mid (mid c.y1 c.y2) (mid c.y2 c.y3)) (mid (mid c.y2 c.y3) (mid c.y3 c.y4))
  x2 := mid (mid c.x2 c.x3) (mid c.x3 c.x4)
  y2 := mid (mid c.y2 c.y3) (mid c.y3 c.y4)
  x3 := mid c.x3 c.x4
  y3 := mid c.y3 c.y4
  x4 := c.x4
  y4 := c.y4

/-- The value that the test of lines 27-28 compares with `tol`, for the cubic `c`. -/
def Cubic.flatness (c : Cubic) : Scalar :=
  Unwind.flatness c.x1 c.y1 c.x2 c.y2 c.x3 c.y3 c.x4 c.y4

/-- The body of `svgFlattenCubicBezier` on the cubic `c`. -/
def flatten (fuel : Nat) (poly : Polygon) (c : Cubic) (tol : Scalar) (level : Nat) : Polygon :=
  svgFlattenCubicBezier_fuel fuel poly c.x1 c.y1 c.x2 c.y2 c.x3 c.y3 c.x4 c.y4 tol level

/-- The sub-curve of `c` that ends at the end point of `c` and is the argument of the call at
level `k` when the call for `c` is at level 0 and no test has passed before: `c` itself, then
the second half of the previous one. -/
def last_piece (c : Cubic) : Nat → Cubic
  | 0 => c
  | k + 1 => last_piece c.second_half k

/-- The cubic with the control points `3A`, `3A + 2B`, `3A + 4B + C`, `3A + 6B + 3C` on the
x axis: a piece of a parabola, with both second differences equal to `C`. -/
def parabola_piece (A B C : Int) : Cubic where
  x1 := ((3 * A : Int) : Scalar)
  y1 := 0
  x2 := ((3 * A + 2 * B : Int) : Scalar)
  y2 := 0
  x3 := ((3 * A + 4 * B + C : Int) : Scalar)
  y3 := 0
  x4 := ((3 * A + 6 * B + 3 * C : Int) : Scalar)
  y4 := 0

/-! ## Concrete inputs -/

/-- The grid whose values, in storage order, are `l` (samples past the end read `0`). -/
def gridOfList (l : List Scalar) : Nat → Scalar := fun i => l.getD i 0

/-- A grid of one column, `0 1 1 0 1 0` (`w = 6`, `h = d = 1`). -/
def sampleGrid : Nat → Scalar := gridOfList [0, 1, 1, 0, 1, 0]

/-- A dexel volume of grid size `(1, 1)` whose only column holds the interval `[0, 1]`. -/
def unitDexels : CompressedVolume where
  origin := (0, 0, 0)
  extent := (1, 1, 1)
  gridSize := (1, 1)
  data := fun _ _ => [0, 1]

/-- A source volume of `2*1*1` voxels with values `5, 7`. -/
def sampleVolume : Nat → Scalar := gridOfList [5, 7]

/-- The bytes `5, 7` of a raw file of `2*1*1` voxels. -/
def sampleBytes : Nat → Int := fun i => [5, 7].getD i 0

/-- A mesh file with the three coordinates `1, 2, 3` of one vertex and the tetrahedron
`(0, 1, 2, 3)`. -/
def oneTetLoader : MshLoader where
  m_nodes := [1, 2, 3]
  m_elements := [0, 1, 2, 3]
  m_nodes_per_element := 4
  m_data_size := 8

/-- A mesh file with the tetrahedron `(3, 2, 1, 0)`. -/
def reversedTetLoader : MshLoader where
  m_nodes := []
  m_elements := [3, 2, 1, 0]
  m_nodes_per_element := 4
  m_data_size := 8

/-- A mesh file with three tetrahedra around the face `{1, 2, 3}`. -/
def fanLoader : MshLoader where
  m_nodes := []
  m_elements := [0, 1, 2, 3, 4, 1, 2, 3, 5, 1, 2, 3]
  m_nodes_per_element := 4
  m_data_size := 8

/-- The unit cube, vertex `x + 2y + 4z` at `(x, y, z)`, cut into the six tetrahedra
`(0, a, b, 7)` around the diagonal from vertex `0` to vertex `7`. Its outer triangles are the
twelve faces `{0, a, b}` and `{a, b, 7}`. -/
def cubeLoader : MshLoader where
  m_nodes := [0, 0, 0, 1, 0, 0, 0, 1, 0, 1, 1, 0, 0, 0, 1, 1, 0, 1, 0, 1, 1, 1, 1, 1]
  m_elements := [0, 1, 3, 7, 0, 1, 5, 7, 0, 2, 3, 7, 0, 2, 6, 7, 0, 4, 5, 7, 0, 4, 6, 7]
  m_nodes_per_element := 4
  m_data_size := 8

/-- The four vertices of a tetrahedron of volume `1/6`. -/
def cornerVerts : List (Scalar × Scalar × Scalar) := [(0, 0, 0), (1, 0, 0), (0, 1, 0), (0, 0, 1)]

/-- The tetrahedron on these four vertices, as the only tetrahedron of a mesh. -/
def cornerTets : List Tet := [(0, 1, 2, 3)]

/-- A schedule in which the background thread runs to its end and `post_draw` then takes
three steps. -/
def fullSchedule : List Thread :=
  List.replicate 10 Thread.worker ++ List.replicate 3 Thread.ui

/-- A labelling of seven vertices in two components: label `0` on the vertices `0, 1, 2` and
label `1` on the vertices `3, 4, 5, 6`. -/
def twoComponents : List Int := [0, 0, 0, 1, 1, 1, 1]

/-- A triangle on the first component and two triangles on the second. -/
def twoComponentsF : List (Int × Int × Int) := [(0, 1, 2), (3, 4, 5), (4, 5, 6)]

/-! # Theorems -/

/-! ## The column scan of `volume_to_dexels` -/

theorem heightsOf_nil : heightsOf [] = [] := rfl

theorem heightsOf_append (l₁ l₂ : List (Nat × Nat)) :
    heightsOf (l₁ ++ l₂) = heightsOf l₁ ++ heightsOf l₂ := by
  simp [heightsOf]

theorem heightsOf_cons (p : Nat × Nat) (l : List (Nat × Nat)) :
    heightsOf (p :: l) = (p.1 : Scalar) :: (p.2 : Scalar) :: heightsOf l := by
  simp [heightsOf]

theorem withColumn_nil (D : CompressedVolume) (z y : Nat) : D.withColumn z y [] = D := by
  cases D
  simp [CompressedVolume.withColumn]

theorem withColumn_withColumn (D : CompressedVolume) (z y : Nat) (hs hs' : List Scalar) :
    (D.withColumn z y hs).withColumn z y hs' = D.withColumn z y (hs ++ hs') := by
  simp only [CompressedVolume.withColumn, CompressedVolume.mk.injEq, true_and]
  funext i j
  by_cases hc : i = z ∧ j = y <;> simp [hc]

theorem appendSegment_eq_withColumn (D : CompressedVolume) (z y : Nat) (a b : Scalar) :
    D.appendSegment z y a b = D.withColumn z y [a, b] := rfl

theorem isRun_mono {v : Nat → Scalar} {k a b : Nat} (h : IsRun v k a b) :
    IsRun v (k + 1) a b :=
  ⟨h.1, Nat.lt_succ_of_lt h.2.1, h.2.2⟩

theorem isRun_succ_of_pos {v : Nat → Scalar} {k : Nat} (hk : 0 < v k) (a b : Nat) :
    IsRun v (k + 1) a b ↔ IsRun v k a b := by
  constructor
  · intro h
    rcases Nat.lt_succ_iff_lt_or_eq.mp h.2.1 with hb | hb
    · exact ⟨h.1, hb, h.2.2⟩
    · exact absurd hk (not_lt.mpr (hb ▸ h.2.2.2.1))
  · exact isRun_mono

theorem isRun_succ_of_outside {v : Nat → Scalar} {k : Nat} (hout : k = 0 ∨ v (k - 1) ≤ 0)
    (a b : Nat) : IsRun v (k + 1) a b ↔ IsRun v k a b := by
  constructor
  · intro h
    rcases Nat.lt_succ_iff_lt_or_eq.mp h.2.1 with hb | hb
    · exact ⟨h.1, hb, h.2.2⟩
    · subst hb
      rcases hout with h0 | h0
      · have := h.1
        omega
      · have hpos := h.2.2.1 (b - 1) (by have := h.1; omega) (by have := h.1; omega)
        exact absurd hpos (not_lt.mpr h0)
  · exact isRun_mono

theorem scanInv_init (scalars : Nat → Scalar) (z y s : Nat) (D : CompressedVolume) :
    ScanInv scalars z y s D 0
      { start_idx := s, outside := true, seg_entry := 0, dexels := D } where
  idx := rfl
  segs_ex := ⟨[], by rw [heightsOf_nil, withColumn_nil], List.Pairwise.nil, fun a b => by
    simp only [List.not_mem_nil, false_iff]
    intro h
    exact Nat.not_lt_zero _ h.2.1⟩
  out := fun _ => Or.inl rfl
  ins := fun h => by simp at h

theorem scanInv_step {scalars : Nat → Scalar} {z y s : Nat} {D : CompressedVolume} {k : Nat}
    {st : ColumnScan} (inv : ScanInv scalars z y s D k st) :
    ScanInv scalars z y s D (k + 1) (volume_to_dexels_x scalars z y st k) := by
  obtain ⟨hidx, ⟨segs, hD, hsep, hmem⟩, hout, hins⟩ := inv
  unfold volume_to_dexels_x
  rw [hidx]
  by_cases hpos : 0 < scalars (s + k)
  · -- the sample is positive
    cases hb : st.outside
    · -- inside a run: it continues
      obtain ⟨h1, h2, h3⟩ := hins hb
      simp only [Bool.false_eq_true, false_and, if_false, true_and, not_le.mpr hpos]
      refine ⟨by simp only [hidx]; omega, ⟨segs, hD, hsep, fun a b => ?_⟩, ?_, ?_⟩
      · rw [hmem a b]; exact (isRun_succ_of_pos (v := fun x => scalars (s + x)) hpos a b).symm
      · intro h; simp at h
      · intro _
        refine ⟨Nat.lt_succ_of_lt h1, fun x hx hxk => ?_, h3⟩
        rcases Nat.lt_succ_iff_lt_or_eq.mp hxk with h | h
        · exact h2 x hx h
        · rw [h]; exact hpos
    · -- outside: a run starts at k
      simp only [true_and, gt_iff_lt, hpos, if_true]
      refine ⟨by simp only [hidx]; omega, ⟨segs, hD, hsep, fun a b => ?_⟩, ?_, ?_⟩
      · rw [hmem a b]; exact (isRun_succ_of_pos (v := fun x => scalars (s + x)) hpos a b).symm
      · intro h; simp at h
      · intro _
        refine ⟨Nat.lt_succ_self k, fun x hx hxk => ?_, hout hb⟩
        have hx' : k ≤ x := hx
        have : x = k := by omega
        rw [this]; exact hpos
  · -- the sample is non-positive
    have hle : scalars (s + k) ≤ 0 := not_lt.mp hpos
    cases hb : st.outside
    · -- inside a run: it ends at k and the segment is appended
      obtain ⟨h1, h2, h3⟩ := hins hb
      simp only [Bool.false_eq_true, false_and, if_false, true_and, hle, if_true]
      refine ⟨by simp only [hidx]; omega, ⟨segs ++ [(st.seg_entry, k)], ?_, ?_, fun a b => ?_⟩,
        ?_, ?_⟩
      · simp only [hD, appendSegment_eq_withColumn, withColumn_withColumn, heightsOf_append,
          heightsOf_cons, heightsOf_nil]
      · refine List.pairwise_append.mpr ⟨hsep, List.pairwise_singleton _ _, fun p hp q hq => ?_⟩
        rw [List.mem_singleton] at hq
        subst hq
        have hr := (hmem p.1 p.2).mp hp
        by_contra hc
        exact absurd (h2 p.2 (not_lt.mp hc) hr.2.1) (not_lt.mpr hr.2.2.2.1)
      · simp only [List.mem_append, List.mem_singleton, Prod.mk.injEq]
        constructor
        · rintro (h | ⟨rfl, rfl⟩)
          · exact isRun_mono ((hmem a b).mp h)
          · exact ⟨h1, Nat.lt_succ_self _, h2, hle, h3⟩
        · intro h
          rcases Nat.lt_succ_iff_lt_or_eq.mp h.2.1 with hbk | hbk
          · exact Or.inl ((hmem a b).mpr ⟨h.1, hbk, h.2.2⟩)
          · subst hbk
            refine Or.inr ⟨?_, rfl⟩
            rcases Nat.lt_trichotomy a st.seg_entry with hlt | heq | hgt
            · rcases h3 with h0 | h0
              · omega
              · exact absurd (h.2.2.1 (st.seg_entry - 1) (by omega) (by omega))
                  (not_lt.mpr h0)
            · exact heq
            · rcases h.2.2.2.2 with h0 | h0
              · omega
              · exact absurd (h2 (a - 1) (by omega) (by have := h.1; omega)) (not_lt.mpr h0)
      · intro _; exact Or.inr (by simpa using hle)
      · intro h; simp at h
    · -- outside: nothing happens
      simp only [true_and, gt_iff_lt, hpos, if_false, Bool.true_eq_false, false_and]
      refine ⟨by simp only [hidx]; omega, ⟨segs, hD, hsep, fun a b => ?_⟩, ?_, ?_⟩
      · rw [hmem a b]
        exact (isRun_succ_of_outside (v := fun x => scalars (s + x)) (hout hb) a b).symm
      · intro _; exact Or.inr (by simpa using hle)
      · intro h; simp at h

theorem scanInv_fold (scalars : Nat → Scalar) (z y s : Nat) (D : CompressedVolume) (k : Nat) :
    ScanInv scalars z y s D k ((List.range k).foldl (volume_to_dexels_x scalars z y)
      { start_idx := s, outside := true, seg_entry := 0, dexels := D }) := by
  induction k with
  | zero => exact scanInv_init scalars z y s D
  | succ k ih =>
    rw [List.range_succ, List.foldl_append]
    exact scanInv_step ih

/-- One column: the `y` iteration advances `start_idx` by `w` and appends to column `(z, y)`
the heights of the closed runs of that column, leaving the other columns alone. -/
theorem volume_to_dexels_y_spec (scalars : Nat → Scalar) (w z y s : Nat)
    (D : CompressedVolume) :
    ∃ segs, volume_to_dexels_y scalars w z (s, D) y
        = (s + w, D.withColumn z y (heightsOf segs)) ∧
      ColumnRuns (fun x => scalars (s + x)) w segs := by
  obtain ⟨hidx, ⟨segs, hD, hruns⟩, -, -⟩ := scanInv_fold scalars z y s D w
  exact ⟨segs, by simp only [volume_to_dexels_y, hidx, hD], hruns⟩

theorem planeInv_step {scalars : Nat → Scalar} {w z s : Nat} {D : CompressedVolume} {k : Nat}
    {st : Nat × CompressedVolume} (inv : PlaneInv scalars w z s D k st) :
    PlaneInv scalars w z s D (k + 1) (volume_to_dexels_y scalars w z st k) := by
  obtain ⟨hidx, hother, hcols⟩ := inv
  obtain ⟨segs, hres, hruns⟩ := volume_to_dexels_y_spec scalars w z k st.1 st.2
  rw [show st = (st.1, st.2) from rfl, hres]
  refine ⟨?_, fun i j hij => ?_, fun j hj => ?_⟩
  · simp only [hidx, Nat.succ_mul, Nat.add_assoc]
  · have hne : ¬ (i = z ∧ j = k) := by omega
    simp only [CompressedVolume.withColumn, hne, if_false]
    exact hother i j (by omega)
  · rcases Nat.lt_succ_iff_lt_or_eq.mp hj with hlt | heq
    · have hne : ¬ (True ∧ j = k) := by omega
      simp only [CompressedVolume.withColumn, hne, if_false]
      exact hcols j hlt
    · subst heq
      refine ⟨segs, ?_, ?_⟩
      · simp only [CompressedVolume.withColumn, and_self, if_true]
        rw [hother z j (Or.inr (Nat.le_refl j))]
      · rw [hidx] at hruns
        exact hruns

theorem planeInv_fold (scalars : Nat → Scalar) (w z : Nat) (st : Nat × CompressedVolume)
    (k : Nat) :
    PlaneInv scalars w z st.1 st.2 k
      ((List.range k).foldl (volume_to_dexels_y scalars w z) st) := by
  induction k with
  | zero => exact ⟨by simp, fun _ _ _ => rfl, fun j hj => absurd hj (Nat.not_lt_zero j)⟩
  | succ k ih =>
    rw [List.range_succ, List.foldl_append]
    exact planeInv_step ih

theorem volInv_step {scalars : Nat → Scalar} {w h : Nat} {D : CompressedVolume} {k : Nat}
    {st : Nat × CompressedVolume} (inv : VolInv scalars w h D k st) :
    VolInv scalars w h D (k + 1) (volume_to_dexels_z scalars w h st k) := by
  obtain ⟨hidx, hother, hcols⟩ := inv
  obtain ⟨pidx, pother, pcols⟩ := planeInv_fold scalars w k st h
  unfold volume_to_dexels_z
  refine ⟨?_, fun i j hi => ?_, fun i j hi hj => ?_⟩
  · rw [pidx, hidx, Nat.succ_mul, Nat.mul_comm h w]
  · rw [pother i j (Or.inl (by omega))]
    exact hother i j (by omega)
  · rcases Nat.lt_succ_iff_lt_or_eq.mp hi with hlt | heq
    · rw [pother i j (Or.inl (by omega))]
      exact hcols i j hlt hj
    · subst heq
      obtain ⟨segs, hdata, hruns⟩ := pcols j hj
      refine ⟨segs, ?_, ?_⟩
      · rw [hdata, hother i j (Nat.le_refl i)]
      · rw [hidx] at hruns
        exact hruns

theorem volInv_fold (scalars : Nat → Scalar) (w h : Nat) (D : CompressedVolume) (k : Nat) :
    VolInv scalars w h D k ((List.range k).foldl (volume_to_dexels_z scalars w h) (0, D)) := by
  induction k with
  | zero => exact ⟨by simp, fun _ _ _ => rfl, fun i _ hi => absurd hi (Nat.not_lt_zero i)⟩
  | succ k ih =>
    rw [List.range_succ, List.foldl_append]
    exact volInv_step ih

/-- Every column `(z, y)` of the volume built by `volume_to_dexels` holds the heights of the
closed runs of the samples `scalars[z*w*h + y*w + x]`, `0 ≤ x < w`. -/
theorem volume_to_dexels_column (scalars : Nat → Scalar) (w h d z y : Nat) (hz : z < d)
    (hy : y < h) :
    ∃ segs, (volume_to_dexels scalars w h d).at z y = heightsOf segs ∧
      ColumnRuns (fun x => scalars (z * (w * h) + y * w + x)) w segs := by
  obtain ⟨segs, hdata, hruns⟩ :=
    (volInv_fold scalars w h
      (CompressedVolume.init (0, 0, 0) ((d : Scalar), (h : Scalar), (w : Scalar)) 1 0) d).cols
      z y hz hy
  exact ⟨segs, by simpa [volume_to_dexels, CompressedVolume.at, CompressedVolume.init]
    using hdata, hruns⟩

theorem mem_heightsOf {segs : List (Nat × Nat)} {t : Scalar} :
    t ∈ heightsOf segs ↔ ∃ p ∈ segs, t = (p.1 : Scalar) ∨ t = (p.2 : Scalar) := by
  simp [heightsOf, List.mem_flatMap]

theorem length_heightsOf (segs : List (Nat × Nat)) :
    (heightsOf segs).length = 2 * segs.length := by
  induction segs with
  | nil => rfl
  | cons p l ih => rw [heightsOf_cons, List.length_cons, List.length_cons, List.length_cons, ih]
                   omega

theorem heightsOf_sorted {segs : List (Nat × Nat)} (hsep : segs.Pairwise fun p q => p.2 < q.1)
    (hlt : ∀ p ∈ segs, p.1 < p.2) : (heightsOf segs).Pairwise (· < ·) := by
  induction segs with
  | nil => exact List.Pairwise.nil
  | cons p l ih =>
    rw [List.pairwise_cons] at hsep
    have hp : p.1 < p.2 := hlt p (List.mem_cons_self p l)
    have htail : ∀ t ∈ heightsOf l, (p.2 : Scalar) < t := by
      intro t ht
      obtain ⟨q, hq, hqt⟩ := mem_heightsOf.mp ht
      have h1 : p.2 < q.1 := hsep.1 q hq
      have h2 : q.1 < q.2 := hlt q (List.mem_cons_of_mem p hq)
      rcases hqt with rfl | rfl
      · exact_mod_cast h1
      · exact_mod_cast h1.trans h2
    have hp' : (p.1 : Scalar) < (p.2 : Scalar) := by exact_mod_cast hp
    rw [heightsOf_cons]
    refine List.Pairwise.cons ?_ (List.Pairwise.cons htail
      (ih hsep.2 fun q hq => hlt q (List.mem_cons_of_mem p hq)))
    intro t ht
    rcases List.mem_cons.mp ht with rfl | ht
    · exact hp'
    · exact hp'.trans (htail t ht)

theorem ColumnRuns.lt {v : Nat → Scalar} {w : Nat} {segs : List (Nat × Nat)}
    (hr : ColumnRuns v w segs) : ∀ p ∈ segs, p.1 < p.2 :=
  fun p hp => ((hr.mem_iff p.1 p.2).mp hp).1

/-! ## C1, C2: the segments and heights of a column -/

/-- C1: for every grid and every column `(z, y)` with `z < d`, `y < h`, the heights of the
column are the entry and exit of a list `segs` of appended segments that is in scan order
(increasing entry) and holds exactly the pairs `(a, b)` with `a < b < w`, all samples at
`x = a .. b-1` positive, the sample at `x = b` non-positive, and `a = 0` or the sample at
`x = a-1` non-positive; a column with no positive sample gets no segment. -/
theorem volume_to_dexels_segments (scalars : Nat → Scalar) (w h d z y : Nat) (hz : z < d)
    (hy : y < h) :
    ∃ segs : List (Nat × Nat),
      (volume_to_dexels scalars w h d).at z y = heightsOf segs ∧
      segs.Pairwise (fun p q => p.1 < q.1) ∧
      (∀ a b, (a, b) ∈ segs ↔
        a < b ∧ b < w ∧ (∀ x, a ≤ x → x < b → 0 < scalars (z * (w * h) + y * w + x)) ∧
          scalars (z * (w * h) + y * w + b) ≤ 0 ∧
          (a = 0 ∨ scalars (z * (w * h) + y * w + (a - 1)) ≤ 0)) ∧
      ((∀ x, x < w → scalars (z * (w * h) + y * w + x) ≤ 0) → segs = []) := by
  obtain ⟨segs, hcol, hruns⟩ := volume_to_dexels_column scalars w h d z y hz hy
  refine ⟨segs, hcol, ?_, hruns.mem_iff, fun hnone => ?_⟩
  · refine hruns.sep.imp_of_mem ?_
    intro p q hp _ hpq
    exact (hruns.lt p hp).trans hpq
  · refine List.eq_nil_iff_forall_not_mem.mpr fun p hp => ?_
    have hr := (hruns.mem_iff p.1 p.2).mp hp
    have hpos := hr.2.2.1 p.1 (Nat.le_refl _) hr.1
    exact absurd hpos (not_lt.mpr (hnone p.1 (hr.1.trans hr.2.1)))

/-- C2: for every grid and every column `(z, y)` with `z < d`, `y < h`, the heights of the
column are strictly increasing and their number is even. -/
theorem volume_to_dexels_heights_sorted_even (scalars : Nat → Scalar) (w h d z y : Nat)
    (hz : z < d) (hy : y < h) :
    ((volume_to_dexels scalars w h d).at z y).Sorted (· < ·) ∧
      Even ((volume_to_dexels scalars w h d).at z y).length := by
  obtain ⟨segs, hcol, hruns⟩ := volume_to_dexels_column scalars w h d z y hz hy
  rw [hcol]
  exact ⟨heightsOf_sorted hruns.sep hruns.lt, by
    rw [length_heightsOf]; exact even_two_mul _⟩

theorem volume_to_dexels_segments_witness :
    (0 < 1 ∧ 0 < 1) ∧ ∃ segs : List (Nat × Nat),
      (volume_to_dexels sampleGrid 6 1 1).at 0 0 = heightsOf segs ∧
      segs.Pairwise (fun p q => p.1 < q.1) ∧
      (∀ a b, (a, b) ∈ segs ↔
        a < b ∧ b < 6 ∧ (∀ x, a ≤ x → x < b → 0 < sampleGrid (0 * (6 * 1) + 0 * 6 + x)) ∧
          sampleGrid (0 * (6 * 1) + 0 * 6 + b) ≤ 0 ∧
          (a = 0 ∨ sampleGrid (0 * (6 * 1) + 0 * 6 + (a - 1)) ≤ 0)) ∧
      ((∀ x, x < 6 → sampleGrid (0 * (6 * 1) + 0 * 6 + x) ≤ 0) → segs = []) :=
  ⟨⟨by decide, by decide⟩,
    volume_to_dexels_segments sampleGrid 6 1 1 0 0 (by decide) (by decide)⟩

theorem volume_to_dexels_heights_sorted_even_witness :
    (0 < 1 ∧ 0 < 1) ∧ ((volume_to_dexels sampleGrid 6 1 1).at 0 0).Sorted (· < ·) ∧
      Even ((volume_to_dexels sampleGrid 6 1 1).at 0 0).length :=
  ⟨⟨by decide, by decide⟩,
    volume_to_dexels_heights_sorted_even sampleGrid 6 1 1 0 0 (by decide) (by decide)⟩

/-! ## The column rule of `dexels_to_mesh` -/

/-- On a strictly increasing column the search loop stops at the number `c` of heights that
are `≤ t`: it leaves `idx = i + c - 1`, or `-1` when no height is above `t`. -/
theorem dexel_idx_sorted (t : Scalar) :
    ∀ (d : List Scalar) (i : Nat), d.Pairwise (· < ·) →
      dexel_idx t d i =
        if d.countP (fun u => decide (u ≤ t)) < d.length then
          ((i + d.countP (fun u => decide (u ≤ t)) : Nat) : Int) - 1
        else -1
  | [], _, _ => by simp [dexel_idx]
  | a :: rest, i, hs => by
    rw [List.pairwise_cons] at hs
    by_cases hlt : t < a
    · have hzero : rest.countP (fun u => decide (u ≤ t)) = 0 := by
        refine List.countP_eq_zero.mpr fun u hu => ?_
        simpa using hlt.trans (hs.1 u hu)
      have ha : ¬ (decide (a ≤ t) = true) := by simpa using hlt
      rw [dexel_idx, if_pos hlt, List.countP_cons_of_neg (fun u => decide (u ≤ t)) rest ha, hzero]
      simp
    · have ha : decide (a ≤ t) = true := by simpa using hlt
      rw [dexel_idx, if_neg hlt, List.countP_cons_of_pos (fun u => decide (u ≤ t)) rest ha,
         dexel_idx_sorted t rest (i + 1) hs.2]
      simp only [List.length_cons, Nat.add_lt_add_iff_right]
      split
      · congr 2; omega
      · rfl

theorem dexel_sample_eq_neg_one_iff (d : List Scalar) (t : Scalar) :
    dexel_sample d t = -1 ↔ 0 ≤ dexel_idx t d 0 ∧ Int.tmod (dexel_idx t d 0) 2 = 0 := by
  unfold dexel_sample
  by_cases h1 : dexel_idx t d 0 < 0
  · simp only [h1, if_true]
    constructor
    · intro h; norm_num at h
    · intro h; omega
  · by_cases h2 : Int.tmod (dexel_idx t d 0) 2 = 0
    · simp only [h1, if_false, h2, if_true, true_iff]
      exact ⟨not_lt.mp h1, trivial⟩
    · simp only [h1, if_false, h2, and_false, iff_false]
      norm_num

/-- The column rule on a well-formed column: a height `t` is marked inside exactly when the
number of column heights `≤ t` is odd. -/
theorem dexel_sample_sorted_even (d : List Scalar) (t : Scalar) (hs : d.Sorted (· < ·))
    (he : Even d.length) :
    dexel_sample d t = -1 ↔ Odd (d.countP fun u => decide (u ≤ t)) := by
  rw [dexel_sample_eq_neg_one_iff, dexel_idx_sorted t d 0 hs]
  have hc : d.countP (fun u => decide (u ≤ t)) ≤ d.length := List.countP_le_length _
  rw [Nat.even_iff] at he
  rw [Nat.odd_iff]
  split
  · constructor
    · rintro ⟨h0, h2⟩
      rw [Int.tmod_eq_emod h0 (by norm_num)] at h2
      omega
    · intro h
      have h0 : (0 : Int) ≤ ((0 + d.countP (fun u => decide (u ≤ t)) : Nat) : Int) - 1 := by
        omega
      refine ⟨h0, ?_⟩
      rw [Int.tmod_eq_emod h0 (by norm_num)]
      omega
  · constructor
    · rintro ⟨h0, -⟩
      omega
    · intro h
      omega

theorem natCast_le_add_half (a x : Nat) : (a : Scalar) ≤ (x : Scalar) + 1 / 2 ↔ a ≤ x := by
  constructor
  · intro h
    by_contra hc
    have h1 : x + 1 ≤ a := by omega
    have h2 : ((x + 1 : Nat) : Scalar) ≤ (a : Scalar) := by exact_mod_cast h1
    push_cast at h2
    linarith
  · intro h
    have h2 : (a : Scalar) ≤ (x : Scalar) := by exact_mod_cast h
    linarith

/-- Parity of the heights of a separated segment list below a voxel centre: odd exactly when
one of the segments holds the voxel. -/
theorem odd_count_heightsOf (x : Nat) :
    ∀ segs : List (Nat × Nat), segs.Pairwise (fun p q => p.2 < q.1) →
      (∀ p ∈ segs, p.1 < p.2) →
      (Odd ((heightsOf segs).countP fun u => decide (u ≤ (x : Scalar) + 1 / 2)) ↔
        ∃ p ∈ segs, p.1 ≤ x ∧ x < p.2)
  | [], _, _ => by simp [heightsOf]
  | p :: l, hsep, hlt => by
    rw [List.pairwise_cons] at hsep
    have ih := odd_count_heightsOf x l hsep.2 fun q hq => hlt q (List.mem_cons_of_mem p hq)
    have hp : p.1 < p.2 := hlt p (List.mem_cons_self p l)
    rw [heightsOf_cons, List.countP_cons, List.countP_cons]
    simp only [decide_eq_true_eq, natCast_le_add_half, List.exists_mem_cons_iff]
    by_cases h1 : p.1 ≤ x
    · by_cases h2 : p.2 ≤ x
      · have hx2 : ¬ x < p.2 := by omega
        simp only [h1, h2, if_true, hx2, and_false, false_or]
        rw [← ih, Nat.odd_iff, Nat.odd_iff]
        omega
      · have hnone : ¬ ∃ q ∈ l, q.1 ≤ x ∧ x < q.2 := by
          rintro ⟨q, hq, hq1, -⟩
          have := hsep.1 q hq
          omega
        have hx2 : x < p.2 := by omega
        simp only [h1, h2, hx2, if_true, if_false, and_self, true_or, iff_true]
        have hev : ¬ Odd ((heightsOf l).countP fun u => decide (u ≤ (x : Scalar) + 1 / 2)) :=
          fun h => hnone (ih.mp h)
        rw [Nat.odd_iff] at hev ⊢
        omega
    · have h2 : ¬ p.2 ≤ x := by omega
      simp only [h1, h2, if_false, false_and, false_or, Nat.add_zero]
      exact ih

/-- A positive sample followed, later in its column, by a non-positive one lies in a closed
run. -/
theorem exists_run_of_pos (v : Nat → Scalar) (w x : Nat) (hpos : 0 < v x)
    (hclosed : ∃ x', x ≤ x' ∧ x' < w ∧ v x' ≤ 0) :
    ∃ a b, IsRun v w a b ∧ a ≤ x ∧ x < b := by
  classical
  have hb : ∃ b, x ≤ b ∧ v b ≤ 0 := by
    obtain ⟨x', h1, -, h3⟩ := hclosed
    exact ⟨x', h1, h3⟩
  have ha : ∃ a, ∀ t, a ≤ t → t ≤ x → 0 < v t :=
    ⟨x, fun t h1 h2 => by rw [show t = x by omega]; exact hpos⟩
  refine ⟨Nat.find ha, Nat.find hb, ⟨?_, ?_, ?_, (Nat.find_spec hb).2, ?_⟩, ?_, ?_⟩
  · -- a < b
    have h1 : Nat.find ha ≤ x := Nat.find_min' ha fun t h1 h2 => by
      rw [show t = x by omega]; exact hpos
    have h2 : x < Nat.find hb := by
      rcases Nat.lt_or_ge x (Nat.find hb) with h | h
      · exact h
      · have heq : Nat.find hb = x := by have := (Nat.find_spec hb).1; omega
        exact absurd hpos (not_lt.mpr (heq ▸ (Nat.find_spec hb).2))
    omega
  · obtain ⟨x', h1, h2, h3⟩ := hclosed
    exact lt_of_le_of_lt (Nat.find_min' hb ⟨h1, h3⟩) h2
  · intro t h1 h2
    rcases Nat.lt_or_ge x t with h | h
    · by_contra hc
      exact Nat.find_min hb h2 ⟨by omega, not_lt.mp hc⟩
    · exact Nat.find_spec ha t h1 h
  · rcases Nat.eq_zero_or_pos (Nat.find ha) with h0 | h0
    · exact Or.inl h0
    · right
      by_contra hc
      have hc' : 0 < v (Nat.find ha - 1) := not_le.mp hc
      refine Nat.find_min ha (show Nat.find ha - 1 < Nat.find ha by omega) fun t h1 h2 => ?_
      rcases Nat.lt_or_ge t (Nat.find ha) with h | h
      · rw [show t = Nat.find ha - 1 by omega]; exact hc'
      · exact Nat.find_spec ha t h h2
  · exact Nat.find_min' ha fun t h1 h2 => by rw [show t = x by omega]; exact hpos
  · rcases Nat.lt_or_ge x (Nat.find hb) with h | h
    · exact h
    · have heq : Nat.find hb = x := by have := (Nat.find_spec hb).1; omega
      exact absurd hpos (not_lt.mpr (heq ▸ (Nat.find_spec hb).2))

/-! ## C3: the dexel round trip -/

/-- C3, as stated, fails: in the one-voxel grid with value `1` the voxel is positive, yet its
centre height `0 + 1/2` is not classified inside the column built by `volume_to_dexels`
(the run is still open at the end of the column and no segment was appended). -/
theorem roundtrip_open_run_counterexample :
    ¬ (dexel_sample ((volume_to_dexels (gridOfList [1]) 1 1 1).at 0 0)
          (((0 : Nat) : Scalar) + 1 / 2) = -1 ↔
        0 < gridOfList [1] (0 * (1 * 1) + 0 * 1 + 0)) := by
  have hcol : (volume_to_dexels (gridOfList [1]) 1 1 1).at 0 0 = [] := by decide
  have hval : (0 : Scalar) < gridOfList [1] (0 * (1 * 1) + 0 * 1 + 0) := by decide
  rw [hcol]
  intro h
  have := h.mpr hval
  norm_num [dexel_sample, dexel_idx] at this

/-- C3, amended: for every grid and every voxel `(x, y, z)` whose column has a non-positive
sample at some `x' ≥ x`, the voxel-centre height `x + 1/2` is classified inside (value `-1`)
by the column rule of `dexels_to_mesh` on the column `(z, y)` built by `volume_to_dexels`
exactly when the voxel's value is positive. -/
theorem volume_to_dexels_roundtrip (scalars : Nat → Scalar) (w h d x y z : Nat)
    (hy : y < h) (hz : z < d)
    (hclosed : ∃ x', x ≤ x' ∧ x' < w ∧ scalars (z * (w * h) + y * w + x') ≤ 0) :
    dexel_sample ((volume_to_dexels scalars w h d).at z y) ((x : Scalar) + 1 / 2) = -1 ↔
      0 < scalars (z * (w * h) + y * w + x) := by
  obtain ⟨segs, hcol, hruns⟩ := volume_to_dexels_column scalars w h d z y hz hy
  rw [hcol, dexel_sample_sorted_even _ _ (heightsOf_sorted hruns.sep hruns.lt)
    (by rw [length_heightsOf]; exact even_two_mul _),
    odd_count_heightsOf x segs hruns.sep hruns.lt]
  constructor
  · rintro ⟨p, hp, h1, h2⟩
    exact ((hruns.mem_iff p.1 p.2).mp hp).2.2.1 x h1 h2
  · intro hpos
    obtain ⟨a, b, hrun, h1, h2⟩ :=
      exists_run_of_pos (fun t => scalars (z * (w * h) + y * w + t)) w x hpos hclosed
    exact ⟨(a, b), (hruns.mem_iff a b).mpr hrun, h1, h2⟩

theorem volume_to_dexels_roundtrip_witness :
    (0 < 1 ∧ 0 < 1 ∧ ∃ x', 1 ≤ x' ∧ x' < 6 ∧ sampleGrid (0 * (6 * 1) + 0 * 6 + x') ≤ 0) ∧
      (dexel_sample ((volume_to_dexels sampleGrid 6 1 1).at 0 0) (((1 : Nat) : Scalar) + 1 / 2)
          = -1 ↔ 0 < sampleGrid (0 * (6 * 1) + 0 * 6 + 1)) :=
  ⟨⟨by decide, by decide, 3, by decide, by decide, by decide⟩,
    volume_to_dexels_roundtrip sampleGrid 6 1 1 1 0 0 (by decide) (by decide)
      ⟨3, by decide, by decide, by decide⟩⟩

/-! ## C4: open runs are not reported -/

/-- C4, as stated, fails: in the one-voxel grid with value `1` the scan of column `(0, 0)`
ends inside a run, and the call still completes normally, with an empty column. -/
theorem volume_to_dexels_open_run_counterexample :
    scan_ends_inside (gridOfList [1]) 1 1 0 0 = true ∧
      ∃ D, volume_to_dexels_call (gridOfList [1]) 1 1 1 = Except.ok D ∧ D.at 0 0 = [] :=
  ⟨by decide, volume_to_dexels (gridOfList [1]) 1 1 1, rfl, by decide⟩

/-- C4, amended: `volume_to_dexels` has no rejecting or reporting path. On every grid the
call completes normally, and every column `(z, y)` with `z < d`, `y < h` of the volume it
returns holds an even number of heights. -/
theorem volume_to_dexels_call_completes (scalars : Nat → Scalar) (w h d z y : Nat)
    (hz : z < d) (hy : y < h) :
    ∃ D, volume_to_dexels_call scalars w h d = Except.ok D ∧ Even (D.at z y).length :=
  ⟨volume_to_dexels scalars w h d, rfl, by
    obtain ⟨segs, hcol, -⟩ := volume_to_dexels_column scalars w h d z y hz hy
    rw [hcol, length_heightsOf]
    exact even_two_mul _⟩

theorem volume_to_dexels_call_completes_witness :
    (0 < 1 ∧ 0 < 1) ∧
      ∃ D, volume_to_dexels_call (gridOfList [1]) 1 1 1 = Except.ok D ∧ Even (D.at 0 0).length :=
  ⟨⟨by decide, by decide⟩,
    volume_to_dexels_call_completes (gridOfList [1]) 1 1 1 0 0 (by decide) (by decide)⟩

/-! ## C5: the column rule against the count of lower heights -/

/-- C5, as stated, fails at an interval boundary: the column `[1, 3]` is strictly increasing
and of even length, the query height `1` is marked inside (value `-1`), and no height of the
column is strictly less than `1`. -/
theorem dexel_sample_strict_count_counterexample :
    ([1, 3] : List Scalar).Sorted (· < ·) ∧ Even ([1, 3] : List Scalar).length ∧
      ¬ (dexel_sample [1, 3] 1 = -1 ↔
          Odd (([1, 3] : List Scalar).countP fun u => decide (u < 1))) := by
  refine ⟨by decide, by decide, ?_⟩
  have h1 : dexel_sample [1, 3] 1 = -1 := by decide
  have h2 : ([1, 3] : List Scalar).countP (fun u => decide (u < 1)) = 0 := by decide
  rw [h2]
  intro h
  exact absurd (h.mp h1) (by decide)

/-- C5, amended: for every strictly increasing dexel column with an even number of heights
and every query height `t`, the per-sample classification of `dexels_to_mesh` marks `t` inside
(value `-1`) if and only if the number of column heights less than or equal to `t` is odd;
when `t` is not itself a height of the column this is the number of heights strictly less
than `t`. -/
theorem dexel_sample_inside_iff (d : List Scalar) (t : Scalar) (hs : d.Sorted (· < ·))
    (he : Even d.length) :
    (dexel_sample d t = -1 ↔ Odd (d.countP fun u => decide (u ≤ t))) ∧
      (t ∉ d → (dexel_sample d t = -1 ↔ Odd (d.countP fun u => decide (u < t)))) := by
  refine ⟨dexel_sample_sorted_even d t hs he, fun hnot => ?_⟩
  rw [dexel_sample_sorted_even d t hs he]
  have hcongr : d.countP (fun u => decide (u ≤ t)) = d.countP (fun u => decide (u < t)) := by
    refine List.countP_congr fun u hu => ?_
    have hne : u ≠ t := fun h => hnot (h ▸ hu)
    simp only [decide_eq_true_eq]
    exact ⟨fun h => lt_of_le_of_ne h hne, le_of_lt⟩
  rw [hcongr]

theorem dexel_sample_inside_iff_witness :
    (([1, 3] : List Scalar).Sorted (· < ·) ∧ Even ([1, 3] : List Scalar).length ∧
        (2 : Scalar) ∉ ([1, 3] : List Scalar)) ∧
      (dexel_sample [1, 3] 2 = -1 ↔
          Odd (([1, 3] : List Scalar).countP fun u => decide (u ≤ 2))) ∧
      (dexel_sample [1, 3] 2 = -1 ↔
          Odd (([1, 3] : List Scalar).countP fun u => decide (u < 2))) :=
  ⟨⟨by decide, by decide, by decide⟩,
    (dexel_sample_inside_iff [1, 3] 2 (by decide) (by decide)).1,
    (dexel_sample_inside_iff [1, 3] 2 (by decide) (by decide)).2 (by decide)⟩

/-! ## C6: the scalar field of `dexels_to_mesh` -/

theorem foldl_append_eq_flatMap {α β : Type} (F : List β → α → List β) (g : α → List β)
    (hF : ∀ acc a, F acc a = acc ++ g a) (l : List α) (init : List β) :
    l.foldl F init = init ++ l.flatMap g := by
  induction l generalizing init with
  | nil => simp
  | cons a l ih => rw [List.foldl_cons, ih, hF, List.flatMap_cons, List.append_assoc]

theorem length_flatMap_range {β : Type} (b : Nat) (F : Nat → List β)
    (hF : ∀ i, (F i).length = b) (a : Nat) : ((List.range a).flatMap F).length = a * b := by
  induction a with
  | zero => simp
  | succ a ih =>
    rw [List.range_succ, List.flatMap_append, List.length_append, ih, Nat.succ_mul]
    simp [hF]

theorem getElem?_flatMap_range {β : Type} (b : Nat) (F : Nat → List β)
    (hF : ∀ i, (F i).length = b) (a i j : Nat) (hi : i < a) (hj : j < b) :
    ((List.range a).flatMap F)[i * b + j]? = (F i)[j]? := by
  induction a with
  | zero => exact absurd hi (Nat.not_lt_zero i)
  | succ a ih =>
    have hlen := length_flatMap_range b F hF a
    rw [List.range_succ, List.flatMap_append]
    rcases Nat.lt_succ_iff_lt_or_eq.mp hi with hlt | heq
    · have hbound : i * b + j < a * b := by
        calc i * b + j < i * b + b := by omega
          _ = (i + 1) * b := by rw [Nat.succ_mul]
          _ ≤ a * b := Nat.mul_le_mul_right b hlt
      rw [List.getElem?_append_left (by rw [hlen]; exact hbound)]
      exact ih hlt
    · subst heq
      rw [List.getElem?_append_right (by rw [hlen]; omega), hlen]
      simp

theorem flatMap_singleton_eq_map {α β : Type} (f : α → β) (l : List α) :
    (l.flatMap fun a => [f a]) = l.map f := by
  induction l with
  | nil => rfl
  | cons a l ih => rw [List.flatMap_cons, ih, List.map_cons, List.singleton_append]

theorem intLoop_neg_one (n : Nat) :
    intLoop (-1) ((n : Int) + 1) = (List.range (n + 2)).map fun (k : Nat) => (k : Int) - 1 := by
  unfold intLoop
  have h : ((n : Int) + 1 - (-1)).toNat = n + 2 := by omega
  rw [h]
  refine List.map_congr_left fun k _ => ?_
  omega

theorem dexels_to_mesh_x_eq (n : Nat) (D : CompressedVolume) (z y : Int) (acc : List Scalar)
    (x : Int) : dexels_to_mesh_x n D z y acc x = acc ++ [sample_value n D x y z] := by
  unfold dexels_to_mesh_x sample_value
  split <;> rfl

/-- The field in closed form: layer by layer, row by row, one value per sample. -/
theorem dexels_to_mesh_vals_eq (n : Nat) (D : CompressedVolume) :
    dexels_to_mesh_vals n D =
      (List.range (n + 2)).flatMap fun (k : Nat) =>
        (List.range (D.gridSize.2 + 2)).flatMap fun (j : Nat) =>
          (List.range (D.gridSize.1 + 2)).map fun (i : Nat) =>
            sample_value n D ((i : Int) - 1) ((j : Int) - 1) ((k : Int) - 1) := by
  have hy : ∀ (z : Int) (acc : List Scalar) (y : Int), dexels_to_mesh_y n D z acc y =
      acc ++ (List.range (D.gridSize.1 + 2)).map fun (i : Nat) =>
        sample_value n D ((i : Int) - 1) y z := by
    intro z acc y
    unfold dexels_to_mesh_y
    rw [foldl_append_eq_flatMap _ (fun x => [sample_value n D x y z])
      (fun acc x => dexels_to_mesh_x_eq n D z y acc x), intLoop_neg_one]
    simp [List.flatMap_map, Function.comp_def, flatMap_singleton_eq_map]
  have hz : ∀ (acc : List Scalar) (z : Int), dexels_to_mesh_z n D acc z =
      acc ++ (List.range (D.gridSize.2 + 2)).flatMap fun (j : Nat) =>
        (List.range (D.gridSize.1 + 2)).map fun (i : Nat) =>
          sample_value n D ((i : Int) - 1) ((j : Int) - 1) z := by
    intro acc z
    unfold dexels_to_mesh_z
    rw [foldl_append_eq_flatMap _ _ (fun acc y => hy z acc y), intLoop_neg_one]
    simp [List.flatMap_map, Function.comp_def]
  unfold dexels_to_mesh_vals
  rw [foldl_append_eq_flatMap _ _ (fun acc z => hz acc z), intLoop_neg_one]
  simp [List.flatMap_map, Function.comp_def]

theorem dexel_sample_values (d : List Scalar) (t : Scalar) :
    dexel_sample d t = -1 ∨ dexel_sample d t = 1 := by
  unfold dexel_sample
  dsimp only
  split
  · exact Or.inr rfl
  · split
    · exact Or.inl rfl
    · exact Or.inr rfl

theorem sample_value_values (n : Nat) (D : CompressedVolume) (x y z : Int) :
    sample_value n D x y z = -1 ∨ sample_value n D x y z = 1 := by
  unfold sample_value
  split
  · exact Or.inr rfl
  · exact dexel_sample_values _ _

/-- C6: for every dexel volume of grid size `(gx, gy)`, every `n_samples` and every sample
position `(i-1, j-1, k-1)` with `i < gx+2`, `j < gy+2`, `k < n_samples+2`: the field handed to
marching cubes has `(gx+2)*(gy+2)*(n_samples+2)` samples, each of them `-1` or `+1`; the
sample of that position is stored at index `(k*(gy+2) + j)*(gx+2) + i`; it is `+1` when the
position is in the halo, and it is `-1` only when the position is not in the halo and the
column rule classifies it inside. -/
theorem dexels_to_mesh_vals_field (n : Nat) (D : CompressedVolume) (i j k : Nat)
    (hi : i < D.gridSize.1 + 2) (hj : j < D.gridSize.2 + 2) (hk : k < n + 2) :
    (dexels_to_mesh_vals n D).length = (D.gridSize.1 + 2) * (D.gridSize.2 + 2) * (n + 2) ∧
      (∀ v ∈ dexels_to_mesh_vals n D, v = -1 ∨ v = 1) ∧
      (is_halo n D ((i : Int) - 1) ((j : Int) - 1) ((k : Int) - 1) →
        (dexels_to_mesh_vals n D)[(k * (D.gridSize.2 + 2) + j) * (D.gridSize.1 + 2) + i]?
          = some 1) ∧
      ((dexels_to_mesh_vals n D)[(k * (D.gridSize.2 + 2) + j) * (D.gridSize.1 + 2) + i]?
          = some (-1) →
        ¬ is_halo n D ((i : Int) - 1) ((j : Int) - 1) ((k : Int) - 1) ∧
          dexel_sample (D.at ((i : Int) - 1).toNat ((j : Int) - 1).toNat)
            (grid_ctr2 n D ((k : Int) - 1)) = -1) := by
  have hrow : ∀ k' j' : Nat, ((List.range (D.gridSize.1 + 2)).map fun (i' : Nat) =>
      sample_value n D ((i' : Int) - 1) ((j' : Int) - 1) ((k' : Int) - 1)).length
        = D.gridSize.1 + 2 := fun _ _ => by simp
  have hlayer : ∀ k' : Nat, ((List.range (D.gridSize.2 + 2)).flatMap fun (j' : Nat) =>
      (List.range (D.gridSize.1 + 2)).map fun (i' : Nat) =>
        sample_value n D ((i' : Int) - 1) ((j' : Int) - 1) ((k' : Int) - 1)).length
        = (D.gridSize.2 + 2) * (D.gridSize.1 + 2) := fun k' =>
    length_flatMap_range _ _ (hrow k') _
  have hget : (dexels_to_mesh_vals n D)[(k * (D.gridSize.2 + 2) + j) * (D.gridSize.1 + 2) + i]?
      = some (sample_value n D ((i : Int) - 1) ((j : Int) - 1) ((k : Int) - 1)) := by
    have hidx : (k * (D.gridSize.2 + 2) + j) * (D.gridSize.1 + 2) + i
        = k * ((D.gridSize.2 + 2) * (D.gridSize.1 + 2)) + (j * (D.gridSize.1 + 2) + i) := by
      ring
    have hjb : j * (D.gridSize.1 + 2) + i < (D.gridSize.2 + 2) * (D.gridSize.1 + 2) := by
      calc j * (D.gridSize.1 + 2) + i < j * (D.gridSize.1 + 2) + (D.gridSize.1 + 2) := by omega
        _ = (j + 1) * (D.gridSize.1 + 2) := by rw [Nat.succ_mul]
        _ ≤ (D.gridSize.2 + 2) * (D.gridSize.1 + 2) := Nat.mul_le_mul_right _ hj
    rw [dexels_to_mesh_vals_eq, hidx, getElem?_flatMap_range _ _ hlayer _ k _ hk hjb,
      getElem?_flatMap_range _ _ (hrow k) _ j i hj hi]
    simp [List.getElem?_map, List.getElem?_range hi]
  refine ⟨?_, ?_, ?_, ?_⟩
  · rw [dexels_to_mesh_vals_eq, length_flatMap_range _ _ hlayer]
    ring
  · intro v hv
    rw [dexels_to_mesh_vals_eq] at hv
    simp only [List.mem_flatMap, List.mem_map] at hv
    obtain ⟨k', -, j', -, i', -, rfl⟩ := hv
    exact sample_value_values _ _ _ _ _
  · intro hh
    rw [hget, sample_value, if_pos hh]
  · intro hv
    rw [hget, sample_value] at hv
    by_cases hh : is_halo n D ((i : Int) - 1) ((j : Int) - 1) ((k : Int) - 1)
    · rw [if_pos hh] at hv
      norm_num at hv
    · rw [if_neg hh] at hv
      exact ⟨hh, Option.some.inj hv⟩

theorem dexels_to_mesh_vals_field_witness :
    (1 < unitDexels.gridSize.1 + 2 ∧ 1 < unitDexels.gridSize.2 + 2 ∧ 1 < 1 + 2) ∧
    ((dexels_to_mesh_vals 1 unitDexels).length
        = (unitDexels.gridSize.1 + 2) * (unitDexels.gridSize.2 + 2) * (1 + 2) ∧
      (∀ v ∈ dexels_to_mesh_vals 1 unitDexels, v = -1 ∨ v = 1) ∧
      (is_halo 1 unitDexels (((1 : Nat) : Int) - 1) (((1 : Nat) : Int) - 1)
          (((1 : Nat) : Int) - 1) →
        (dexels_to_mesh_vals 1 unitDexels)[(1 * (unitDexels.gridSize.2 + 2) + 1) *
          (unitDexels.gridSize.1 + 2) + 1]? = some 1) ∧
      ((dexels_to_mesh_vals 1 unitDexels)[(1 * (unitDexels.gridSize.2 + 2) + 1) *
          (unitDexels.gridSize.1 + 2) + 1]? = some (-1) →
        ¬ is_halo 1 unitDexels (((1 : Nat) : Int) - 1) (((1 : Nat) : Int) - 1)
            (((1 : Nat) : Int) - 1) ∧
          dexel_sample (unitDexels.at (((1 : Nat) : Int) - 1).toNat (((1 : Nat) : Int) - 1).toNat)
            (grid_ctr2 1 unitDexels (((1 : Nat) : Int) - 1)) = -1)) :=
  ⟨⟨by decide, by decide, by decide⟩,
    dexels_to_mesh_vals_field 1 unitDexels 1 1 1 (by decide) (by decide) (by decide)⟩

/-! ## C7, C8: the padded grid -/

theorem foldl_range_inv {σ : Type} (P : Nat → σ → Prop) (f : σ → Nat → σ) (init : σ) (n : Nat)
    (h0 : P 0 init) (hstep : ∀ k st, k < n → P k st → P (k + 1) (f st k)) :
    P n ((List.range n).foldl f init) := by
  induction n with
  | zero => exact h0
  | succ n ih =>
    rw [List.range_succ, List.foldl_append]
    exact hstep n _ (Nat.lt_succ_self n) (ih fun k st hk => hstep k st (Nat.lt_succ_of_lt hk))

theorem padRowInv_step {sentinel : Scalar} {source : Nat → Scalar} {w h d zi yi r ac : Nat}
    {SV0 : List Scalar} (hfit : r + (w + 2) ≤ SV0.length) {k : Nat} {st : PadState}
    (hk : k < w + 2) (inv : PadRowInv sentinel source w h d zi yi r ac SV0 k st) :
    PadRowInv sentinel source w h d zi yi r ac SV0 (k + 1)
      (pad_x sentinel source w h d zi yi st k) := by
  obtain ⟨hrc, hac, hlen, hframe, hcells⟩ := inv
  have hin : r + k < st.SV.length := by omega
  unfold pad_x
  by_cases hh : pad_is_halo w h d k yi zi
  · rw [if_pos hh]
    refine ⟨by simp only [hrc]; omega, ?_, by simp only [List.length_set, hlen], ?_, ?_⟩
    · simp only [hac]
      unfold pad_is_halo at hh
      split <;> omega
    · intro i hi
      simp only [hrc]
      rw [List.getElem?_set_ne (by omega)]
      exact hframe i (by omega)
    · intro x hx
      simp only [hrc]
      rcases Nat.lt_succ_iff_lt_or_eq.mp hx with hlt | heq
      · rw [List.getElem?_set_ne (by omega)]
        exact hcells x hlt
      · subst heq
        rw [List.getElem?_set_self hin, if_pos hh]
  · rw [if_neg hh]
    have hrow : ¬ (yi = 0 ∨ zi = 0 ∨ yi = h + 1 ∨ zi = d + 1) := by
      unfold pad_is_halo at hh
      omega
    have hk1 : 1 ≤ k ∧ k ≤ w := by
      unfold pad_is_halo at hh
      omega
    rw [if_neg hrow] at hac
    refine ⟨by simp only [hrc]; omega, ?_, by simp only [List.length_set, hlen], ?_, ?_⟩
    · simp only [hac, if_neg hrow]
      omega
    · intro i hi
      simp only [hrc]
      rw [List.getElem?_set_ne (by omega)]
      exact hframe i (by omega)
    · intro x hx
      simp only [hrc]
      rcases Nat.lt_succ_iff_lt_or_eq.mp hx with hlt | heq
      · rw [List.getElem?_set_ne (by omega)]
        exact hcells x hlt
      · subst heq
        rw [List.getElem?_set_self hin, if_neg hh, hac]
        congr 2
        omega

/-- One row: `w + 2` cells are written from `readcount` on. -/
theorem pad_y_spec (sentinel : Scalar) (source : Nat → Scalar) (w h d zi yi : Nat)
    (st : PadState) (hfit : st.readcount + (w + 2) ≤ st.SV.length) :
    PadRowInv sentinel source w h d zi yi st.readcount st.appendcount st.SV (w + 2)
      (pad_y sentinel source w h d zi st yi) := by
  unfold pad_y
  refine foldl_range_inv
    (PadRowInv sentinel source w h d zi yi st.readcount st.appendcount st.SV) _ st (w + 2)
    ⟨rfl, by simp, rfl, fun _ _ => rfl, fun x hx => absurd hx (Nat.not_lt_zero x)⟩ ?_
  intro k st' hk inv
  exact padRowInv_step hfit hk inv

theorem min_pred_succ_mul (k n m : Nat) :
    min (k + 1 - 1) n * m = min (k - 1) n * m + (if 1 ≤ k ∧ k ≤ n then m else 0) := by
  by_cases hk : 1 ≤ k ∧ k ≤ n
  · have h1 : min (k + 1 - 1) n = min (k - 1) n + 1 := by omega
    rw [h1, if_pos hk, Nat.succ_mul]
  · have h1 : min (k + 1 - 1) n = min (k - 1) n := by omega
    rw [h1, if_neg hk, Nat.add_zero]

theorem padPlaneInv_step {sentinel : Scalar} {source : Nat → Scalar} {w h d zi r ac : Nat}
    {SV0 : List Scalar} (hfit : r + (h + 2) * (w + 2) ≤ SV0.length) {k : Nat} {st : PadState}
    (hk : k < h + 2) (inv : PadPlaneInv sentinel source w h d zi r ac SV0 k st) :
    PadPlaneInv sentinel source w h d zi r ac SV0 (k + 1)
      (pad_y sentinel source w h d zi st k) := by
  obtain ⟨hrc, hac, hlen, hframe, hcells⟩ := inv
  have hmul : (k + 1) * (w + 2) ≤ (h + 2) * (w + 2) := Nat.mul_le_mul_right _ hk
  have hsucc : (k + 1) * (w + 2) = k * (w + 2) + (w + 2) := Nat.succ_mul _ _
  obtain ⟨rrc, rac, rlen, rframe, rcells⟩ :=
    pad_y_spec sentinel source w h d zi k st (by rw [hrc, hlen]; omega)
  refine ⟨by rw [rrc, hrc]; omega, ?_, rlen.trans hlen, ?_, ?_⟩
  · rw [rac, hac]
    by_cases hz : zi = 0 ∨ zi = d + 1
    · have hrow : k = 0 ∨ zi = 0 ∨ k = h + 1 ∨ zi = d + 1 := by omega
      rw [if_pos hz, if_pos hz, if_pos hrow]
    · rw [if_neg hz, if_neg hz, min_pred_succ_mul k h w]
      by_cases hk1 : 1 ≤ k ∧ k ≤ h
      · have hrow : ¬ (k = 0 ∨ zi = 0 ∨ k = h + 1 ∨ zi = d + 1) := by omega
        have hmin : min (w + 2 - 1) w = w := by omega
        rw [if_neg hrow, if_pos hk1, hmin, Nat.add_assoc]
      · have hrow : k = 0 ∨ zi = 0 ∨ k = h + 1 ∨ zi = d + 1 := by omega
        rw [if_pos hrow, if_neg hk1, Nat.add_assoc]
  · intro i hi
    rw [rframe i (by rw [hrc]; omega)]
    exact hframe i (by omega)
  · intro y x hy hx
    rcases Nat.lt_succ_iff_lt_or_eq.mp hy with hlt | heq
    · have hmul' : (y + 1) * (w + 2) ≤ k * (w + 2) := Nat.mul_le_mul_right _ hlt
      have hsucc' : (y + 1) * (w + 2) = y * (w + 2) + (w + 2) := Nat.succ_mul _ _
      rw [rframe _ (Or.inl (by rw [hrc]; omega))]
      exact hcells y x hlt hx
    · subst heq
      have hcell := rcells x hx
      rw [hrc] at hcell
      rw [hcell]
      by_cases hh : pad_is_halo w h d x y zi
      · rw [if_pos hh, if_pos hh]
      · rw [if_neg hh, if_neg hh, hac]
        have hz : ¬ (zi = 0 ∨ zi = d + 1) := by unfold pad_is_halo at hh; omega
        have hmin : min (y - 1) h = y - 1 := by unfold pad_is_halo at hh; omega
        rw [if_neg hz, hmin]

/-- One plane: `h + 2` rows are written from `readcount` on. -/
theorem pad_z_spec (sentinel : Scalar) (source : Nat → Scalar) (w h d zi : Nat)
    (st : PadState) (hfit : st.readcount + (h + 2) * (w + 2) ≤ st.SV.length) :
    PadPlaneInv sentinel source w h d zi st.readcount st.appendcount st.SV (h + 2)
      (pad_z sentinel source w h d st zi) := by
  unfold pad_z
  refine foldl_range_inv
    (PadPlaneInv sentinel source w h d zi st.readcount st.appendcount st.SV) _ st (h + 2)
    ⟨by simp, by simp, rfl, fun _ _ => rfl, fun y _ hy => absurd hy (Nat.not_lt_zero y)⟩ ?_
  intro k st' hk inv
  exact padPlaneInv_step hfit hk inv

theorem padVolInv_step {sentinel : Scalar} {source : Nat → Scalar} {w h d : Nat} {k : Nat}
    {st : PadState} (hk : k < d + 2) (inv : PadVolInv sentinel source w h d k st) :
    PadVolInv sentinel source w h d (k + 1) (pad_z sentinel source w h d st k) := by
  obtain ⟨hrc, hac, hlen, hcells⟩ := inv
  have hmul : (k + 1) * ((h + 2) * (w + 2)) ≤ (d + 2) * ((h + 2) * (w + 2)) :=
    Nat.mul_le_mul_right _ hk
  have hsucc : (k + 1) * ((h + 2) * (w + 2)) = k * ((h + 2) * (w + 2)) + (h + 2) * (w + 2) :=
    Nat.succ_mul _ _
  have htot : (w + 2) * (h + 2) * (d + 2) = (d + 2) * ((h + 2) * (w + 2)) := by ring
  obtain ⟨prc, pac, plen, pframe, pcells⟩ :=
    pad_z_spec sentinel source w h d k st (by rw [hrc, hlen]; omega)
  refine ⟨by rw [prc, hrc]; omega, ?_, plen.trans hlen, ?_⟩
  · rw [pac, hac, min_pred_succ_mul k d (h * w)]
    by_cases hk1 : 1 ≤ k ∧ k ≤ d
    · have hz : ¬ (k = 0 ∨ k = d + 1) := by omega
      have hmin : min (h + 2 - 1) h = h := by omega
      rw [if_neg hz, if_pos hk1, hmin]
    · have hz : k = 0 ∨ k = d + 1 := by omega
      rw [if_pos hz, if_neg hk1]
  · intro z y x hz hy hx
    have hyx : y * (w + 2) + x < (h + 2) * (w + 2) := by
      have h1 : (y + 1) * (w + 2) ≤ (h + 2) * (w + 2) := Nat.mul_le_mul_right _ hy
      have h2 : (y + 1) * (w + 2) = y * (w + 2) + (w + 2) := Nat.succ_mul _ _
      omega
    rcases Nat.lt_succ_iff_lt_or_eq.mp hz with hlt | heq
    · have hmul' : (z + 1) * ((h + 2) * (w + 2)) ≤ k * ((h + 2) * (w + 2)) :=
        Nat.mul_le_mul_right _ hlt
      have hsucc' : (z + 1) * ((h + 2) * (w + 2))
          = z * ((h + 2) * (w + 2)) + (h + 2) * (w + 2) := Nat.succ_mul _ _
      rw [pframe _ (Or.inl (by rw [hrc]; omega))]
      exact hcells z y x hlt hy hx
    · subst heq
      have hcell := pcells y x hy hx
      rw [hrc] at hcell
      rw [hcell]
      by_cases hh : pad_is_halo w h d x y z
      · rw [if_pos hh, if_pos hh]
      · rw [if_neg hh, if_neg hh, hac]
        have hmin : min (z - 1) d = z - 1 := by unfold pad_is_halo at hh; omega
        rw [hmin]

/-- The padding loops in closed form: the vector has `(w+2)*(h+2)*(d+2)` coefficients, all
`w*h*d` source values have been consumed, and the cell `(x, y, z)` holds the halo value or the
source value of index `(z-1)*(h*w) + (y-1)*w + (x-1)`. -/
theorem padded_grid_spec (sentinel : Scalar) (source : Nat → Scalar) (w h d : Nat) :
    PadVolInv sentinel source w h d (d + 2) (padded_grid sentinel source w h d) := by
  unfold padded_grid
  refine foldl_range_inv (PadVolInv sentinel source w h d) _ _ (d + 2)
    ⟨by simp, by simp, by simp, fun z _ _ hz => absurd hz (Nat.not_lt_zero z)⟩ ?_
  intro k st hk inv
  exact padVolInv_step hk inv

theorem padded_grid_cell (sentinel : Scalar) (source : Nat → Scalar) (w h d x y z : Nat)
    (hx : x < w + 2) (hy : y < h + 2) (hz : z < d + 2) :
    (padded_grid sentinel source w h d).SV[(z * (h + 2) + y) * (w + 2) + x]? =
      some (if pad_is_halo w h d x y z then sentinel
            else source ((z - 1) * w * h + (y - 1) * w + (x - 1))) := by
  have h1 : (z * (h + 2) + y) * (w + 2) + x = z * ((h + 2) * (w + 2)) + y * (w + 2) + x := by
    ring
  have h2 : (z - 1) * w * h + (y - 1) * w + (x - 1) = (z - 1) * (h * w) + (y - 1) * w + (x - 1) := by
    ring
  rw [h1, h2]
  exact (padded_grid_spec sentinel source w h d).cells z y x hz hy hx

theorem divmod_unique {n q r q' r' : Nat} (hr : r < n) (hr' : r' < n)
    (heq : q * n + r = q' * n + r') : q = q' ∧ r = r' := by
  have hn : 0 < n := Nat.lt_of_le_of_lt (Nat.zero_le r) hr
  have hq : (q * n + r) / n = q := by
    rw [Nat.add_comm, Nat.add_mul_div_right _ _ hn, Nat.div_eq_of_lt hr, Nat.zero_add]
  have hq' : (q' * n + r') / n = q' := by
    rw [Nat.add_comm, Nat.add_mul_div_right _ _ hn, Nat.div_eq_of_lt hr', Nat.zero_add]
  have hqq : q = q' := by rw [← hq, ← hq', heq]
  subst hqq
  exact ⟨rfl, Nat.add_left_cancel heq⟩

/-- Every source index below `w*h*d` is the index of exactly one interior cell. -/
theorem interior_cell_unique (w h d i : Nat) (hi : i < w * h * d) :
    ∃! c : Nat × Nat × Nat, (1 ≤ c.1 ∧ c.1 ≤ w) ∧ (1 ≤ c.2.1 ∧ c.2.1 ≤ h) ∧
      (1 ≤ c.2.2 ∧ c.2.2 ≤ d) ∧ (c.2.2 - 1) * w * h + (c.2.1 - 1) * w + (c.1 - 1) = i := by
  have hw : 0 < w := by
    rcases Nat.eq_zero_or_pos w with h0 | h0
    · subst h0; simp at hi
    · exact h0
  have hh : 0 < h := by
    rcases Nat.eq_zero_or_pos h with h0 | h0
    · subst h0; simp at hi
    · exact h0
  have hxw : i % w < w := Nat.mod_lt _ hw
  have hyh : (i / w) % h < h := Nat.mod_lt _ hh
  have hzd : i / w / h < d := by
    rw [Nat.div_lt_iff_lt_mul hh, Nat.div_lt_iff_lt_mul hw]
    calc i < w * h * d := hi
      _ = d * h * w := by ring
  have hsum : (i / w / h) * w * h + ((i / w) % h) * w + i % w = i := by
    have e1 := Nat.div_add_mod i w
    have e2 := Nat.div_add_mod (i / w) h
    calc (i / w / h) * w * h + ((i / w) % h) * w + i % w
        = w * (h * (i / w / h) + (i / w) % h) + i % w := by ring
      _ = i := by rw [e2, e1]
  refine ⟨(i % w + 1, (i / w) % h + 1, i / w / h + 1), ?_, ?_⟩
  · refine ⟨⟨by simp, by simpa using hxw⟩, ⟨by simp, by simpa using hyh⟩,
      ⟨by simp, by simpa using hzd⟩, ?_⟩
    simpa using hsum
  · rintro ⟨x, y, z⟩ ⟨⟨hx1, hx2⟩, ⟨hy1, hy2⟩, ⟨hz1, hz2⟩, hc⟩
    simp only at hx1 hx2 hy1 hy2 hz1 hz2 hc
    have heq : ((z - 1) * h + (y - 1)) * w + (x - 1)
        = ((i / w / h) * h + (i / w) % h) * w + i % w := by
      calc ((z - 1) * h + (y - 1)) * w + (x - 1)
          = (z - 1) * w * h + (y - 1) * w + (x - 1) := by ring
        _ = i := hc
        _ = (i / w / h) * w * h + ((i / w) % h) * w + i % w := hsum.symm
        _ = ((i / w / h) * h + (i / w) % h) * w + i % w := by ring
    obtain ⟨hq, hr⟩ := divmod_unique (by omega) hxw heq
    obtain ⟨hq2, hr2⟩ := divmod_unique (by omega) hyh hq
    have ex : x = i % w + 1 := by omega
    have ey : y = (i / w) % h + 1 := by omega
    have ez : z = i / w / h + 1 := by omega
    rw [ex, ey, ez]

/-- C7: for every source volume and all `w, h, d`, the grid built by the padding loop of
`extract_surface_mesh`, and the one built by the same loop in `mesh_datfile`, has
`(w+2)*(h+2)*(d+2)` samples stored `x` fastest, then `y`, then `z`; the sample at padded
coordinates `(xi, yi, zi)` with `1 ≤ xi ≤ w`, `1 ≤ yi ≤ h`, `1 ≤ zi ≤ d` is
`source[(zi-1)*w*h + (yi-1)*w + (xi-1)]`; the loop consumes `w*h*d` source values, and every
source index `i < w*h*d` is the index of exactly one such cell. -/
theorem padded_grid_layout (source : Nat → Scalar) (data : Nat → Int)
    (w h d xi yi zi i : Nat) (hx : 1 ≤ xi ∧ xi ≤ w) (hy : 1 ≤ yi ∧ yi ≤ h)
    (hz : 1 ≤ zi ∧ zi ≤ d) (hi : i < w * h * d) :
    ((extract_surface_mesh_SV source w h d).length = (w + 2) * (h + 2) * (d + 2) ∧
      (extract_surface_mesh_SV source w h d)[(zi * (h + 2) + yi) * (w + 2) + xi]? =
        some (source ((zi - 1) * w * h + (yi - 1) * w + (xi - 1))) ∧
      (padded_grid (-1) source w h d).appendcount = w * h * d) ∧
    ((mesh_datfile_SV data w h d).length = (w + 2) * (h + 2) * (d + 2) ∧
      (mesh_datfile_SV data w h d)[(zi * (h + 2) + yi) * (w + 2) + xi]? =
        some ((data ((zi - 1) * w * h + (yi - 1) * w + (xi - 1)) : Int) : Scalar) ∧
      (padded_grid 0 (fun i => ((data i : Int) : Scalar)) w h d).appendcount = w * h * d) ∧
    ∃! c : Nat × Nat × Nat, (1 ≤ c.1 ∧ c.1 ≤ w) ∧ (1 ≤ c.2.1 ∧ c.2.1 ≤ h) ∧
      (1 ≤ c.2.2 ∧ c.2.2 ≤ d) ∧ (c.2.2 - 1) * w * h + (c.2.1 - 1) * w + (c.1 - 1) = i := by
  have hnot : ¬ pad_is_halo w h d xi yi zi := by unfold pad_is_halo; omega
  have hcount : ∀ (sentinel : Scalar) (src : Nat → Scalar),
      (padded_grid sentinel src w h d).appendcount = w * h * d := by
    intro sentinel src
    have hmin : min (d + 2 - 1) d = d := by omega
    rw [(padded_grid_spec sentinel src w h d).acount, hmin]
    ring
  refine ⟨⟨(padded_grid_spec _ _ w h d).len, ?_, hcount _ _⟩,
    ⟨(padded_grid_spec _ _ w h d).len, ?_, hcount _ _⟩, interior_cell_unique w h d i hi⟩
  · have hcell := padded_grid_cell (-1) source w h d xi yi zi (by omega) (by omega) (by omega)
    rw [if_neg hnot] at hcell
    exact hcell
  · have hcell := padded_grid_cell 0 (fun i => ((data i : Int) : Scalar)) w h d xi yi zi
      (by omega) (by omega) (by omega)
    rw [if_neg hnot] at hcell
    exact hcell

theorem padded_grid_layout_witness :
    ((1 ≤ 2 ∧ 2 ≤ 2) ∧ (1 ≤ 1 ∧ 1 ≤ 1) ∧ (1 ≤ 1 ∧ 1 ≤ 1) ∧ 1 < 2 * 1 * 1) ∧
    (((extract_surface_mesh_SV sampleVolume 2 1 1).length = (2 + 2) * (1 + 2) * (1 + 2) ∧
      (extract_surface_mesh_SV sampleVolume 2 1 1)[(1 * (1 + 2) + 1) * (2 + 2) + 2]? =
        some (sampleVolume ((1 - 1) * 2 * 1 + (1 - 1) * 2 + (2 - 1))) ∧
      (padded_grid (-1) sampleVolume 2 1 1).appendcount = 2 * 1 * 1) ∧
    ((mesh_datfile_SV sampleBytes 2 1 1).length = (2 + 2) * (1 + 2) * (1 + 2) ∧
      (mesh_datfile_SV sampleBytes 2 1 1)[(1 * (1 + 2) + 1) * (2 + 2) + 2]? =
        some ((sampleBytes ((1 - 1) * 2 * 1 + (1 - 1) * 2 + (2 - 1)) : Int) : Scalar) ∧
      (padded_grid 0 (fun i => ((sampleBytes i : Int) : Scalar)) 2 1 1).appendcount
        = 2 * 1 * 1) ∧
    ∃! c : Nat × Nat × Nat, (1 ≤ c.1 ∧ c.1 ≤ 2) ∧ (1 ≤ c.2.1 ∧ c.2.1 ≤ 1) ∧
      (1 ≤ c.2.2 ∧ c.2.2 ≤ 1) ∧ (c.2.2 - 1) * 2 * 1 + (c.2.1 - 1) * 2 + (c.1 - 1) = 1) :=
  ⟨⟨⟨by decide, by decide⟩, ⟨by decide, by decide⟩, ⟨by decide, by decide⟩, by decide⟩,
    padded_grid_layout sampleVolume sampleBytes 2 1 1 2 1 1 1 ⟨by decide, by decide⟩
      ⟨by decide, by decide⟩ ⟨by decide, by decide⟩ (by decide)⟩

/-- C8: in the grid `extract_surface_mesh` passes to marching cubes, every halo cell (a padded
coordinate equal to `0` or `dim-1` along some axis) holds `-1`, which is below the threshold
`0`, whatever the source volume contains, and every other cell holds its source value. -/
theorem extract_surface_mesh_halo (source : Nat → Scalar) (w h d x y z : Nat)
    (hx : x < w + 2) (hy : y < h + 2) (hz : z < d + 2) :
    ((x = 0 ∨ x = w + 1 ∨ y = 0 ∨ y = h + 1 ∨ z = 0 ∨ z = d + 1) →
        (extract_surface_mesh_SV source w h d)[(z * (h + 2) + y) * (w + 2) + x]? = some (-1 : Scalar) ∧
          (-1 : Scalar) < 0) ∧
      (¬ (x = 0 ∨ x = w + 1 ∨ y = 0 ∨ y = h + 1 ∨ z = 0 ∨ z = d + 1) →
        (extract_surface_mesh_SV source w h d)[(z * (h + 2) + y) * (w + 2) + x]? =
          some (source ((z - 1) * w * h + (y - 1) * w + (x - 1)))) := by
  have hcell := padded_grid_cell (-1) source w h d x y z hx hy hz
  refine ⟨fun hh => ⟨?_, by norm_num⟩, fun hh => ?_⟩
  · have hp : pad_is_halo w h d x y z := by unfold pad_is_halo; omega
    rw [if_pos hp] at hcell
    exact hcell
  · have hp : ¬ pad_is_halo w h d x y z := by unfold pad_is_halo; omega
    rw [if_neg hp] at hcell
    exact hcell

theorem extract_surface_mesh_halo_witness :
    (0 < 2 + 2 ∧ 1 < 1 + 2 ∧ 1 < 1 + 2) ∧
    (((0 = 0 ∨ 0 = 2 + 1 ∨ 1 = 0 ∨ 1 = 1 + 1 ∨ 1 = 0 ∨ 1 = 1 + 1) →
        (extract_surface_mesh_SV sampleVolume 2 1 1)[(1 * (1 + 2) + 1) * (2 + 2) + 0]?
          = some (-1 : Scalar) ∧ (-1 : Scalar) < 0) ∧
      (¬ (0 = 0 ∨ 0 = 2 + 1 ∨ 1 = 0 ∨ 1 = 1 + 1 ∨ 1 = 0 ∨ 1 = 1 + 1) →
        (extract_surface_mesh_SV sampleVolume 2 1 1)[(1 * (1 + 2) + 1) * (2 + 2) + 0]? =
          some (sampleVolume ((1 - 1) * 2 * 1 + (1 - 1) * 2 + (0 - 1))))) :=
  ⟨⟨by decide, by decide, by decide⟩,
    extract_surface_mesh_halo sampleVolume 2 1 1 0 1 1 (by decide) (by decide) (by decide)⟩

/-! ## Rounding of the floating-point operations -/

/-- The rounding to an integer is within a half. -/
theorem round_even_sub_le (x : Scalar) : |(round_even x : Scalar) - x| ≤ 1 / 2 := by
  have h1 := Int.floor_le x
  have h2 := Int.lt_floor_add_one x
  unfold round_even
  split_ifs with ha hb hc
  · rw [abs_le]; constructor <;> linarith
  · rw [abs_le]; push_cast; constructor <;> linarith
  · rw [abs_le]; constructor <;> linarith
  · rw [abs_le]; push_cast; constructor <;> linarith

/-- The rounding of a non-negative number is not negative. -/
theorem round_even_nonneg (x : Scalar) (h : 0 ≤ x) : 0 ≤ round_even x := by
  have h0 : 0 ≤ ⌊x⌋ := Int.floor_nonneg.mpr h
  unfold round_even
  split_ifs <;> omega

/-- An integer is its own rounding. -/
theorem round_even_intCast (n : Int) : round_even (n : Scalar) = n := by
  unfold round_even
  simp

/-- Two integers less than one apart are equal. -/
theorem int_eq_of_sub_lt_one (a b : Int) (h1 : (a : Scalar) - b < 1) (h2 : -1 < (a : Scalar) - b) :
    a = b := by
  have h3 : ((a - b : Int) : Scalar) < 1 := by push_cast; exact h1
  have h4 : ((-1 : Int) : Scalar) < ((a - b : Int) : Scalar) := by push_cast; exact h2
  have h5 : a - b < 1 := by exact_mod_cast h3
  have h6 : -1 < a - b := by exact_mod_cast h4
  omega

/-- The integer within less than a half of `x` is the rounding of `x`. -/
theorem round_even_eq (x : Scalar) (n : Int) (h : |x - n| < 1 / 2) : round_even x = n := by
  rw [abs_lt] at h
  obtain ⟨h1, h2⟩ := h
  have hf1 := Int.floor_le x
  have hf2 := Int.lt_floor_add_one x
  unfold round_even
  split_ifs with ha hb hc
  · exact int_eq_of_sub_lt_one _ _ (by linarith) (by linarith)
  · exact int_eq_of_sub_lt_one _ _ (by push_cast; linarith) (by push_cast; linarith)
  · exfalso
    have hx : x - ⌊x⌋ = 1 / 2 := le_antisymm (not_lt.mp hb) (not_lt.mp ha)
    have h3 : ((n - ⌊x⌋ : Int) : Scalar) < 1 := by push_cast; linarith
    have h4 : ((0 : Int) : Scalar) < ((n - ⌊x⌋ : Int) : Scalar) := by push_cast; linarith
    have h5 : n - ⌊x⌋ < 1 := by exact_mod_cast h3
    have h6 : 0 < n - ⌊x⌋ := by exact_mod_cast h4
    omega
  · exfalso
    have hx : x - ⌊x⌋ = 1 / 2 := le_antisymm (not_lt.mp hb) (not_lt.mp ha)
    have h3 : ((n - ⌊x⌋ : Int) : Scalar) < 1 := by push_cast; linarith
    have h4 : ((0 : Int) : Scalar) < ((n - ⌊x⌋ : Int) : Scalar) := by push_cast; linarith
    have h5 : n - ⌊x⌋ < 1 := by exact_mod_cast h3
    have h6 : 0 < n - ⌊x⌋ := by exact_mod_cast h4
    omega

/-- The exponent found by `Int.log`: `k` when `2 ^ k ≤ r < 2 ^ (k + 1)`. -/
theorem int_log_eq (r : Scalar) (k : Int) (h1 : (2 : Scalar) ^ k ≤ r)
    (h2 : r < (2 : Scalar) ^ (k + 1)) : Int.log 2 r = k := by
  have hr : 0 < r := lt_of_lt_of_le (by positivity) h1
  have ha : k ≤ Int.log 2 r := (Int.zpow_le_iff_le_log (by norm_num) hr).mp (by exact_mod_cast h1)
  have hb : Int.log 2 r < k + 1 :=
    (Int.lt_zpow_iff_log_lt (by norm_num) hr).mp (by exact_mod_cast h2)
  omega

/-- Rounding at a known exponent: for `2 ^ k ≤ |x| < 2 ^ (k + 1)` the rounding of `x` is
`n * 2 ^ (k - (p - 1))` when `n` is within less than a half of `x / 2 ^ (k - (p - 1))`. -/
theorem round_float_eq (p : Nat) (x : Scalar) (k n : Int) (h1 : (2 : Scalar) ^ k ≤ |x|)
    (h2 : |x| < (2 : Scalar) ^ (k + 1))
    (hn : |x / 2 ^ (k - ((p : Int) - 1)) - n| < 1 / 2) :
    round_float p x = (n : Scalar) * 2 ^ (k - ((p : Int) - 1)) := by
  have hx : x ≠ 0 := by
    intro h
    rw [h, abs_zero] at h1
    exact absurd h1 (not_le.mpr (by positivity))
  unfold round_float
  rw [if_neg hx]
  simp only [int_log_eq |x| k h1 h2, round_even_eq _ n hn]

/-- The relative error of a rounding is at most `2 ^ (-p)`. -/
theorem round_float_sub_le (p : Nat) (x : Scalar) :
    |round_float p x - x| ≤ |x| / 2 ^ p := by
  unfold round_float
  split_ifs with hx
  · simp [hx]
  · have hpos : 0 < |x| := abs_pos.mpr hx
    have hlog : (2 : Scalar) ^ Int.log 2 |x| ≤ |x| := by
      have := Int.zpow_log_le_self (b := 2) (r := |x|) (by norm_num) hpos
      exact_mod_cast this
    set e : Int := Int.log 2 |x| - ((p : Int) - 1) with he
    have he0 : (0 : Scalar) < 2 ^ e := by positivity
    have hr := round_even_sub_le (x / 2 ^ e)
    have hsplit : (round_even (x / 2 ^ e) : Scalar) * 2 ^ e - x
        = ((round_even (x / 2 ^ e) : Scalar) - x / 2 ^ e) * 2 ^ e := by
      field_simp
    show |(round_even (x / 2 ^ e) : Scalar) * 2 ^ e - x| ≤ |x| / 2 ^ p
    rw [hsplit, abs_mul, abs_of_pos he0]
    have hpow : (2 : Scalar) ^ e * 2 ^ (p : Int) = 2 * 2 ^ Int.log 2 |x| := by
      rw [← zpow_add₀ (by norm_num : (2 : Scalar) ≠ 0), he]
      have : Int.log 2 |x| - ((p : Int) - 1) + (p : Int) = Int.log 2 |x| + 1 := by ring
      rw [this, zpow_add₀ (by norm_num : (2 : Scalar) ≠ 0), zpow_one]
      ring
    have hp0 : (0 : Scalar) < 2 ^ p := by positivity
    rw [le_div_iff₀ hp0]
    have hpz : ((2 : Scalar) ^ (p : Int)) = 2 ^ p := zpow_natCast 2 p
    rw [hpz] at hpow
    calc |(round_even (x / 2 ^ e) : Scalar) - x / 2 ^ e| * 2 ^ e * 2 ^ p
        ≤ 1 / 2 * 2 ^ e * 2 ^ p := by
          apply mul_le_mul_of_nonneg_right _ hp0.le
          exact mul_le_mul_of_nonneg_right hr he0.le
      _ = 2 ^ Int.log 2 |x| := by rw [mul_assoc, hpow]; ring
      _ ≤ |x| := hlog

/-- Rounding keeps the sign. -/
theorem round_float_nonneg (p : Nat) (x : Scalar) (h : 0 ≤ x) : 0 ≤ round_float p x := by
  unfold round_float
  split_ifs with hx
  · exact le_refl _
  · have h1 : 0 ≤ round_even (x / 2 ^ (Int.log 2 |x| - ((p : Int) - 1))) :=
      round_even_nonneg _ (div_nonneg h (by positivity))
    have h2 : (0 : Scalar) ≤ (round_even (x / 2 ^ (Int.log 2 |x| - ((p : Int) - 1))) : Scalar) := by
      exact_mod_cast h1
    exact mul_nonneg h2 (by positivity)

/-- Doubling commutes with rounding. -/
theorem round_float_two_mul (p : Nat) (x : Scalar) :
    round_float p (2 * x) = 2 * round_float p x := by
  unfold round_float
  by_cases hx : x = 0
  · simp [hx]
  · have h2x : 2 * x ≠ 0 := by simpa using hx
    rw [if_neg hx, if_neg h2x]
    have hpos : 0 < |x| := abs_pos.mpr hx
    have hlo : (2 : Scalar) ^ Int.log 2 |x| ≤ |x| := by
      have := Int.zpow_log_le_self (b := 2) (r := |x|) (by norm_num) hpos
      exact_mod_cast this
    have hhi : |x| < (2 : Scalar) ^ (Int.log 2 |x| + 1) := by
      have := Int.lt_zpow_succ_log_self (b := 2) (by norm_num) |x|
      exact_mod_cast this
    have habs : |2 * x| = 2 * |x| := by rw [abs_mul]; norm_num
    have hlog : Int.log 2 |2 * x| = Int.log 2 |x| + 1 := by
      apply int_log_eq
      · rw [habs, zpow_add₀ (by norm_num : (2 : Scalar) ≠ 0), zpow_one]; linarith
      · rw [habs, zpow_add₀ (by norm_num : (2 : Scalar) ≠ 0) (Int.log 2 |x| + 1), zpow_one]
        linarith
    simp only [hlog]
    have he : Int.log 2 |x| + 1 - ((p : Int) - 1) = (Int.log 2 |x| - ((p : Int) - 1)) + 1 := by
      ring
    rw [he, zpow_add₀ (by norm_num : (2 : Scalar) ≠ 0), zpow_one]
    have hq : 2 * x / (2 ^ (Int.log 2 |x| - ((p : Int) - 1)) * 2)
        = x / 2 ^ (Int.log 2 |x| - ((p : Int) - 1)) := by
      field_simp
      ring
    rw [hq]
    ring
theorem round_float_zero (p : Nat) : round_float p 0 = 0 := by
  simp [round_float]

/-- A number `m * 2 ^ i` with `|m| < 2 ^ p` is a floating-point number of `p` bits: the
rounding leaves it as it is. -/
theorem round_float_exact (p : Nat) (m i : Int) (hm : |m| < 2 ^ p) :
    round_float p ((m : Scalar) * 2 ^ i) = (m : Scalar) * 2 ^ i := by
  by_cases h0 : m = 0
  · simp [h0, round_float]
  · have hx : (m : Scalar) * 2 ^ i ≠ 0 := by
      have : (m : Scalar) ≠ 0 := by exact_mod_cast h0
      positivity
    have hpos : 0 < |(m : Scalar) * 2 ^ i| := abs_pos.mpr hx
    have habs : |(m : Scalar) * 2 ^ i| = |(m : Scalar)| * 2 ^ i := by
      rw [abs_mul, abs_of_pos (by positivity : (0 : Scalar) < 2 ^ i)]
    have hmq : |(m : Scalar)| < 2 ^ (p : Int) := by
      rw [zpow_natCast]
      exact_mod_cast hm
    have hlt : |(m : Scalar) * 2 ^ i| < (2 : Scalar) ^ ((p : Int) + i) := by
      rw [habs, zpow_add₀ (by norm_num : (2 : Scalar) ≠ 0)]
      exact mul_lt_mul_of_pos_right hmq (by positivity)
    have hlog : Int.log 2 |(m : Scalar) * 2 ^ i| < (p : Int) + i :=
      (Int.lt_zpow_iff_log_lt (by norm_num) hpos).mp (by exact_mod_cast hlt)
    unfold round_float
    rw [if_neg hx]
    simp only
    obtain ⟨j, hj⟩ : ∃ j : Nat, i - (Int.log 2 |(m : Scalar) * 2 ^ i| - ((p : Int) - 1)) = j :=
      Int.eq_ofNat_of_zero_le (by omega)
    have he : Int.log 2 |(m : Scalar) * 2 ^ i| - ((p : Int) - 1) = i - j := by omega
    rw [he]
    have hdiv : (m : Scalar) * 2 ^ i / 2 ^ (i - (j : Int)) = ((m * 2 ^ j : Int) : Scalar) := by
      rw [zpow_sub₀ (by norm_num : (2 : Scalar) ≠ 0), zpow_natCast]
      push_cast
      field_simp
      ring
    rw [hdiv, round_even_intCast]
    rw [zpow_sub₀ (by norm_num : (2 : Scalar) ≠ 0), zpow_natCast]
    push_cast
    field_simp
    ring

/-- An integer below `2 ^ p` in absolute value is a floating-point number of `p` bits. -/
theorem round_float_intCast (p : Nat) (m : Int) (hm : |m| < 2 ^ p) :
    round_float p (m : Scalar) = m := by
  have h := round_float_exact p m 0 hm
  simpa using h

theorem fl32_sub_le (x : Scalar) : |fl32 x - x| ≤ |x| / 2 ^ 24 := round_float_sub_le 24 x

theorem fl32_nonneg (x : Scalar) (h : 0 ≤ x) : 0 ≤ fl32 x := round_float_nonneg 24 x h

/-- Twice a `float` is a `float`. -/
theorem fl32_two_mul_of_float (dx : Scalar) (hfl : fl32 dx = dx) : fl32 (2 * dx) = 2 * dx := by
  unfold fl32 at hfl ⊢
  rw [round_float_two_mul, hfl]

theorem fl64_nonneg (x : Scalar) (h : 0 ≤ x) : 0 ≤ fl64 x := round_float_nonneg 53 x h

theorem fl64_zero : fl64 0 = 0 := round_float_zero 53

/-- A non-negative integer below `2^53` is a `double`. -/
theorem fl64_intCast (m : Int) (h0 : 0 ≤ m) (h1 : m < 2 ^ 53) : fl64 (m : Scalar) = m :=
  round_float_intCast 53 m (abs_lt.mpr ⟨by omega, h1⟩)

/-! ## C9: SDF grid sizing -/

/-- The cell size of line 222 is the `float` `13421773 / 2^24`, a little above `0.8`. -/
theorem dx_const_eq : dx_const = 13421773 / 16777216 := by
  have h64 : fl64 0.8 = 7205759403792794 / 9007199254740992 := by
    unfold fl64
    rw [round_float_eq 53 _ (-1) 7205759403792794 (le_abs.mpr (Or.inl (by norm_num)))
      (abs_lt.mpr ⟨by norm_num, by norm_num⟩) (abs_lt.mpr ⟨by norm_num, by norm_num⟩)]
    norm_num
  unfold dx_const
  rw [h64]
  unfold fl32
  rw [round_float_eq 24 _ (-1) 13421773 (le_abs.mpr (Or.inl (by norm_num)))
    (abs_lt.mpr ⟨by norm_num, by norm_num⟩) (abs_lt.mpr ⟨by norm_num, by norm_num⟩)]
  norm_num

/-- The cell size of line 222 is a `float`. -/
theorem fl32_dx_const : fl32 dx_const = dx_const := by
  rw [dx_const_eq]
  unfold fl32
  rw [round_float_eq 24 _ (-1) 13421773 (le_abs.mpr (Or.inl (by norm_num)))
    (abs_lt.mpr ⟨by norm_num, by norm_num⟩) (abs_lt.mpr ⟨by norm_num, by norm_num⟩)]
  norm_num

/-- C9, as stated, fails: for the cell size `0.8f` of the code, `xmin = 0` and
`xmax = 2.4f = 5033165 / 2^21`, the exact quotient `(xmax - xmin)/dx` is a little above `3`
and its ceiling is `4`, but the `float` quotient is `3`: the code has `n = 8`, not `9`, and
its last grid point `origin + 7*dx` is below `xmax + 2*dx` (by `2^-24`). -/
theorem sdf_grid_margin_rounding_counterexample :
    fl32 2.4 = 5033165 / 2097152 ∧
      ⌈((5033165 / 2097152 : Scalar) - 0) / dx_const⌉ + 5 = 9 ∧
      sdf_n 0 (5033165 / 2097152) dx_const = some 8 ∧
      sdf_point 0 dx_const (8 - 1) < 5033165 / 2097152 + 2 * dx_const := by
  have h2dx : fl32 (2 * dx_const) = 2 * dx_const := fl32_two_mul_of_float _ fl32_dx_const
  have hneg : fl32 (0 - 2 * dx_const) = -(2 * dx_const) := by
    rw [dx_const_eq]
    unfold fl32
    rw [round_float_eq 24 _ 0 (-13421773) (le_abs.mpr (Or.inr (by norm_num)))
      (abs_lt.mpr ⟨by norm_num, by norm_num⟩) (abs_lt.mpr ⟨by norm_num, by norm_num⟩)]
    norm_num
  have hxmax : fl32 ((5033165 / 2097152 : Scalar) - 0) = 5033165 / 2097152 := by
    unfold fl32
    rw [round_float_eq 24 _ 1 10066330 (le_abs.mpr (Or.inl (by norm_num)))
      (abs_lt.mpr ⟨by norm_num, by norm_num⟩) (abs_lt.mpr ⟨by norm_num, by norm_num⟩)]
    norm_num
  have hq : fl32 ((5033165 / 2097152 : Scalar) / dx_const) = 3 := by
    rw [dx_const_eq]
    unfold fl32
    rw [round_float_eq 24 _ 1 12582912 (le_abs.mpr (Or.inl (by norm_num)))
      (abs_lt.mpr ⟨by norm_num, by norm_num⟩) (abs_lt.mpr ⟨by norm_num, by norm_num⟩)]
    norm_num
  refine ⟨?_, ?_, ?_, ?_⟩
  · unfold fl32
    rw [round_float_eq 24 _ 1 10066330 (le_abs.mpr (Or.inl (by norm_num)))
      (abs_lt.mpr ⟨by norm_num, by norm_num⟩) (abs_lt.mpr ⟨by norm_num, by norm_num⟩)]
    norm_num
  · have : ⌈((5033165 / 2097152 : Scalar) - 0) / dx_const⌉ = 4 := by
      rw [Int.ceil_eq_iff, dx_const_eq]
      constructor <;> norm_num
    rw [this]
    rfl
  · unfold sdf_n
    simp only [hxmax, hq]
    have : ⌈(3 : Scalar)⌉ = 3 := by
      rw [Int.ceil_eq_iff]
      constructor <;> norm_num
    rw [this]
    decide
  · unfold sdf_point sdf_origin
    rw [h2dx, hneg, dx_const_eq]
    norm_num

/-- C9, amended: for every `float` cell size `dx > 0` and every bounding interval
`[xmin, xmax]` of an axis with `(xmax - xmin)/dx ≤ 2^30`, the code computes a number of grid
points `n ≥ 5`, and with its `origin` the grid points `origin + i*dx` leave two cells of
margin on both sides up to the rounding of the `float` operations:
`origin + 2*dx ≤ xmin + 2^-24 * |xmin - 2*dx|` and
`xmax + 2*dx ≤ origin + (n-1)*dx + 2^-24 * (|xmin - 2*dx| + 2*(xmax - xmin))`. -/
theorem sdf_grid_margin (xmin xmax dx : Scalar) (hdx : 0 < dx) (hfl : fl32 dx = dx)
    (hle : xmin ≤ xmax) (hfit : (xmax - xmin) / dx ≤ 2 ^ 30) :
    ∃ n : Int, sdf_n xmin xmax dx = some n ∧ 5 ≤ n ∧
      sdf_point xmin dx 2 ≤ xmin + |xmin - 2 * dx| / 2 ^ 24 ∧
      xmax + 2 * dx ≤
        sdf_point xmin dx (n - 1) + (|xmin - 2 * dx| + 2 * (xmax - xmin)) / 2 ^ 24 := by
  have ha : 0 ≤ xmax - xmin := by linarith
  have hd0 : 0 ≤ fl32 (xmax - xmin) := fl32_nonneg _ ha
  have hd := fl32_sub_le (xmax - xmin)
  rw [abs_of_nonneg ha, abs_le] at hd
  obtain ⟨hd1, hd2⟩ := hd
  have hr0 : 0 ≤ fl32 (xmax - xmin) / dx := div_nonneg hd0 hdx.le
  have hq0 : 0 ≤ fl32 (fl32 (xmax - xmin) / dx) := fl32_nonneg _ hr0
  have hq := fl32_sub_le (fl32 (xmax - xmin) / dx)
  rw [abs_of_nonneg hr0, abs_le] at hq
  obtain ⟨hq1, hq2⟩ := hq
  have ho := fl32_sub_le (xmin - 2 * dx)
  rw [abs_le] at ho
  obtain ⟨ho1, ho2⟩ := ho
  have horigin : sdf_origin xmin dx = fl32 (xmin - 2 * dx) := by
    unfold sdf_origin
    rw [fl32_two_mul_of_float dx hfl]
  have hc1 : fl32 (fl32 (xmax - xmin) / dx) ≤ (⌈fl32 (fl32 (xmax - xmin) / dx)⌉ : Scalar) :=
    Int.le_ceil _
  have hc2 : (⌈fl32 (fl32 (xmax - xmin) / dx)⌉ : Scalar) < fl32 (fl32 (xmax - xmin) / dx) + 1 :=
    Int.ceil_lt_add_one _
  have hc0 : 0 ≤ ⌈fl32 (fl32 (xmax - xmin) / dx)⌉ := Int.ceil_nonneg hq0
  -- the quotient of the rounded difference is at most `2^30 (1 + 2^-24)`
  have hrle : fl32 (xmax - xmin) / dx ≤ 2 ^ 30 + 2 ^ 6 := by
    have h1 : fl32 (xmax - xmin) / dx ≤ ((xmax - xmin) + (xmax - xmin) / 2 ^ 24) / dx :=
      div_le_div_of_nonneg_right (by linarith) hdx.le
    have h2 : ((xmax - xmin) + (xmax - xmin) / 2 ^ 24) / dx
        = (xmax - xmin) / dx + (xmax - xmin) / dx / 2 ^ 24 := by
      field_simp
      ring
    rw [h2] at h1
    have h3 : (xmax - xmin) / dx / 2 ^ 24 ≤ 2 ^ 30 / 2 ^ 24 :=
      div_le_div_of_nonneg_right hfit (by positivity)
    norm_num at h3 ⊢
    linarith
  have hcle : ⌈fl32 (fl32 (xmax - xmin) / dx)⌉ + 5 < 2 ^ 31 := by
    have h1 : fl32 (fl32 (xmax - xmin) / dx)
        ≤ fl32 (xmax - xmin) / dx + fl32 (xmax - xmin) / dx / 2 ^ 24 := by
      linarith
    have h2 : fl32 (xmax - xmin) / dx / 2 ^ 24 ≤ (2 ^ 30 + 2 ^ 6) / 2 ^ 24 :=
      div_le_div_of_nonneg_right hrle (by positivity)
    have h3 : (⌈fl32 (fl32 (xmax - xmin) / dx)⌉ : Scalar) + 5 < 2 ^ 31 := by
      norm_num at h2 ⊢
      linarith
    exact_mod_cast h3
  refine ⟨⌈fl32 (fl32 (xmax - xmin) / dx)⌉ + 5, ?_, by omega, ?_, ?_⟩
  · unfold sdf_n
    simp only
    rw [if_pos ⟨by omega, hcle⟩]
  · unfold sdf_point
    rw [horigin]
    push_cast
    linarith
  · unfold sdf_point
    rw [horigin]
    have h1 : fl32 (xmax - xmin) - fl32 (xmax - xmin) / 2 ^ 24
        ≤ (⌈fl32 (fl32 (xmax - xmin) / dx)⌉ : Scalar) * dx := by
      have h := mul_le_mul_of_nonneg_right hc1 hdx.le
      have h' : (fl32 (xmax - xmin) / dx - fl32 (xmax - xmin) / dx / 2 ^ 24) * dx
          ≤ fl32 (fl32 (xmax - xmin) / dx) * dx :=
        mul_le_mul_of_nonneg_right (by linarith) hdx.le
      have h'' : (fl32 (xmax - xmin) / dx - fl32 (xmax - xmin) / dx / 2 ^ 24) * dx
          = fl32 (xmax - xmin) - fl32 (xmax - xmin) / 2 ^ 24 := by
        field_simp
        ring
      linarith
    have h2 : (xmax - xmin) - 2 * (xmax - xmin) / 2 ^ 24
        ≤ fl32 (xmax - xmin) - fl32 (xmax - xmin) / 2 ^ 24 := by
      have h3 : fl32 (xmax - xmin) / 2 ^ 24
          ≤ ((xmax - xmin) + (xmax - xmin) / 2 ^ 24) / 2 ^ 24 :=
        div_le_div_of_nonneg_right (by linarith) (by positivity)
      have h4 : (xmax - xmin) / 2 ^ 24 / 2 ^ 24 ≤ (xmax - xmin) / 2 ^ 24 := by
        apply div_le_self (div_nonneg ha (by positivity))
        norm_num
      have h5 : ((xmax - xmin) + (xmax - xmin) / 2 ^ 24) / 2 ^ 24
          = (xmax - xmin) / 2 ^ 24 + (xmax - xmin) / 2 ^ 24 / 2 ^ 24 := by ring
      linarith
    push_cast
    linarith

theorem sdf_grid_margin_witness :
    ((0 : Scalar) < dx_const ∧ fl32 dx_const = dx_const ∧ (0 : Scalar) ≤ 3 ∧
        ((3 : Scalar) - 0) / dx_const ≤ 2 ^ 30) ∧
      ∃ n : Int, sdf_n 0 3 dx_const = some n ∧ 5 ≤ n ∧
        sdf_point 0 dx_const 2 ≤ 0 + |(0 : Scalar) - 2 * dx_const| / 2 ^ 24 ∧
        (3 : Scalar) + 2 * dx_const ≤
          sdf_point 0 dx_const (n - 1) + (|(0 : Scalar) - 2 * dx_const| + 2 * (3 - 0)) / 2 ^ 24 :=
  ⟨⟨by norm_num [dx_const_eq], fl32_dx_const, by norm_num, by norm_num [dx_const_eq]⟩,
    sdf_grid_margin 0 3 dx_const (by norm_num [dx_const_eq]) fl32_dx_const (by norm_num)
      (by norm_num [dx_const_eq])⟩

/-! ## C10: the faces enumerated for a tetrahedron -/

/-- C10 fails on the code: for the tetrahedron `(0, 1, 2, 3)` the keys pushed are
`{0,1,2}` twice, `{1,2,3}` and `{0,2,3}`; the face `{0,1,3}` (that is `{e1,e2,e4}`) is never
enumerated, because `t2` is built from `e1, e2, e3` like `t1`. -/
theorem tet_keys_missing_face :
    tet_keys 0 1 2 3 = [[0, 1, 2], [0, 1, 2], [1, 2, 3], [0, 2, 3]] ∧
      sort_key [0, 1, 3] ∉ tet_keys 0 1 2 3 ∧
      (tet_keys 0 1 2 3).count (sort_key [0, 1, 2]) = 2 := by
  decide

/-! ## The boundary scan of `load_yixin_tetmesh` -/

theorem rowsFrom_append (c : Int) (l₁ l₂ : List (List Int)) :
    rowsFrom c (l₁ ++ l₂) = rowsFrom c l₁ ++ rowsFrom (c + l₁.length) l₂ := by
  induction l₁ generalizing c with
  | nil => simp [rowsFrom]
  | cons k l ih =>
    have hc : c + ((k :: l).length : Int) = c + 1 + (l.length : Int) := by
      rw [List.length_cons]
      push_cast
      ring
    show (c, k) :: rowsFrom (c + 1) (l ++ l₂)
      = (c, k) :: rowsFrom (c + 1) l ++ rowsFrom (c + ((k :: l).length : Int)) l₂
    rw [ih, hc, List.cons_append]

theorem rowsFrom_map_snd (c : Int) (l : List (List Int)) :
    (rowsFrom c l).map Prod.snd = l := by
  induction l generalizing c with
  | nil => rfl
  | cons k l ih => simp [rowsFrom, ih]

theorem rowsFrom_length (c : Int) (l : List (List Int)) : (rowsFrom c l).length = l.length := by
  induction l generalizing c with
  | nil => rfl
  | cons k l ih => simp [rowsFrom, ih]

/-- The inner loop on the keys `pre ++ suf`, entered at the first key of `suf`: it stops
after the leading keys of `suf` equal to `v`. -/
theorem face_run_spec (v : List Int) :
    ∀ (fuel : Nat) (pre suf : List (List Int)) (count : Nat),
      (suf.takeWhile fun k => decide (k = v)).length < fuel →
      face_run (pre ++ suf) v fuel pre.length count =
        (pre.length + (suf.takeWhile fun k => decide (k = v)).length,
         count + (suf.takeWhile fun k => decide (k = v)).length)
  | 0, _, _, _, h => absurd h (Nat.not_lt_zero _)
  | fuel + 1, pre, [], count, _ => by
    simp [face_run]
  | fuel + 1, pre, x :: rest, count, h => by
    have hget : (pre ++ x :: rest)[pre.length]? = some x := by
      rw [List.getElem?_append_right (Nat.le_refl _)]
      simp
    rw [face_run, hget]
    by_cases hx : x = v
    · have htw : ((x :: rest).takeWhile fun k => decide (k = v))
          = x :: rest.takeWhile fun k => decide (k = v) := by
        simp [List.takeWhile_cons, hx]
      rw [htw, List.length_cons] at h ⊢
      have ih := face_run_spec v fuel (pre ++ [x]) rest (count + 1) (by omega)
      rw [List.append_assoc, List.singleton_append, List.length_append, List.length_singleton]
        at ih
      rw [if_pos (by rw [hx]), ih]
      congr 1 <;> omega
    · have htw : ((x :: rest).takeWhile fun k => decide (k = v)) = [] := by
        simp [List.takeWhile_cons, hx]
      rw [htw, if_neg (by simpa using hx)]
      simp

theorem not_mem_dropWhile_of_sorted (x : List Int) :
    ∀ l : List (List Int), l.Sorted (· ≤ ·) → (∀ a ∈ l, x ≤ a) →
      x ∉ l.dropWhile fun k => decide (k = x)
  | [], _, _ => by simp
  | a :: l, hs, hge => by
    by_cases ha : a = x
    · rw [List.dropWhile_cons_of_pos (by simpa using ha)]
      exact not_mem_dropWhile_of_sorted x l hs.of_cons fun b hb =>
        hge b (List.mem_cons_of_mem a hb)
    · rw [List.dropWhile_cons_of_neg (by simpa using ha)]
      have hxa : x < a := lt_of_le_of_ne (hge a (List.mem_cons_self a l)) (Ne.symm ha)
      intro hmem
      rcases List.mem_cons.mp hmem with h | h
      · exact ha h.symm
      · exact absurd (List.rel_of_sorted_cons hs x h) (not_le.mpr hxa)

theorem takeWhile_eq_replicate (x : List Int) (l : List (List Int)) :
    (l.takeWhile fun k => decide (k = x))
      = List.replicate (l.takeWhile fun k => decide (k = x)).length x := by
  refine List.eq_replicate_iff.mpr ⟨rfl, fun b hb => ?_⟩
  simpa using List.mem_takeWhile_imp hb

/-- Keys of multiplicity one in a run of `m` copies of `x` followed by keys other than `x`. -/
theorem filter_count_one_replicate_append (x : List Int) (m : Nat) (dw : List (List Int))
    (hx : x ∉ dw) :
    (List.replicate m x ++ dw).filter (fun k => decide ((List.replicate m x ++ dw).count k = 1))
      = (if m = 1 then [x] else []) ++ dw.filter fun k => decide (dw.count k = 1) := by
  have hcx : (List.replicate m x ++ dw).count x = m := by
    rw [List.count_append, List.count_replicate_self, List.count_eq_zero.mpr hx, Nat.add_zero]
  rw [List.filter_append]
  congr 1
  · by_cases hm : m = 1
    · subst hm
      simp [hcx] at hcx ⊢
      simpa using hcx
    · rw [if_neg hm]
      refine List.filter_eq_nil_iff.mpr fun b hb => ?_
      rw [List.eq_of_mem_replicate hb, hcx]
      simpa using hm
  · refine List.filter_congr fun k hk => ?_
    have hkx : k ≠ x := fun h => hx (h ▸ hk)
    have : (List.replicate m x).count k = 0 :=
      List.count_eq_zero.mpr fun h => hkx (List.eq_of_mem_replicate h)
    rw [List.count_append, this, Nat.zero_add]

/-- The scan on the sorted keys `pre ++ suf`, entered at the first key of `suf`: it ends at
the end of the keys and has written, to consecutive rows from `fcount` on, the keys of `suf`
of multiplicity one, in their order. -/
theorem face_scan_spec :
    ∀ (fuel : Nat) (pre suf : List (List Int)) (st : FaceScan), st.i = pre.length →
      suf.length ≤ fuel → suf.Sorted (· ≤ ·) →
      face_scan (pre ++ suf) fuel st =
        { i := (pre ++ suf).length,
          fcount := st.fcount + ((suf.filter fun k => decide (suf.count k = 1)).length : Int),
          TF_writes := st.TF_writes ++
            rowsFrom st.fcount (suf.filter fun k => decide (suf.count k = 1)) }
  | 0, pre, suf, st, hi, hfuel, _ => by
    have hnil : suf = [] := List.eq_nil_of_length_eq_zero (Nat.le_zero.mp hfuel)
    subst hnil
    cases st
    simp only [face_scan] at hi ⊢
    simp [hi, rowsFrom]
  | fuel + 1, pre, [], st, hi, _, _ => by
    cases st
    simp only [face_scan] at hi ⊢
    simp [hi, rowsFrom]
  | fuel + 1, pre, x :: rest, st, hi, hfuel, hs => by
    have hlt : st.i < (pre ++ x :: rest).length := by
      rw [hi, List.length_append, List.length_cons]; omega
    have hv : (pre ++ x :: rest).getD st.i [] = x := by
      rw [hi, List.getD_eq_getElem?_getD, List.getElem?_append_right (Nat.le_refl _)]
      simp
    have hmle : ((x :: rest).takeWhile fun k => decide (k = x)).length ≤ (x :: rest).length :=
      (List.takeWhile_sublist _).length_le
    have hm1 : 1 ≤ ((x :: rest).takeWhile fun k => decide (k = x)).length := by
      simp [List.takeWhile_cons]
    have hrun := face_run_spec x ((pre ++ x :: rest).length + 1 - st.i) pre (x :: rest) 0
      (by rw [hi, List.length_append]; omega)
    rw [← hi, Nat.zero_add] at hrun
    have hsplit := List.takeWhile_append_dropWhile (fun k => decide (k = x)) (x :: rest)
    have hrep := takeWhile_eq_replicate x (x :: rest)
    have hxdw : x ∉ (x :: rest).dropWhile fun k => decide (k = x) :=
      not_mem_dropWhile_of_sorted x (x :: rest) hs fun a ha => by
        rcases List.mem_cons.mp ha with h | h
        · exact h ▸ le_refl _
        · exact List.rel_of_sorted_cons hs a h
    have hdws : ((x :: rest).dropWhile fun k => decide (k = x)).Sorted (· ≤ ·) :=
      hs.sublist (List.dropWhile_sublist _)
    have hdwlen : ((x :: rest).dropWhile fun k => decide (k = x)).length ≤ fuel := by
      have := congrArg List.length hsplit
      rw [List.length_append] at this
      omega
    have hcat : pre ++ x :: rest
        = (pre ++ (x :: rest).takeWhile fun k => decide (k = x)) ++
            (x :: rest).dropWhile fun k => decide (k = x) := by
      rw [List.append_assoc, hsplit]
    have hfilter : (x :: rest).filter (fun k => decide ((x :: rest).count k = 1))
        = (if ((x :: rest).takeWhile fun k => decide (k = x)).length = 1 then [x] else []) ++
          ((x :: rest).dropWhile fun k => decide (k = x)).filter fun k =>
            decide (((x :: rest).dropWhile fun k => decide (k = x)).count k = 1) := by
      have h := filter_count_one_replicate_append x
        ((x :: rest).takeWhile fun k => decide (k = x)).length _ hxdw
      rw [← hrep, hsplit] at h
      exact h
    rw [face_scan, if_pos hlt]
    simp only [hv, hrun]
    by_cases hone : ((x :: rest).takeWhile fun k => decide (k = x)).length = 1
    · rw [if_pos hone]
      rw [hcat, face_scan_spec fuel _ _ _ (by simp [hi, List.length_append]) hdwlen hdws]
      rw [hfilter, if_pos hone]
      simp only [List.singleton_append, List.length_cons, rowsFrom, List.append_assoc,
        List.singleton_append, FaceScan.mk.injEq, true_and]
      refine ⟨?_, rfl⟩
      push_cast
      ring
    · rw [if_neg hone]
      rw [hcat, face_scan_spec fuel _ _ _ (by simp [hi, List.length_append]) hdwlen hdws]
      rw [hfilter, if_neg hone]
      simp

/-- The keys of multiplicity one of `tris`, in ascending order, are what the sort and scan
write, to consecutive rows from `fcount_init` on; `fcount` ends that many rows further. -/
theorem boundary_scan_spec (tris : List (List Int)) (c : Int) :
    boundary_scan tris c =
      { i := tris.length,
        fcount := c + (((tris.insertionSort (· ≤ ·)).filter
          fun k => decide (tris.count k = 1)).length : Int),
        TF_writes := rowsFrom c
          ((tris.insertionSort (· ≤ ·)).filter fun k => decide (tris.count k = 1)) } := by
  have hperm := List.perm_insertionSort (· ≤ ·) tris
  have hspec := face_scan_spec tris.length [] (tris.insertionSort (· ≤ ·))
    { i := 0, fcount := c, TF_writes := [] } rfl
    (by rw [List.length_insertionSort]) (List.sorted_insertionSort (· ≤ ·) tris)
  have hcount : ((tris.insertionSort (· ≤ ·)).filter
      fun k => decide ((tris.insertionSort (· ≤ ·)).count k = 1))
        = (tris.insertionSort (· ≤ ·)).filter fun k => decide (tris.count k = 1) :=
    List.filter_congr fun k _ => by simp only [List.count, hperm.countP_eq]
  rw [List.nil_append, hcount, List.length_insertionSort] at hspec
  rw [boundary_scan, hspec]
  simp

theorem foldl_strideLoop {σ : Type} (f : σ → Nat → σ) (init : σ) (n step : Nat) :
    (strideLoop n step).foldl f init
      = (List.range ((n + step - 1) / step)).foldl (fun st k => f st (k * step)) init := by
  rw [strideLoop, List.foldl_map]

theorem load_elements_inv (m_elements : List Int) (m : Nat) (hlen : m_elements.length = 4 * m) :
    ElementInv m_elements m m
      ((strideLoop m_elements.length 4).foldl (load_elements_step m_elements)
        { tcount := 0, TT := List.replicate (m_elements.length / 4) (0, 0, 0, 0), tris := [] }) := by
  have hcnt : (m_elements.length + 4 - 1) / 4 = m := by omega
  have hrows : m_elements.length / 4 = m := by omega
  rw [foldl_strideLoop, hcnt, hrows]
  refine foldl_range_inv (ElementInv m_elements m) _ _ m
    ⟨rfl, by simp, fun j hj => absurd hj (Nat.not_lt_zero j), by simp⟩ ?_
  intro k st hk inv
  obtain ⟨htc, hl, hr, hkeys⟩ := inv
  refine ⟨by simp [load_elements_step, htc], by simp [load_elements_step, hl], ?_, ?_⟩
  · intro j hj
    simp only [load_elements_step, htc]
    rcases Nat.lt_succ_iff_lt_or_eq.mp hj with hlt | heq
    · rw [List.getElem?_set_ne (by omega)]
      exact hr j hlt
    · subst heq
      rw [List.getElem?_set_self (by omega)]
      rfl
  · simp only [load_elements_step, hkeys, List.range_succ, List.flatMap_append,
      List.flatMap_singleton]
    rfl

theorem load_nodes_inv (m_nodes : List Scalar) (n : Nat) (hlen : m_nodes.length = 3 * n) :
    NodeInv m_nodes n n
      ((strideLoop m_nodes.length 3).foldl (load_nodes_step m_nodes)
        (0, List.replicate (m_nodes.length / 3) (0, 0, 0))) := by
  have hcnt : (m_nodes.length + 3 - 1) / 3 = n := by omega
  have hrows : m_nodes.length / 3 = n := by omega
  rw [foldl_strideLoop, hcnt, hrows]
  refine foldl_range_inv (NodeInv m_nodes n) _ _ n
    ⟨rfl, by simp, fun j hj => absurd hj (Nat.not_lt_zero j)⟩ ?_
  intro k st hk inv
  obtain ⟨hvc, hl, hr⟩ := inv
  refine ⟨by simp [load_nodes_step, hvc], by simp [load_nodes_step, hl], ?_⟩
  intro j hj
  simp only [load_nodes_step, hvc]
  rcases Nat.lt_succ_iff_lt_or_eq.mp hj with hlt | heq
  · rw [List.getElem?_set_ne (by omega)]
    exact hr j hlt
  · subst heq
    rw [List.getElem?_set_self (by omega)]

theorem load_yixin_tetmesh_ok (vol_loader : MshLoader) (c : Int)
    (hnpe : vol_loader.m_nodes_per_element = 4) (hds : vol_loader.m_data_size = 8) :
    load_yixin_tetmesh vol_loader c =
      Except.ok { TV := (load_nodes vol_loader).2, TT := (load_elements vol_loader).TT,
                  TF_rows := (boundary_scan (load_elements vol_loader).tris c).fcount,
                  TF_writes := (boundary_scan (load_elements vol_loader).tris c).TF_writes } := by
  simp [load_yixin_tetmesh, hnpe, hds]

theorem load_elements_spec (vol_loader : MshLoader) (m : Nat)
    (hnpe : vol_loader.m_nodes_per_element = 4) (hlen : vol_loader.m_elements.length = 4 * m) :
    ElementInv vol_loader.m_elements m m (load_elements vol_loader) := by
  unfold load_elements
  rw [hnpe]
  exact load_elements_inv vol_loader.m_elements m hlen

/-- The rows written by the call are the collected keys of multiplicity one. -/
theorem mem_TF_writes (tris : List (List Int)) (c : Int) (row : List Int) :
    row ∈ (boundary_scan tris c).TF_writes.map Prod.snd ↔ row ∈ tris ∧ tris.count row = 1 := by
  rw [boundary_scan_spec, rowsFrom_map_snd, List.mem_filter,
    (List.perm_insertionSort (· ≤ ·) tris).mem_iff]
  simp

/-! ## C11: the boundary of a subdivided cube -/

/-- C11 fails on the code: for the cube cut into six tetrahedra `(0, a, b, 7)`, with `fcount`
starting at `0`, the call writes six rows, the faces `{a, b, 7}`, instead of the twelve outer
triangles; the outer triangle `{0, 1, 3}` is the face of exactly one tetrahedron of `TT` and
is not written. -/
theorem cube_boundary_missing_faces :
    ∃ r, load_yixin_tetmesh cubeLoader 0 = Except.ok r ∧
      r.TF_writes.map Prod.snd
        = [[1, 3, 7], [1, 5, 7], [2, 3, 7], [2, 6, 7], [4, 5, 7], [4, 6, 7]] ∧
      r.TF_rows = 6 ∧
      (r.TT.filter fun t => decide ([0, 1, 3] ∈ tet_faces t)).length = 1 ∧
      [0, 1, 3] ∉ r.TF_writes.map Prod.snd := by
  refine ⟨_, load_yixin_tetmesh_ok cubeLoader 0 rfl rfl, ?_, ?_, ?_, ?_⟩ <;> decide

/-! ## C12: the winding of the rows written -/

/-- C12, as stated, fails: for the single tetrahedron `(3, 2, 1, 0)` the row `(0, 1, 2)` is
written, and it has the winding of none of the four faces of that tetrahedron taken in the
order of the tetrahedron (the face `{2, 1, 0}` appears there as `(2, 1, 0)`). -/
theorem winding_lost_counterexample :
    ∃ r, load_yixin_tetmesh reversedTetLoader 0 = Except.ok r ∧
      [0, 1, 2] ∈ r.TF_writes.map Prod.snd ∧
      r.TT = [(3, 2, 1, 0)] ∧
      ∀ t ∈ r.TT, ∀ f ∈ tet_faces_ordered t, ¬ same_winding f [0, 1, 2] := by
  refine ⟨_, load_yixin_tetmesh_ok reversedTetLoader 0 rfl rfl, ?_, ?_, ?_⟩ <;> decide

theorem mem_tet_keys_sorted {e1 e2 e3 e4 : Int} {row : List Int}
    (h : row ∈ tet_keys e1 e2 e3 e4) : row.Sorted (· ≤ ·) := by
  simp only [tet_keys, List.mem_cons, List.mem_singleton, List.not_mem_nil, or_false] at h
  rcases h with h | h | h | h <;> rw [h] <;> exact List.sorted_insertionSort (· ≤ ·) _

/-- C12, amended: for a mesh file of `4 * m` element indices that passes the two assertions,
every row written to `TF` is a canonical key: its three indices are in ascending order,
whatever order they have in the tetrahedron, and it is one of the keys enumerated for some
tetrahedron of `TT`. -/
theorem TF_rows_are_sorted_keys (vol_loader : MshLoader) (c : Int) (m : Nat) (row : List Int)
    (hnpe : vol_loader.m_nodes_per_element = 4) (hds : vol_loader.m_data_size = 8)
    (hlen : vol_loader.m_elements.length = 4 * m) :
    ∃ r, load_yixin_tetmesh vol_loader c = Except.ok r ∧
      (row ∈ r.TF_writes.map Prod.snd →
        row.Sorted (· ≤ ·) ∧ ∃ t ∈ r.TT, row ∈ tet_keys t.1 t.2.1 t.2.2.1 t.2.2.2) := by
  refine ⟨_, load_yixin_tetmesh_ok vol_loader c hnpe hds, fun hrow => ?_⟩
  obtain ⟨-, hl, hrows, hkeys⟩ := load_elements_spec vol_loader m hnpe hlen
  have hmem := ((mem_TF_writes _ c row).mp hrow).1
  rw [hkeys, List.mem_flatMap] at hmem
  obtain ⟨j, hj, hjrow⟩ := hmem
  rw [List.mem_range] at hj
  exact ⟨mem_tet_keys_sorted hjrow, element_tet vol_loader.m_elements j,
    List.getElem?_mem (hrows j hj), hjrow⟩

theorem TF_rows_are_sorted_keys_witness :
    (oneTetLoader.m_nodes_per_element = 4 ∧ oneTetLoader.m_data_size = 8 ∧
        oneTetLoader.m_elements.length = 4 * 1) ∧
      ∃ r, load_yixin_tetmesh oneTetLoader 0 = Except.ok r ∧
        ([0, 2, 3] ∈ r.TF_writes.map Prod.snd →
          ([0, 2, 3] : List Int).Sorted (· ≤ ·) ∧
            ∃ t ∈ r.TT, [0, 2, 3] ∈ tet_keys t.1 t.2.1 t.2.2.1 t.2.2.2) :=
  ⟨⟨rfl, rfl, rfl⟩, TF_rows_are_sorted_keys oneTetLoader 0 1 [0, 2, 3] rfl rfl rfl⟩

/-! ## C13: keys occurring more than twice -/

/-- C13, as stated, fails: in the mesh of three tetrahedra around the face `{1, 2, 3}` the key
`(1, 2, 3)` is collected three times, and the call returns normally, having written the three
keys of multiplicity one and no row for `(1, 2, 3)`. -/
theorem count_three_key_counterexample :
    (load_elements fanLoader).tris.count [1, 2, 3] = 3 ∧
      ∃ r, load_yixin_tetmesh fanLoader 0 = Except.ok r ∧
        r.TF_writes.map Prod.snd = [[0, 2, 3], [2, 3, 4], [2, 3, 5]] := by
  refine ⟨by decide, _, load_yixin_tetmesh_ok fanLoader 0 rfl rfl, by decide⟩

/-- C13, amended: for a mesh file that passes the two assertions the call returns normally,
whatever the multiplicities of the collected keys, and a key collected more than twice is,
like every key whose multiplicity is not one, given no row of `TF`. -/
theorem load_yixin_tetmesh_drops_repeated_keys (vol_loader : MshLoader) (c : Int)
    (key : List Int) (hnpe : vol_loader.m_nodes_per_element = 4)
    (hds : vol_loader.m_data_size = 8)
    (hcount : (load_elements vol_loader).tris.count key ≠ 1) :
    ∃ r, load_yixin_tetmesh vol_loader c = Except.ok r ∧ key ∉ r.TF_writes.map Prod.snd :=
  ⟨_, load_yixin_tetmesh_ok vol_loader c hnpe hds, fun h =>
    hcount ((mem_TF_writes _ c key).mp h).2⟩

theorem load_yixin_tetmesh_drops_repeated_keys_witness :
    (fanLoader.m_nodes_per_element = 4 ∧ fanLoader.m_data_size = 8 ∧
        (load_elements fanLoader).tris.count [1, 2, 3] ≠ 1) ∧
      ∃ r, load_yixin_tetmesh fanLoader 0 = Except.ok r ∧
        [1, 2, 3] ∉ r.TF_writes.map Prod.snd :=
  ⟨⟨rfl, rfl, by decide⟩,
    load_yixin_tetmesh_drops_repeated_keys fanLoader 0 [1, 2, 3] rfl rfl (by decide)⟩

/-! ## C18: the vertices and tetrahedra read from the file -/

/-- C18, as stated, fails: for the node block `1, 2, 3` vertex `0` is `(1, 3, 2)`, not the
coordinate triple `(nodes[0], nodes[1], nodes[2]) = (1, 2, 3)`. -/
theorem vertex_coordinates_counterexample :
    ∃ r, load_yixin_tetmesh oneTetLoader 0 = Except.ok r ∧
      r.TV[0]? = some (1, 3, 2) ∧
      r.TV[0]? ≠ some (oneTetLoader.m_nodes.getD 0 0, oneTetLoader.m_nodes.getD 1 0,
        oneTetLoader.m_nodes.getD 2 0) := by
  refine ⟨_, load_yixin_tetmesh_ok oneTetLoader 0 rfl rfl, ?_, ?_⟩ <;> decide

/-- C18, amended: for a node block of `3n` coordinates and an element block of `4m` indices
(in a file that passes the two assertions), `load_yixin_tetmesh` returns `n` vertices and `m`
tetrahedra; vertex `k` is `(nodes[3k], nodes[3k+2], nodes[3k+1])`, the second and third
coordinate of the triple exchanged, and tetrahedron `j` is
`(elements[4j], elements[4j+1], elements[4j+2], elements[4j+3])`. -/
theorem load_yixin_tetmesh_rows (vol_loader : MshLoader) (c : Int) (n m k j : Nat)
    (hnpe : vol_loader.m_nodes_per_element = 4) (hds : vol_loader.m_data_size = 8)
    (hn : vol_loader.m_nodes.length = 3 * n) (hm : vol_loader.m_elements.length = 4 * m)
    (hk : k < n) (hj : j < m) :
    ∃ r, load_yixin_tetmesh vol_loader c = Except.ok r ∧
      r.TV.length = n ∧ r.TT.length = m ∧
      r.TV[k]? = some (vol_loader.m_nodes.getD (3 * k) 0, vol_loader.m_nodes.getD (3 * k + 2) 0,
        vol_loader.m_nodes.getD (3 * k + 1) 0) ∧
      r.TT[j]? = some (vol_loader.m_elements.getD (4 * j) 0,
        vol_loader.m_elements.getD (4 * j + 1) 0, vol_loader.m_elements.getD (4 * j + 2) 0,
        vol_loader.m_elements.getD (4 * j + 3) 0) := by
  obtain ⟨-, hnl, hnrows⟩ := load_nodes_inv vol_loader.m_nodes n hn
  obtain ⟨-, hel,herows, -⟩ := load_elements_spec vol_loader m hnpe hm
  refine ⟨_, load_yixin_tetmesh_ok vol_loader c hnpe hds, hnl, hel, ?_, ?_⟩
  · have h := hnrows k hk
    rw [Nat.mul_comm k 3] at h
    exact h
  · have h := herows j hj
    rw [element_tet, Nat.mul_comm j 4] at h
    exact h

theorem load_yixin_tetmesh_rows_witness :
    (oneTetLoader.m_nodes_per_element = 4 ∧ oneTetLoader.m_data_size = 8 ∧
        oneTetLoader.m_nodes.length = 3 * 1 ∧ oneTetLoader.m_elements.length = 4 * 1 ∧
        0 < 1 ∧ 0 < 1) ∧
      ∃ r, load_yixin_tetmesh oneTetLoader 0 = Except.ok r ∧
        r.TV.length = 1 ∧ r.TT.length = 1 ∧
        r.TV[0]? = some (oneTetLoader.m_nodes.getD (3 * 0) 0,
          oneTetLoader.m_nodes.getD (3 * 0 + 2) 0, oneTetLoader.m_nodes.getD (3 * 0 + 1) 0) ∧
        r.TT[0]? = some (oneTetLoader.m_elements.getD (4 * 0) 0,
          oneTetLoader.m_elements.getD (4 * 0 + 1) 0, oneTetLoader.m_elements.getD (4 * 0 + 2) 0,
          oneTetLoader.m_elements.getD (4 * 0 + 3) 0) :=
  ⟨⟨rfl, rfl, rfl, rfl, by decide, by decide⟩,
    load_yixin_tetmesh_rows oneTetLoader 0 1 1 0 0 rfl rfl rfl rfl (by decide) (by decide)⟩

/-! ## C19: the rows of `TF` -/

/-- C19 fails on the code: `fcount` is read without having been initialised. For the single
tetrahedron `(0, 1, 2, 3)`, whose collected keys hold two keys of multiplicity one, a run in
which `fcount` first holds `7` writes these two keys to rows `7` and `8` and leaves `TF`
with `9` rows. -/
theorem uninitialised_fcount_rows :
    ((load_elements oneTetLoader).tris.insertionSort (· ≤ ·)).filter
        (fun k => decide ((load_elements oneTetLoader).tris.count k = 1))
      = [[0, 2, 3], [1, 2, 3]] ∧
    ∃ r, load_yixin_tetmesh oneTetLoader 7 = Except.ok r ∧
      r.TF_writes = [(7, [0, 2, 3]), (8, [1, 2, 3])] ∧ r.TF_rows = 9 := by
  refine ⟨by decide, _, load_yixin_tetmesh_ok oneTetLoader 7 rfl rfl, ?_, ?_⟩ <;> decide

/-! ## C14: the reordering of the mesher's tetrahedra -/

theorem extracted_TT_spec (tets : List Tet) :
    (extracted_TT tets).length = tets.length ∧
      ∀ i, i < tets.length → (extracted_TT tets)[i]? =
        some ((tets.getD i (0, 0, 0, 0)).1, (tets.getD i (0, 0, 0, 0)).2.2.1,
          (tets.getD i (0, 0, 0, 0)).2.1, (tets.getD i (0, 0, 0, 0)).2.2.2) := by
  have h := foldl_range_inv
    (fun k (TT : List Tet) => TT.length = tets.length ∧
      ∀ i, i < k → TT[i]? =
        some ((tets.getD i (0, 0, 0, 0)).1, (tets.getD i (0, 0, 0, 0)).2.2.1,
          (tets.getD i (0, 0, 0, 0)).2.1, (tets.getD i (0, 0, 0, 0)).2.2.2))
    (extracted_TT_step tets) (List.replicate tets.length (0, 0, 0, 0)) tets.length
    ⟨by simp, fun i hi => absurd hi (Nat.not_lt_zero i)⟩
    (by
      rintro k TT hk ⟨hlen, hrows⟩
      refine ⟨by simp [extracted_TT_step, hlen], fun i hi => ?_⟩
      simp only [extracted_TT_step]
      rcases Nat.lt_succ_iff_lt_or_eq.mp hi with hlt | heq
      · rw [List.getElem?_set_ne (by omega)]
        exact hrows i hlt
      · subst heq
        rw [List.getElem?_set_self (by omega)])
  exact h

theorem extracted_TV_eq (verts : List (Scalar × Scalar × Scalar)) :
    extracted_TV verts = verts := by
  have h := foldl_range_inv
    (fun k (TV : List (Scalar × Scalar × Scalar)) => TV.length = verts.length ∧
      ∀ i, i < k → TV[i]? = verts[i]?)
    (extracted_TV_step verts) (List.replicate verts.length (0, 0, 0)) verts.length
    ⟨by simp, fun i hi => absurd hi (Nat.not_lt_zero i)⟩
    (by
      rintro k TV hk ⟨hlen, hrows⟩
      refine ⟨by simp [extracted_TV_step, hlen], fun i hi => ?_⟩
      simp only [extracted_TV_step]
      rcases Nat.lt_succ_iff_lt_or_eq.mp hi with hlt | heq
      · rw [List.getElem?_set_ne (by omega)]
        exact hrows i hlt
      · subst heq
        rw [List.getElem?_set_self (by omega), List.getD_eq_getElem?_getD,
          List.getElem?_eq_getElem hk]
        rfl)
  refine List.ext_getElem? fun i => ?_
  rcases Nat.lt_or_ge i verts.length with hlt | hge
  · exact h.2 i hlt
  · rw [List.getElem?_eq_none (by rw [extracted_TV, h.1]; exact hge),
      List.getElem?_eq_none hge]

theorem signed_volume_swap (TV : List (Scalar × Scalar × Scalar)) (a b c d : Int) :
    signed_volume TV (a, c, b, d) = - signed_volume TV (a, b, c, d) := by
  simp only [signed_volume, det3, vsub]
  ring

/-- C14: every mesher tetrahedron `(t0, t1, t2, t3)` is stored as `(t0, t2, t1, t3)`: the
number of tetrahedra is unchanged, row `i` has the vertices of tetrahedron `i`, its signed
volume (on the vertices stored in `TV`) is the negation of the mesher's (on the mesher's
vertices), and two output tetrahedra agree in orientation exactly as the two input tetrahedra
do: the product of their signed volumes is the same. -/
theorem extracted_TT_reorders (tets : List Tet) (verts : List (Scalar × Scalar × Scalar))
    (i j : Nat) (hi : i < tets.length) (hj : j < tets.length) :
    (extracted_TT tets).length = tets.length ∧
      (extracted_TT tets)[i]? =
        some ((tets.getD i (0, 0, 0, 0)).1, (tets.getD i (0, 0, 0, 0)).2.2.1,
          (tets.getD i (0, 0, 0, 0)).2.1, (tets.getD i (0, 0, 0, 0)).2.2.2) ∧
      (tet_vertices ((extracted_TT tets).getD i (0, 0, 0, 0))).Perm
        (tet_vertices (tets.getD i (0, 0, 0, 0))) ∧
      signed_volume (extracted_TV verts) ((extracted_TT tets).getD i (0, 0, 0, 0))
        = - signed_volume verts (tets.getD i (0, 0, 0, 0)) ∧
      signed_volume (extracted_TV verts) ((extracted_TT tets).getD i (0, 0, 0, 0)) *
          signed_volume (extracted_TV verts) ((extracted_TT tets).getD j (0, 0, 0, 0))
        = signed_volume verts (tets.getD i (0, 0, 0, 0)) *
          signed_volume verts (tets.getD j (0, 0, 0, 0)) := by
  obtain ⟨hlen, hrows⟩ := extracted_TT_spec tets
  have hget : ∀ k, k < tets.length → (extracted_TT tets).getD k (0, 0, 0, 0) =
      ((tets.getD k (0, 0, 0, 0)).1, (tets.getD k (0, 0, 0, 0)).2.2.1,
        (tets.getD k (0, 0, 0, 0)).2.1, (tets.getD k (0, 0, 0, 0)).2.2.2) := by
    intro k hk
    rw [List.getD_eq_getElem?_getD, hrows k hk, Option.getD_some]
  have hvol : ∀ k, k < tets.length →
      signed_volume (extracted_TV verts) ((extracted_TT tets).getD k (0, 0, 0, 0))
        = - signed_volume verts (tets.getD k (0, 0, 0, 0)) := by
    intro k hk
    rw [hget k hk, extracted_TV_eq]
    exact signed_volume_swap verts _ _ _ _
  refine ⟨hlen, hrows i hi, ?_, hvol i hi, ?_⟩
  · rw [hget i hi]
    exact List.Perm.cons _ (List.Perm.swap _ _ _)
  · rw [hvol i hi, hvol j hj]
    ring

theorem extracted_TT_reorders_witness :
    (0 < cornerTets.length ∧ 0 < cornerTets.length) ∧
    ((extracted_TT cornerTets).length = cornerTets.length ∧
      (extracted_TT cornerTets)[0]? =
        some ((cornerTets.getD 0 (0, 0, 0, 0)).1, (cornerTets.getD 0 (0, 0, 0, 0)).2.2.1,
          (cornerTets.getD 0 (0, 0, 0, 0)).2.1, (cornerTets.getD 0 (0, 0, 0, 0)).2.2.2) ∧
      (tet_vertices ((extracted_TT cornerTets).getD 0 (0, 0, 0, 0))).Perm
        (tet_vertices (cornerTets.getD 0 (0, 0, 0, 0))) ∧
      signed_volume (extracted_TV cornerVerts) ((extracted_TT cornerTets).getD 0 (0, 0, 0, 0))
        = - signed_volume cornerVerts (cornerTets.getD 0 (0, 0, 0, 0)) ∧
      signed_volume (extracted_TV cornerVerts) ((extracted_TT cornerTets).getD 0 (0, 0, 0, 0)) *
          signed_volume (extracted_TV cornerVerts)
            ((extracted_TT cornerTets).getD 0 (0, 0, 0, 0))
        = signed_volume cornerVerts (cornerTets.getD 0 (0, 0, 0, 0)) *
          signed_volume cornerVerts (cornerTets.getD 0 (0, 0, 0, 0))) :=
  ⟨⟨by decide, by decide⟩,
    extracted_TT_reorders cornerTets cornerVerts 0 0 (by decide) (by decide)⟩

/-! ## C17: a truncated raw file -/

/-- C17 fails on the code: for the header `1 1 1` and an empty raw file the grid is not built,
and the value returned is `EXIT_FAILURE` converted to `bool`, which is `true`. -/
theorem mesh_datfile_truncated_returns_true :
    (mesh_datfile [] 1 1 1).SV = none ∧ (mesh_datfile [] 1 1 1).returned = some true := by
  decide

/-! ## C20: the lines of the wireframe -/

/-- C20 fails on the code: for `TT = [(0, 1, 2, 3)]` the six pairs pushed are `(0,1)`,
`(0,2)`, `(0,2)`, `(1,2)`, `(1,2)`, `(2,2)`: the last joins vertex `2` to itself, and no
line reaches vertex `3`, because `tf4` is read from column `2` like `tf3`. -/
theorem wireframe_edges_degenerate :
    wireframe_edges [(0, 1, 2, 3)] = [(0, 1), (0, 2), (0, 2), (1, 2), (1, 2), (2, 2)] ∧
      (2, 2) ∈ wireframe_edges [(0, 1, 2, 3)] ∧
      ∀ e ∈ wireframe_edges [(0, 1, 2, 3)], e.1 ≠ 3 ∧ e.2 ≠ 3 := by
  decide

/-! ## C15, C16: the meshing run -/

theorem runInv_start (surface_empty is_meshing_init : Bool) :
    RunInv surface_empty (run_start is_meshing_init) := by
  constructor <;> simp [run_start, WorkerPc.stage]

theorem runInv_worker_step {surface_empty : Bool} {s : MeshingRun}
    (inv : RunInv surface_empty s) (hab : s.aborted = false) :
    RunInv surface_empty (worker_step surface_empty s) := by
  obtain ⟨h1, h2, h3, h4, h5, h6, h7, h8, h9, h10, h11, h12⟩ := inv
  rcases s with ⟨w, d, im, dm, app, cerr, ab, dc, ts, tc, ds⟩
  simp only at h1 h2 h3 h4 h5 h6 h7 h8 h9 h10 h11 h12 hab
  subst hab
  cases w <;> simp only [WorkerPc.stage] at h1 h2 h3 h4 h5 h6 h7 h8 h9 h11 h12 <;>
    simp only [worker_step]
  case line122 =>
    cases surface_empty <;> constructor <;> simp [WorkerPc.stage] <;> simp_all
  all_goals constructor <;> simp [WorkerPc.stage] <;> simp_all

theorem runInv_draw_step {surface_empty : Bool} {s : MeshingRun}
    (inv : RunInv surface_empty s) :
    RunInv surface_empty (draw_step s) := by
  obtain ⟨h1, h2, h3, h4, h5, h6, h7, h8, h9, h10, h11, h12⟩ := inv
  rcases s with ⟨w, d, im, dm, app, cerr, ab, dc, ts, tc, ds⟩
  simp only at h1 h2 h3 h4 h5 h6 h7 h8 h9 h10 h11 h12
  cases d <;> simp only [draw_step]
  case line178 =>
    cases dm
    · exact ⟨h1, h2, h3, h4, h5, h6, h7, h8, h9, h10, h11, h12⟩
    · exact ⟨h1, h2, h3, h4, h5, h6, fun _ => h5 rfl, fun _ => rfl, h9, h10, h11, h12⟩
  case line179 =>
    exact ⟨h1, h2, h3, h4, h5, h6, fun _ => h7 (by simp), fun h => by simp at h,
      fun _ => h7 (by simp), h10, h11, h12⟩
  case line180 =>
    exact ⟨h1, h2, h3, h4, fun h => by simp at h, h6, fun h => by simp at h,
      fun h => by simp at h, h9, h10, h11, h12⟩

theorem runInv_step {surface_empty : Bool} {s : MeshingRun} (inv : RunInv surface_empty s)
    (t : Thread) : RunInv surface_empty (run_step surface_empty s t) := by
  unfold run_step
  cases hab : s.aborted
  · cases t
    · exact runInv_worker_step inv hab
    · exact runInv_draw_step inv
  · exact inv

theorem runInv_run (surface_empty is_meshing_init : Bool) (schedule : List Thread) :
    RunInv surface_empty (run surface_empty is_meshing_init schedule) := by
  unfold run
  induction schedule using List.reverseRecOn with
  | nil => exact runInv_start surface_empty is_meshing_init
  | append_singleton l t ih =>
    rw [List.foldl_append]
    exact runInv_step ih t

/-- C15: in every interleaving of the background thread of a meshing run with `post_draw`,
tetrahedralization has started only if dilation has completed, `_done_meshing` has been set
only if tetrahedralization has completed, `post_draw` is about to move (line 179), or has
moved, `application_state` to `EndPointSelection` only if `_done_meshing` is, or has been,
set, and `_is_meshing` and `_done_meshing` are not both true. -/
theorem meshing_run_order (surface_empty is_meshing_init : Bool) (schedule : List Thread) :
    ((run surface_empty is_meshing_init schedule).tetrahedralization_started = true →
        (run surface_empty is_meshing_init schedule).dilation_completed = true) ∧
      ((run surface_empty is_meshing_init schedule).done_signalled = true →
        (run surface_empty is_meshing_init schedule).tetrahedralization_completed = true) ∧
      ((run surface_empty is_meshing_init schedule).done_meshing = true →
        (run surface_empty is_meshing_init schedule).done_signalled = true) ∧
      ((run surface_empty is_meshing_init schedule).draw = DrawPc.line179 →
        (run surface_empty is_meshing_init schedule).done_meshing = true) ∧
      ((run surface_empty is_meshing_init schedule).application_state
          = Application_State.EndPointSelection →
        (run surface_empty is_meshing_init schedule).done_signalled = true) ∧
      ¬ ((run surface_empty is_meshing_init schedule).is_meshing = true ∧
        (run surface_empty is_meshing_init schedule).done_meshing = true) := by
  obtain ⟨h1, h2, h3, h4, h5, h6, -, h8, h9, -, -, -⟩ :=
    runInv_run surface_empty is_meshing_init schedule
  refine ⟨fun h => h1.mpr ?_, fun h => h3.mpr ?_, fun h => h4.mpr (h5 h), h8,
    fun h => h4.mpr (h9 h), fun h => ?_⟩
  · have := h2.mp h
    omega
  · have := h4.mp h
    omega
  · have := h5 h.2
    have := h6 h.1
    omega

theorem meshing_run_order_witness :
    (run false false fullSchedule).application_state = Application_State.EndPointSelection ∧
    (run false false fullSchedule).tetrahedralization_started = true ∧
    (((run false false fullSchedule).tetrahedralization_started = true →
        (run false false fullSchedule).dilation_completed = true) ∧
      ((run false false fullSchedule).done_signalled = true →
        (run false false fullSchedule).tetrahedralization_completed = true) ∧
      ((run false false fullSchedule).done_meshing = true →
        (run false false fullSchedule).done_signalled = true) ∧
      ((run false false fullSchedule).draw = DrawPc.line179 →
        (run false false fullSchedule).done_meshing = true) ∧
      ((run false false fullSchedule).application_state
          = Application_State.EndPointSelection →
        (run false false fullSchedule).done_signalled = true) ∧
      ¬ ((run false false fullSchedule).is_meshing = true ∧
        (run false false fullSchedule).done_meshing = true)) :=
  ⟨by decide, by decide, meshing_run_order false false fullSchedule⟩

/-- C16, as stated, fails: when the dilated surface is empty, six steps of the background
thread end in `abort()`, which terminates the process, after `Empty mesh!` has been written to
the error stream. -/
theorem empty_surface_aborts_counterexample :
    (run true false (List.replicate 6 Thread.worker)).aborted = true ∧
      (run true false (List.replicate 6 Thread.worker)).cerr = ["Empty mesh!"] := by
  decide

theorem emptyRunInv_worker_step {k : Nat} {s : MeshingRun} (inv : EmptyRunInv k s) :
    EmptyRunInv (k + 1) (run_step true s Thread.worker) := by
  obtain ⟨h1, h2, h3⟩ := inv
  rcases s with ⟨w, d, im, dm, app, cerr, ab, dc, ts, tc, ds⟩
  simp only at h1 h2 h3
  cases ab
  · have hk : k < 6 := by
      by_contra hc
      exact absurd (h2.mpr (by omega)) (by simp)
    simp only [run_step, Bool.false_eq_true, if_false]
    cases w <;> simp only [WorkerPc.stage] at h1 <;> simp only [worker_step, if_true] <;>
      constructor <;> simp only [WorkerPc.stage] <;> first
        | omega
        | (rw [h3]; split <;> split <;> first | rfl | omega)
        | (have hk' : k = 4 := by omega
           subst hk'
           simp [h3])
        | (have hk' : k = 5 := by omega
           subst hk'
           simp [h3])
        | (simp; omega)
  · have hk : 6 ≤ k := h2.mp rfl
    simp only [run_step, if_true]
    exact ⟨by rw [h1]; omega, by simp; omega, by rw [h3, if_pos (by omega), if_pos (by omega)]⟩

theorem emptyRunInv_ui_step {k : Nat} {s : MeshingRun} (inv : EmptyRunInv k s) :
    EmptyRunInv k (run_step true s Thread.ui) := by
  obtain ⟨h1, h2, h3⟩ := inv
  rcases s with ⟨w, d, im, dm, app, cerr, ab, dc, ts, tc, ds⟩
  simp only at h1 h2 h3
  cases ab
  · simp only [run_step, Bool.false_eq_true, if_false]
    cases d <;> simp only [draw_step]
    · split <;> exact ⟨h1, h2, h3⟩
    · exact ⟨h1, h2, h3⟩
    · exact ⟨h1, h2, h3⟩
  · simp only [run_step, if_true]
    exact ⟨h1, h2, h3⟩

theorem emptyRunInv_run (is_meshing_init : Bool) (schedule : List Thread) :
    EmptyRunInv (schedule.count Thread.worker) (run true is_meshing_init schedule) := by
  unfold run
  induction schedule using List.reverseRecOn with
  | nil => exact ⟨rfl, by simp [run_start], rfl⟩
  | append_singleton l t ih =>
    rw [List.foldl_append, List.count_append]
    cases t
    · exact emptyRunInv_worker_step ih
    · have := emptyRunInv_ui_step ih
      simpa using this

/-- C16, amended: when dilation yields an empty surface, in every interleaving the meshing run
never starts tetrahedralization, never sets `_done_meshing` and never leaves the meshing
state; and once the background thread has taken its six steps the diagnostic `Empty mesh!` has
been written to the error stream and `abort()` has terminated the process. -/
theorem empty_surface_run (is_meshing_init : Bool) (schedule : List Thread) :
    (run true is_meshing_init schedule).tetrahedralization_started = false ∧
      (run true is_meshing_init schedule).done_meshing = false ∧
      (run true is_meshing_init schedule).application_state = Application_State.Meshing ∧
      (6 ≤ schedule.count Thread.worker →
        (run true is_meshing_init schedule).cerr = ["Empty mesh!"] ∧
          (run true is_meshing_init schedule).aborted = true) := by
  obtain ⟨-, h2, -, -, h5, -, -, -, h9, -, -, h12⟩ := runInv_run true is_meshing_init schedule
  obtain ⟨-, e2, e3⟩ := emptyRunInv_run is_meshing_init schedule
  have hstage : ¬ 6 ≤ (run true is_meshing_init schedule).worker.stage := fun h => by
    simpa using h12 h
  refine ⟨?_, ?_, ?_, fun hk => ⟨by rw [e3, if_pos (by omega)], e2.mpr hk⟩⟩
  · cases h : (run true is_meshing_init schedule).tetrahedralization_started
    · rfl
    · exact absurd (h2.mp h) (by omega)
  · cases h : (run true is_meshing_init schedule).done_meshing
    · rfl
    · exact absurd (h5 h) (by omega)
  · cases h : (run true is_meshing_init schedule).application_state
    · rfl
    · exact absurd (h9 h) (by omega)

theorem empty_surface_run_witness :
    6 ≤ (List.replicate 6 Thread.worker ++ [Thread.ui]).count Thread.worker ∧
    ((run true false (List.replicate 6 Thread.worker ++ [Thread.ui])).tetrahedralization_started
        = false ∧
      (run true false (List.replicate 6 Thread.worker ++ [Thread.ui])).done_meshing = false ∧
      (run true false (List.replicate 6 Thread.worker ++ [Thread.ui])).application_state
        = Application_State.Meshing ∧
      (6 ≤ (List.replicate 6 Thread.worker ++ [Thread.ui]).count Thread.worker →
        (run true false (List.replicate 6 Thread.worker ++ [Thread.ui])).cerr
            = ["Empty mesh!"] ∧
          (run true false (List.replicate 6 Thread.worker ++ [Thread.ui])).aborted = true)) :=
  ⟨by decide, empty_surface_run false (List.replicate 6 Thread.worker ++ [Thread.ui])⟩

/-! ## C21: the angles of the rotation buttons -/

/-- The model constant as a real number. -/
theorem M_2_PI_cast : ((M_2_PI : Scalar) : ℝ) = 0.63661977236758134308 := by
  unfold M_2_PI
  norm_num

/-- The constant `M_2_PI` is `2/π` to six decimal places. -/
theorem M_2_PI_near : |((M_2_PI : Scalar) : ℝ) - 2 / Real.pi| < 1 / 10 ^ 6 := by
  have h1 := Real.pi_gt_d6
  have h2 := Real.pi_lt_d6
  have hpos := Real.pi_pos
  rw [M_2_PI_cast, abs_lt]
  constructor
  · have : 2 / Real.pi < 0.63661977236758134308 + 1 / 10 ^ 6 := by
      rw [div_lt_iff₀ hpos]
      norm_num at h1 ⊢
      nlinarith
    linarith
  · have : 0.63661977236758134308 - 1 / 10 ^ 6 < 2 / Real.pi := by
      rw [lt_div_iff₀ hpos]
      norm_num at h2 ⊢
      nlinarith
    linarith

/-- C21 fails on the code: the rotation buttons pass `M_2_PI / 120` and `M_2_PI / 36` to
`rotate_torsion_frame`, with either sign, where `M_2_PI` is `2/π` and not `2π`: the angle
passed by the `3deg` buttons is less than a ninth of 3 degrees (`π/60`), and the angle passed
by the `10deg` buttons less than a ninth of 10 degrees (`π/18`). -/
theorem rotation_buttons_angle :
    |((M_2_PI : Scalar) : ℝ) - 2 / Real.pi| < 1 / 10 ^ 6 ∧
    rotate_torsion_frame_arg .plus_3deg = M_2_PI / 120 ∧
    rotate_torsion_frame_arg .minus_3deg = -(M_2_PI / 120) ∧
    rotate_torsion_frame_arg .plus_10deg = M_2_PI / 36 ∧
    rotate_torsion_frame_arg .minus_10deg = -(M_2_PI / 36) ∧
    9 * ((rotate_torsion_frame_arg .plus_3deg : Scalar) : ℝ) < Real.pi / 60 ∧
    9 * ((rotate_torsion_frame_arg .plus_10deg : Scalar) : ℝ) < Real.pi / 18 := by
  have h1 := Real.pi_gt_d6
  refine ⟨M_2_PI_near, ?_, ?_, ?_, ?_, ?_, ?_⟩
  · simp only [rotate_torsion_frame_arg, angle_3deg]; norm_num
  · simp only [rotate_torsion_frame_arg, angle_3deg]; norm_num
  · simp only [rotate_torsion_frame_arg, angle_10deg]; norm_num
  · simp only [rotate_torsion_frame_arg, angle_10deg]; norm_num
  · simp only [rotate_torsion_frame_arg, angle_3deg]
    push_cast
    rw [M_2_PI_cast]
    norm_num at h1 ⊢
    linarith
  · simp only [rotate_torsion_frame_arg, angle_10deg]
    push_cast
    rw [M_2_PI_cast]
    norm_num at h1 ⊢
    linarith

/-! ## C27: the cut index stays in the range of the cage -/

/-- One unfolding of the body, on the cubic `c` and its two halves. -/
theorem flatten_succ (fuel : Nat) (poly : Polygon) (c : Cubic) (tol : Scalar) (level : Nat) :
    flatten (fuel + 1) poly c tol level =
    if level > 6 then poly
    else if c.flatness < tol then poly ++ [(c.x4, c.y4)]
    else flatten fuel (flatten fuel poly c.first_half tol (level + 1)) c.second_half tol
      (level + 1) := rfl

theorem flatness_nonneg (x1 y1 x2 y2 x3 y3 x4 y4 : Scalar) :
    0 ≤ flatness x1 y1 x2 y2 x3 y3 x4 y4 := by
  unfold flatness dadd
  have h1 : 0 ≤ fl64 (|dsub (dsub (fl64 (x1 + x3)) x2) x2| + |dsub (dsub (fl64 (y1 + y3)) y2) y2|) :=
    fl64_nonneg _ (by positivity)
  have h2 := fl64_nonneg _ (add_nonneg h1 (abs_nonneg (dsub (dsub (fl64 (x2 + x4)) x3) x3)))
  exact fl64_nonneg _ (add_nonneg h2 (abs_nonneg _))

/-- Every call appends: the result is `poly` followed by at most `2 ^ (6 - level)` points,
and by none when the call is made at a level above 6. -/
theorem flatten_appends (fuel : Nat) :
    ∀ (poly : Polygon) (c : Cubic) (tol : Scalar) (level : Nat),
      ∃ added : Polygon, flatten fuel poly c tol level = poly ++ added ∧
        added.length ≤ 2 ^ (6 - level) ∧ (6 < level → added = []) := by
  induction fuel with
  | zero =>
    intro poly c tol level
    exact ⟨[], by simp [flatten, svgFlattenCubicBezier_fuel], by simp, fun _ => rfl⟩
  | succ fuel ih =>
    intro poly c tol level
    rw [flatten_succ]
    by_cases h : level > 6
    · rw [if_pos h]
      exact ⟨[], by simp, by simp, fun _ => rfl⟩
    · rw [if_neg h]
      by_cases hflat : c.flatness < tol
      · rw [if_pos hflat]
        exact ⟨[(c.x4, c.y4)], rfl, Nat.one_le_two_pow, fun h6 => absurd h6 h⟩
      · rw [if_neg hflat]
        obtain ⟨a1, e1, l1, z1⟩ := ih poly c.first_half tol (level + 1)
        rw [e1]
        obtain ⟨a2, e2, l2, z2⟩ := ih (poly ++ a1) c.second_half tol (level + 1)
        rw [e2]
        refine ⟨a1 ++ a2, by rw [List.append_assoc], ?_, fun h6 => absurd h6 h⟩
        rw [List.length_append]
        by_cases h6 : level = 6
        · subst h6
          rw [z1 (by omega), z2 (by omega)]
          simp
        · have hp : 6 - level = (6 - (level + 1)) + 1 := by omega
          rw [hp, pow_succ]
          omega

/-- A tolerance that is not positive: no flatness test passes and nothing is appended. -/
theorem flatten_nonpos (fuel : Nat) :
    ∀ (poly : Polygon) (c : Cubic) (tol : Scalar) (level : Nat), tol ≤ 0 →
      flatten fuel poly c tol level = poly := by
  induction fuel with
  | zero =>
    intro poly c tol level _
    rfl
  | succ fuel ih =>
    intro poly c tol level htol
    rw [flatten_succ]
    by_cases h : level > 6
    · rw [if_pos h]
    · have hflat : ¬ c.flatness < tol := by
        have := flatness_nonneg c.x1 c.y1 c.x2 c.y2 c.x3 c.y3 c.x4 c.y4
        unfold Cubic.flatness
        intro hlt
        linarith
      rw [if_neg h, if_neg hflat, ih _ _ _ _ htol, ih _ _ _ _ htol]

theorem last_piece_x4 (c : Cubic) (k : Nat) :
    (last_piece c k).x4 = c.x4 ∧ (last_piece c k).y4 = c.y4 := by
  induction k generalizing c with
  | zero => exact ⟨rfl, rfl⟩
  | succ k ih => exact ih c.second_half

/-- When the flatness test passes on the last piece of level `k`, the call appends points and
the last of them is the end point of the cubic. -/
theorem flatten_last_piece (k : Nat) :
    ∀ (fuel : Nat) (poly : Polygon) (c : Cubic) (tol : Scalar) (level : Nat),
      level + k ≤ 6 → k < fuel → (last_piece c k).flatness < tol →
      ∃ added : Polygon, flatten fuel poly c tol level = poly ++ added ∧
        added.getLast? = some (c.x4, c.y4) := by
  induction k with
  | zero =>
    intro fuel poly c tol level hk hfuel hflat
    obtain ⟨fuel, rfl⟩ : ∃ f, fuel = f + 1 := ⟨fuel - 1, by omega⟩
    have hc : c.flatness < tol := hflat
    rw [flatten_succ, if_neg (by omega), if_pos hc]
    exact ⟨[(c.x4, c.y4)], rfl, rfl⟩
  | succ k ih =>
    intro fuel poly c tol level hk hfuel hflat
    obtain ⟨fuel, rfl⟩ : ∃ f, fuel = f + 1 := ⟨fuel - 1, by omega⟩
    rw [flatten_succ, if_neg (by omega)]
    by_cases hc : c.flatness < tol
    · rw [if_pos hc]
      exact ⟨[(c.x4, c.y4)], rfl, rfl⟩
    · rw [if_neg hc]
      obtain ⟨a1, e1, -⟩ := flatten_appends fuel poly c.first_half tol (level + 1)
      rw [e1]
      obtain ⟨a2, e2, l2⟩ := ih fuel (poly ++ a1) c.second_half tol (level + 1) (by omega)
        (by omega) hflat
      rw [e2]
      refine ⟨a1 ++ a2, by rw [List.append_assoc], ?_⟩
      cases a2 with
      | nil => simp at l2
      | cons p a2 => rw [List.getLast?_append_cons]; exact l2
/-- The equation of the source: started with its fuel, the model satisfies the recursion of
`svgFlattenCubicBezier` at every level, so the fuel never cuts a call short. -/
theorem svgFlattenCubicBezier_unfold (poly : Polygon) (x1 y1 x2 y2 x3 y3 x4 y4 tol : Scalar)
    (level : Nat) :
    svgFlattenCubicBezier poly x1 y1 x2 y2 x3 y3 x4 y4 tol level =
    if level > 6 then poly
    else if flatness x1 y1 x2 y2 x3 y3 x4 y4 < tol then poly ++ [(x4, y4)]
    else
      svgFlattenCubicBezier
        (svgFlattenCubicBezier poly x1 y1 (mid x1 x2) (mid y1 y2)
          (mid (mid x1 x2) (mid x2 x3)) (mid (mid y1 y2) (mid y2 y3))
          (mid (mid (mid x1 x2) (mid x2 x3)) (mid (mid x2 x3) (mid x3 x4)))
          (mid (mid (mid y1 y2) (mid y2 y3)) (mid (mid y2 y3) (mid y3 y4))) tol (level + 1))
        (mid (mid (mid x1 x2) (mid x2 x3)) (mid (mid x2 x3) (mid x3 x4)))
        (mid (mid (mid y1 y2) (mid y2 y3)) (mid (mid y2 y3) (mid y3 y4)))
        (mid (mid x2 x3) (mid x3 x4)) (mid (mid y2 y3) (mid y3 y4))
        (mid x3 x4) (mid y3 y4) x4 y4 tol (level + 1) := by
  unfold svgFlattenCubicBezier
  by_cases h : level > 6
  · rw [if_pos h]
    cases hf : 8 - level with
    | zero => rfl
    | succ n =>
      exact (flatten_succ n poly ⟨x1, y1, x2, y2, x3, y3, x4, y4⟩ tol level).trans (if_pos h)
  · have hf : 8 - level = (8 - (level + 1)) + 1 := by omega
    rw [hf]
    exact flatten_succ (8 - (level + 1)) poly ⟨x1, y1, x2, y2, x3, y3, x4, y4⟩ tol level

/-- No call is entered with a level above 7 when the first call has a level of at most 7. -/
theorem svgFlattenCubicBezier_deepest_fuel_le (fuel : Nat) :
    ∀ (x1 y1 x2 y2 x3 y3 x4 y4 tol : Scalar) (level : Nat), level ≤ 7 →
      svgFlattenCubicBezier_deepest_fuel fuel x1 y1 x2 y2 x3 y3 x4 y4 tol level ≤ 7 := by
  induction fuel with
  | zero =>
    intro x1 y1 x2 y2 x3 y3 x4 y4 tol level h
    exact h
  | succ fuel ih =>
    intro x1 y1 x2 y2 x3 y3 x4 y4 tol level h
    unfold svgFlattenCubicBezier_deepest_fuel
    by_cases h6 : level > 6
    · rw [if_pos h6]; exact h
    · rw [if_neg h6]
      split
      · exact h
      · exact max_le (ih _ _ _ _ _ _ _ _ _ _ (by omega)) (ih _ _ _ _ _ _ _ _ _ _ (by omega))

/-! ## Pieces of a parabola: a subdivision without rounding -/

theorem dadd_int (a b : Int) (h0 : 0 ≤ a + b) (h1 : a + b < 2 ^ 53) :
    dadd (a : Scalar) (b : Scalar) = ((a + b : Int) : Scalar) := by
  unfold dadd
  rw [← Int.cast_add]
  exact fl64_intCast _ h0 h1

theorem dsub_int (a b : Int) (h0 : 0 ≤ a - b) (h1 : a - b < 2 ^ 53) :
    dsub (a : Scalar) (b : Scalar) = ((a - b : Int) : Scalar) := by
  unfold dsub
  rw [← Int.cast_sub]
  exact fl64_intCast _ h0 h1

/-- The midpoint of two integers of even sum is computed exactly. -/
theorem mid_int (a b m : Int) (h : a + b = 2 * m) (h0 : 0 ≤ m) (h1 : m < 2 ^ 52) :
    mid (a : Scalar) (b : Scalar) = (m : Scalar) := by
  unfold mid dmul
  rw [dadd_int a b (by omega) (by omega), h]
  have e : ((2 * m : Int) : Scalar) * 0.5 = (m : Scalar) := by
    push_cast
    ring
  rw [e]
  exact fl64_intCast m h0 (by omega)

theorem mid_zero : mid 0 0 = 0 := by
  simp [mid, dmul, dadd, fl64_zero]

theorem second_difference_zero : dsub (dsub (dadd 0 0) 0) 0 = 0 := by
  simp [dsub, dadd, fl64_zero]

/-- The first half of a piece of the parabola is a piece of the parabola, computed exactly. -/
theorem parabola_first_half (A B C : Int) (hA : 0 ≤ A) (hB : 0 ≤ B) (hC : 0 ≤ C)
    (hb : 3 * A + 12 * B + 12 * C < 2 ^ 50) :
    (parabola_piece A (2 * B) (4 * C)).first_half = parabola_piece A B C := by
  have m12 : mid ((3 * A : Int) : Scalar) ((3 * A + 2 * (2 * B) : Int) : Scalar)
      = ((3 * A + 2 * B : Int) : Scalar) := mid_int _ _ _ (by ring) (by omega) (by omega)
  have m23 : mid ((3 * A + 2 * (2 * B) : Int) : Scalar)
      ((3 * A + 4 * (2 * B) + 4 * C : Int) : Scalar)
      = ((3 * A + 6 * B + 2 * C : Int) : Scalar) := mid_int _ _ _ (by ring) (by omega) (by omega)
  have m123 : mid ((3 * A + 2 * B : Int) : Scalar) ((3 * A + 6 * B + 2 * C : Int) : Scalar)
      = ((3 * A + 4 * B + C : Int) : Scalar) := mid_int _ _ _ (by ring) (by omega) (by omega)
  have m34 : mid ((3 * A + 4 * (2 * B) + 4 * C : Int) : Scalar)
      ((3 * A + 6 * (2 * B) + 3 * (4 * C) : Int) : Scalar)
      = ((3 * A + 10 * B + 8 * C : Int) : Scalar) := mid_int _ _ _ (by ring) (by omega) (by omega)
  have m234 : mid ((3 * A + 6 * B + 2 * C : Int) : Scalar)
      ((3 * A + 10 * B + 8 * C : Int) : Scalar)
      = ((3 * A + 8 * B + 5 * C : Int) : Scalar) := mid_int _ _ _ (by ring) (by omega) (by omega)
  have m1234 : mid ((3 * A + 4 * B + C : Int) : Scalar) ((3 * A + 8 * B + 5 * C : Int) : Scalar)
      = ((3 * A + 6 * B + 3 * C : Int) : Scalar) := mid_int _ _ _ (by ring) (by omega) (by omega)
  simp only [Cubic.first_half, parabola_piece, m12, m23, m123, m34, m234, m1234, mid_zero]

/-- The second half of a piece of the parabola is a piece of the parabola, computed
exactly. -/
theorem parabola_second_half (A B C : Int) (hA : 0 ≤ A) (hB : 0 ≤ B) (hC : 0 ≤ C)
    (hb : 3 * A + 12 * B + 12 * C < 2 ^ 50) :
    (parabola_piece A (2 * B) (4 * C)).second_half
      = parabola_piece (A + 2 * B + C) (B + C) C := by
  have m12 : mid ((3 * A : Int) : Scalar) ((3 * A + 2 * (2 * B) : Int) : Scalar)
      = ((3 * A + 2 * B : Int) : Scalar) := mid_int _ _ _ (by ring) (by omega) (by omega)
  have m23 : mid ((3 * A + 2 * (2 * B) : Int) : Scalar)
      ((3 * A + 4 * (2 * B) + 4 * C : Int) : Scalar)
      = ((3 * A + 6 * B + 2 * C : Int) : Scalar) := mid_int _ _ _ (by ring) (by omega) (by omega)
  have m123 : mid ((3 * A + 2 * B : Int) : Scalar) ((3 * A + 6 * B + 2 * C : Int) : Scalar)
      = ((3 * A + 4 * B + C : Int) : Scalar) := mid_int _ _ _ (by ring) (by omega) (by omega)
  have m34 : mid ((3 * A + 4 * (2 * B) + 4 * C : Int) : Scalar)
      ((3 * A + 6 * (2 * B) + 3 * (4 * C) : Int) : Scalar)
      = ((3 * (A + 2 * B + C) + 4 * (B + C) + C : Int) : Scalar) :=
    mid_int _ _ _ (by ring) (by omega) (by omega)
  have m234 : mid ((3 * A + 6 * B + 2 * C : Int) : Scalar)
      ((3 * (A + 2 * B + C) + 4 * (B + C) + C : Int) : Scalar)
      = ((3 * (A + 2 * B + C) + 2 * (B + C) : Int) : Scalar) :=
    mid_int _ _ _ (by ring) (by omega) (by omega)
  have m1234 : mid ((3 * A + 4 * B + C : Int) : Scalar)
      ((3 * (A + 2 * B + C) + 2 * (B + C) : Int) : Scalar)
      = ((3 * (A + 2 * B + C) : Int) : Scalar) := mid_int _ _ _ (by ring) (by omega) (by omega)
  have e4 : ((3 * A + 6 * (2 * B) + 3 * (4 * C) : Int) : Scalar)
      = ((3 * (A + 2 * B + C) + 6 * (B + C) + 3 * C : Int) : Scalar) := by
    congr 1
    ring
  simp only [Cubic.second_half, parabola_piece, m12, m23, m123, m34, m234, m1234, mid_zero]
  rw [e4]

/-- The flatness test of a piece of the parabola compares `2 * C` with the tolerance. -/
theorem parabola_flatness (A B C : Int) (hA : 0 ≤ A) (hB : 0 ≤ B) (hC : 0 ≤ C)
    (hb : 3 * A + 6 * B + 3 * C < 2 ^ 50) :
    (parabola_piece A B C).flatness = ((2 * C : Int) : Scalar) := by
  have s1 : dsub (dsub (dadd ((3 * A : Int) : Scalar) ((3 * A + 4 * B + C : Int) : Scalar))
      ((3 * A + 2 * B : Int) : Scalar)) ((3 * A + 2 * B : Int) : Scalar) = ((C : Int) : Scalar) := by
    rw [dadd_int _ _ (by omega) (by omega), dsub_int _ _ (by omega) (by omega),
      dsub_int _ _ (by omega) (by omega)]
    congr 1
    ring
  have s2 : dsub (dsub (dadd ((3 * A + 2 * B : Int) : Scalar)
      ((3 * A + 6 * B + 3 * C : Int) : Scalar))
      ((3 * A + 4 * B + C : Int) : Scalar)) ((3 * A + 4 * B + C : Int) : Scalar)
      = ((C : Int) : Scalar) := by
    rw [dadd_int _ _ (by omega) (by omega), dsub_int _ _ (by omega) (by omega),
      dsub_int _ _ (by omega) (by omega)]
    congr 1
    ring
  have hC' : (0 : Scalar) ≤ ((C : Int) : Scalar) := by exact_mod_cast hC
  have z : ((0 : Int) : Scalar) = 0 := Int.cast_zero
  unfold Cubic.flatness flatness
  simp only [parabola_piece, s1, s2, second_difference_zero, abs_zero, abs_of_nonneg hC']
  rw [← z, dadd_int _ _ (by omega) (by omega), dadd_int _ _ (by omega) (by omega),
    dadd_int _ _ (by omega) (by omega)]
  congr 1
  ring

/-- The pieces of the parabola with second difference `4 ^ n`, entered `n` levels above level
6 with a tolerance of at most `2`: the test fails on every sub-curve down to level 6, every
branch is cut off at level 7, and nothing is appended. -/
theorem flatten_parabola_cut_off (fuel : Nat) :
    ∀ (poly : Polygon) (tol : Scalar) (level n : Nat) (A j : Int),
      level + n = 6 → tol ≤ 2 → 0 ≤ A → 0 ≤ j →
      3 * A + 6 * (4 ^ n * j) + 3 * 4 ^ n < 2 ^ 50 →
      flatten fuel poly (parabola_piece A (4 ^ n * j) (4 ^ n)) tol level = poly := by
  induction fuel with
  | zero =>
    intro poly tol level n A j _ _ _ _ _
    rfl
  | succ fuel ih =>
    intro poly tol level n A j hn htol hA hj hb
    have hpow : (0 : Int) < 4 ^ n := by positivity
    have hBj : (0 : Int) ≤ 4 ^ n * j := mul_nonneg hpow.le hj
    have hflat : ¬ (parabola_piece A (4 ^ n * j) (4 ^ n)).flatness < tol := by
      rw [parabola_flatness A _ _ hA hBj hpow.le hb]
      have h1 : (1 : Scalar) ≤ (((4 : Int) ^ n : Int) : Scalar) := by exact_mod_cast hpow
      push_cast at h1 ⊢
      intro hlt
      linarith
    rw [flatten_succ, if_neg (by omega), if_neg hflat]
    cases n with
    | zero =>
      obtain ⟨a1, e1, -, z1⟩ := flatten_appends fuel poly
        (parabola_piece A (4 ^ 0 * j) (4 ^ 0)).first_half tol (level + 1)
      rw [e1, z1 (by omega), List.append_nil]
      obtain ⟨a2, e2, -, z2⟩ := flatten_appends fuel poly
        (parabola_piece A (4 ^ 0 * j) (4 ^ 0)).second_half tol (level + 1)
      rw [e2, z2 (by omega), List.append_nil]
    | succ n =>
      have hpow' : (0 : Int) < 4 ^ n := by positivity
      have hBj' : (0 : Int) ≤ 4 ^ n * j := mul_nonneg hpow'.le hj
      have eB : (4 : Int) ^ (n + 1) * j = 2 * (4 ^ n * (2 * j)) := by ring
      have eC : (4 : Int) ^ (n + 1) = 4 * 4 ^ n := by ring
      rw [eB, eC] at hb ⊢
      have e2j : (4 : Int) ^ n * (2 * j) = 2 * (4 ^ n * j) := by ring
      rw [parabola_first_half A _ _ hA (by rw [e2j]; omega) hpow'.le (by rw [e2j]; omega),
        parabola_second_half A _ _ hA (by rw [e2j]; omega) hpow'.le (by rw [e2j]; omega)]
      rw [ih poly tol (level + 1) n A (2 * j) (by omega) htol hA (by omega)
        (by rw [e2j]; omega)]
      have e3 : (4 : Int) ^ n * (2 * j) + 4 ^ n = 4 ^ n * (2 * j + 1) := by ring
      rw [e3]
      exact ih poly tol (level + 1) n (A + 2 * (4 ^ n * (2 * j)) + 4 ^ n) (2 * j + 1)
        (by omega) htol (by rw [e2j]; omega) (by omega)
        (by
          have e4 : (4 : Int) ^ n * (2 * j + 1) = 2 * (4 ^ n * j) + 4 ^ n := by ring
          rw [e4, e2j]
          omega)

/-- The tolerance `0` (or a negative one) appends nothing, for every cubic. -/
theorem svgFlattenCubicBezier_nonpos_tol (poly : Polygon)
    (x1 y1 x2 y2 x3 y3 x4 y4 tol : Scalar) (htol : tol ≤ 0) :
    svgFlattenCubicBezier poly x1 y1 x2 y2 x3 y3 x4 y4 tol 0 = poly :=
  flatten_nonpos 8 poly ⟨x1, y1, x2, y2, x3, y3, x4, y4⟩ tol 0 htol

/-! ## C22: the end point of the flattened curve -/

/-- C22, as stated, fails: with the tolerance `1.5` of `loadSvg`, the cubic with the control
points `(0, 0)`, `(0, 0)`, `(4096, 0)`, `(12288, 0)` is flattened at level 0 to nothing: no
point is appended, so the end point `(12288, 0)` is not. -/
theorem flatten_cut_off_counterexample :
    svgFlattenCubicBezier [] 0 0 0 0 4096 0 12288 0 1.5 0 = [] := by
  have h := flatten_parabola_cut_off 8 [] 1.5 0 6 0 0 rfl (by norm_num) (le_refl _) (le_refl _)
    (by norm_num)
  have e : parabola_piece 0 (4 ^ 6 * 0) (4 ^ 6) = ⟨0, 0, 0, 0, 4096, 0, 12288, 0⟩ := by
    simp [parabola_piece]
  rw [e] at h
  exact h

/-- C22, amended: for every cubic and every tolerance such that the flatness test passes, at
some level `k ≤ 6`, on the sub-curve that ends at the end point of the cubic (the cubic
itself for `k = 0`, then the second half of the previous sub-curve), `svgFlattenCubicBezier`
called at level 0 appends at least one point and the last point appended is the end point
`(x4, y4)` of the curve. -/
theorem svgFlattenCubicBezier_ends_at_end_point (poly : Polygon)
    (x1 y1 x2 y2 x3 y3 x4 y4 tol : Scalar) (k : Nat) (hk : k ≤ 6)
    (h : (last_piece ⟨x1, y1, x2, y2, x3, y3, x4, y4⟩ k).flatness < tol) :
    ∃ added : Polygon,
      svgFlattenCubicBezier poly x1 y1 x2 y2 x3 y3 x4 y4 tol 0 = poly ++ added ∧
      1 ≤ added.length ∧ added.getLast? = some (x4, y4) := by
  obtain ⟨added, e, hl⟩ := flatten_last_piece k 8 poly ⟨x1, y1, x2, y2, x3, y3, x4, y4⟩ tol 0
    (by omega) (by omega) h
  refine ⟨added, e, ?_, hl⟩
  cases added with
  | nil => simp at hl
  | cons p l => simp

theorem svgFlattenCubicBezier_ends_at_end_point_witness :
    (1 ≤ 6 ∧ (last_piece ⟨0, 0, 0, 0, 4, 0, 12, 0⟩ 1).flatness < 4) ∧
    ∃ added : Polygon,
      svgFlattenCubicBezier [(0, 0)] 0 0 0 0 4 0 12 0 4 0 = [(0, 0)] ++ added ∧
      1 ≤ added.length ∧ added.getLast? = some (12, 0) :=
  have hflat : (last_piece ⟨0, 0, 0, 0, 4, 0, 12, 0⟩ 1).flatness < 4 := by
    have e : (⟨0, 0, 0, 0, 4, 0, 12, 0⟩ : Cubic) = parabola_piece 0 (2 * 0) (4 * 1) := by
      simp [parabola_piece]
    show (Cubic.second_half ⟨0, 0, 0, 0, 4, 0, 12, 0⟩).flatness < 4
    rw [e, parabola_second_half 0 0 1 (le_refl _) (le_refl _) (by norm_num) (by norm_num),
      parabola_flatness _ _ _ (by norm_num) (by norm_num) (by norm_num) (by norm_num)]
    norm_num
  ⟨⟨by norm_num, hflat⟩,
    svgFlattenCubicBezier_ends_at_end_point [(0, 0)] 0 0 0 0 4 0 12 0 4 1 (by norm_num) hflat⟩

/-! ## C26: the cost of a flattening -/

/-- C26: for every cubic and every tolerance, the call of `svgFlattenCubicBezier` at level 0
returns (the model is total, and its fuel is never what ends a call), no call nested in it
is entered with a level above 7, and the result is `poly` followed by at most 64 points. -/
theorem svgFlattenCubicBezier_bounded (poly : Polygon) (x1 y1 x2 y2 x3 y3 x4 y4 tol : Scalar) :
    svgFlattenCubicBezier_deepest x1 y1 x2 y2 x3 y3 x4 y4 tol 0 ≤ 7 ∧
    ∃ added : Polygon,
      svgFlattenCubicBezier poly x1 y1 x2 y2 x3 y3 x4 y4 tol 0 = poly ++ added ∧
      added.length ≤ 64 := by
  refine ⟨svgFlattenCubicBezier_deepest_fuel_le _ _ _ _ _ _ _ _ _ _ 0 (by omega), ?_⟩
  obtain ⟨added, e, hl, -⟩ :=
    flatten_appends 8 poly ⟨x1, y1, x2, y2, x3, y3, x4, y4⟩ tol 0
  exact ⟨added, e, by simpa using hl⟩

/-! ## C23: the reads of the inner loop of the scan -/

/-- The reads of one run: entered at the start of `suf`, the inner loop reads the `m` keys
equal to `v` and then the position after them, `m + 1` consecutive indices in all. -/
theorem face_run_reads_spec (v : List Int) :
    ∀ (fuel : Nat) (pre suf : List (List Int)),
      (suf.takeWhile fun k => decide (k = v)).length < fuel →
      face_run_reads (pre ++ suf) v fuel pre.length =
        List.range' pre.length ((suf.takeWhile fun k => decide (k = v)).length + 1)
  | 0, _, _, h => absurd h (Nat.not_lt_zero _)
  | fuel + 1, pre, [], _ => by
    simp [face_run_reads]
  | fuel + 1, pre, x :: rest, h => by
    have hget : (pre ++ x :: rest)[pre.length]? = some x := by
      rw [List.getElem?_append_right (Nat.le_refl _)]
      simp
    rw [face_run_reads, hget]
    by_cases hx : x = v
    · have htw : ((x :: rest).takeWhile fun k => decide (k = v))
          = x :: rest.takeWhile fun k => decide (k = v) := by
        simp [List.takeWhile_cons, hx]
      rw [htw, List.length_cons] at h ⊢
      have ih := face_run_reads_spec v fuel (pre ++ [x]) rest (by omega)
      rw [List.append_assoc, List.singleton_append, List.length_append, List.length_singleton]
        at ih
      rw [if_pos (by rw [hx]), ih]
      rfl
    · have htw : ((x :: rest).takeWhile fun k => decide (k = v)) = [] := by
        simp [List.takeWhile_cons, hx]
      rw [htw, if_neg (by simpa using hx)]
      rfl

/-- The scan entered at the start of a non-empty `suf` with enough fuel: the inner loop
reads the position `(pre ++ suf).length`, one past the last key. -/
theorem face_scan_reads_past_end :
    ∀ (fuel : Nat) (pre suf : List (List Int)), suf ≠ [] → suf.length ≤ fuel →
      (pre ++ suf).length ∈ face_scan_reads (pre ++ suf) fuel pre.length
  | 0, _, suf, hne, hfuel =>
    absurd (List.eq_nil_of_length_eq_zero (Nat.le_zero.mp hfuel)) hne
  | fuel + 1, pre, [], hne, _ => absurd rfl hne
  | fuel + 1, pre, x :: rest, _, hfuel => by
    have hlt : pre.length < (pre ++ x :: rest).length := by
      rw [List.length_append, List.length_cons]; omega
    have hv : (pre ++ x :: rest).getD pre.length [] = x := by
      rw [List.getD_eq_getElem?_getD, List.getElem?_append_right (Nat.le_refl _)]
      simp
    have hmle : ((x :: rest).takeWhile fun k => decide (k = x)).length ≤ (x :: rest).length :=
      (List.takeWhile_sublist _).length_le
    have hm1 : 1 ≤ ((x :: rest).takeWhile fun k => decide (k = x)).length := by
      simp [List.takeWhile_cons]
    have hrun := face_run_spec x ((pre ++ x :: rest).length + 1 - pre.length) pre (x :: rest) 0
      (by rw [List.length_append]; omega)
    have hreads := face_run_reads_spec x ((pre ++ x :: rest).length + 1 - pre.length) pre
      (x :: rest) (by rw [List.length_append]; omega)
    have hsplit := List.takeWhile_append_dropWhile (fun k => decide (k = x)) (x :: rest)
    have hlen := congrArg List.length hsplit
    rw [List.length_append] at hlen
    rw [face_scan_reads, if_pos hlt]
    simp only [hv, hrun, hreads]
    rw [List.mem_append]
    by_cases hdw : ((x :: rest).dropWhile fun k => decide (k = x)) = []
    · left
      rw [hdw, List.length_nil] at hlen
      rw [List.mem_range']
      refine ⟨((x :: rest).takeWhile fun k => decide (k = x)).length, by omega, ?_⟩
      rw [List.length_append]
      omega
    · right
      have hcat : pre ++ x :: rest
          = (pre ++ (x :: rest).takeWhile fun k => decide (k = x)) ++
              (x :: rest).dropWhile fun k => decide (k = x) := by
        rw [List.append_assoc, hsplit]
      have ih := face_scan_reads_past_end fuel
        (pre ++ (x :: rest).takeWhile fun k => decide (k = x))
        ((x :: rest).dropWhile fun k => decide (k = x)) hdw (by
          rw [List.length_cons] at hlen hfuel
          omega)
      rw [← hcat, List.length_append] at ih
      exact ih

/-- For every key list that is not empty, the inner loop of the scan reads `tris[i]` with
`i = tris.size()`. -/
theorem boundary_scan_reads_past_end (tris : List (List Int)) (hne : tris ≠ []) :
    tris.length ∈ boundary_scan_reads tris := by
  have hlen : (tris.insertionSort (· ≤ ·)).length = tris.length := List.length_insertionSort _ _
  have hne2 : tris.insertionSort (· ≤ ·) ≠ [] := by
    intro h
    rw [h] at hlen
    exact hne (List.eq_nil_of_length_eq_zero hlen.symm)
  have h := face_scan_reads_past_end tris.length [] (tris.insertionSort (· ≤ ·)) hne2
    (le_of_eq hlen)
  rw [List.nil_append, hlen] at h
  exact h

/-- C23 fails on the code: for the four keys of the tetrahedron `(0, 1, 2, 3)` the condition
of the inner `while` reads `tris[i]` at `i = 0, 1, 2`, then `2, 3`, then `3, 4`: the last
read of the last run is at `i = 4`, the number of keys, because the condition does not test
`i` against `tris.size()`. -/
theorem inner_while_reads_past_end :
    (tet_keys 0 1 2 3).length = 4 ∧
      boundary_scan_reads (tet_keys 0 1 2 3) = [0, 1, 2, 2, 3, 3, 4] ∧
      (tet_keys 0 1 2 3).length ∈ boundary_scan_reads (tet_keys 0 1 2 3) := by
  decide

/-! ## C24, C25: `remove_garbage_components` -/

theorem foldl_max_mem (l : List Int) :
    ∀ a : Int, l.foldl max a = a ∨ l.foldl max a ∈ l := by
  induction l with
  | nil => intro a; exact Or.inl rfl
  | cons b l ih =>
    intro a
    rw [List.foldl_cons]
    rcases ih (max a b) with h | h
    · rcases max_choice a b with hm | hm
      · left; rw [h, hm]
      · right; rw [h, hm]; exact List.mem_cons_self _ _
    · right; exact List.mem_cons_of_mem _ h

/-- The largest label is one of the labels. -/
theorem maxCoeff_mem (components : List Int) (hne : components ≠ []) :
    maxCoeff components ∈ components := by
  cases components with
  | nil => exact absurd rfl hne
  | cons c l =>
    unfold maxCoeff
    rcases foldl_max_mem (c :: l) ((c :: l).headD 0) with h | h
    · rw [h]; exact List.mem_cons_self _ _
    · exact h

/-- For every labelling that is not empty there is a vertex whose label has no slot in
`component_count`: a vertex of the highest-numbered component. -/
theorem component_count_slot_missing (components : List Int) (hne : components ≠ []) :
    ∃ i, i < components.length ∧ components.getD i 0 = maxCoeff components ∧
      ¬ ((components.getD i 0).toNat < (component_count_resized components).length) := by
  obtain ⟨i, hi, hget⟩ := List.getElem_of_mem (maxCoeff_mem components hne)
  refine ⟨i, hi, ?_, ?_⟩
  · rw [List.getD_eq_getElem?_getD, List.getElem?_eq_getElem hi, hget]
    rfl
  · rw [List.getD_eq_getElem?_getD, List.getElem?_eq_getElem hi, hget]
    simp [component_count_resized]

/-- The component chosen by lines 91-98 is `-1` or the index of a slot of
`component_count`. -/
theorem max_component_lt (component_count : List Int) :
    (max_component component_count).1 = -1 ∨
      (0 ≤ (max_component component_count).1 ∧
        (max_component component_count).1 < (component_count.length : Int)) := by
  unfold max_component
  refine foldl_range_inv
    (fun k st => st.1 = -1 ∨ (0 ≤ st.1 ∧ st.1 < (k : Int)))
    (max_component_step component_count) (-1, 0) component_count.length (Or.inl rfl) ?_
  intro k st _ inv
  unfold max_component_step
  split
  · right
    simp
  · rcases inv with h | ⟨h0, h1⟩
    · exact Or.inl h
    · right
      push_cast
      exact ⟨h0, by omega⟩

/-- C25 fails on the code: for the labelling `0, 0, 0, 1, 1, 1, 1` the largest label is `1`,
so `component_count` is resized to one slot, and line 89 indexes it with the label `1` of
vertex `3`: the highest-numbered component has no slot. -/
theorem component_count_out_of_bounds :
    maxCoeff twoComponents = 1 ∧
      (component_count_resized twoComponents).length = 1 ∧
      twoComponents.getD 3 0 = 1 ∧
      ¬ ((twoComponents.getD 3 0).toNat < (component_count_resized twoComponents).length) := by
  decide

/-- C24 fails on the code: with label `0` on three vertices and label `1` on four, the
counters hold only the count `3` of component `0`, which is chosen, and `newF` is the row
`(0, 1, 2)` of the smaller component; the rows `(3, 4, 5)` and `(4, 5, 6)` of the component
with the most vertices are dropped. -/
theorem remove_garbage_keeps_smaller_component :
    twoComponents.count 0 = 3 ∧ twoComponents.count 1 = 4 ∧
      count_components twoComponents 7 = [3] ∧
      max_component (count_components twoComponents 7) = (0, 3) ∧
      remove_garbage_components twoComponents 7 twoComponentsF = [(0, 1, 2)] := by
  decide

end Unwind
